import Mathlib

/-!
VFd (`src/vfd/main.c`): a verification development

Shallow embedding of the MAC string validator (`is_valid_mac_str`), the QoS
percentage generator (`gen_tc_pctgs`), the lookup functions (`suss_port`,
`suss_vf`, `valid_vlan`, `valid_mtu`), the strip/insert policy
(`vfd_set_ins_strip`), the NIC reconciler (`vfd_update_nic`), the refresh
entry point (`restore_vf_setings`) and the signal handler (`sig_int`,
`close_ports`) of the VF daemon, with theorems about them.

Conventions of the embedding:

* a C string is the list of its characters up to the terminating NUL (for an
  ASCII string, its bytes; a string with any other character is rejected by
  the code and by the model alike);
* a C array is a list and a C `int` is an `Int`; the theorems do not depend on
  the width of `int`;
* a loop over the first `n` entries of an array runs over the first `n`
  entries of the list, and ends with the list if the list is shorter;
* calls into the NIC library are recorded, in order, in a list of `NicCall`;
  their return codes are only ever logged by the code: `vfd_update_nic` leaves
  them out, `vfd_update_nic_rc` is the same function with them;
* a nil pointer is `none`;
* `bleat_printf` logging is not modelled, `malloc` and `strdup` succeed;
* `sriov.h` is not among the sources: the constants and macros the code takes
  from it are parameters (`sriov_h`, `MAX_VFS`, `MAX_QUEUES`).
-/

namespace Vfd

/-! ## `is_valid_mac_str` -/

/-- The C library `isxdigit` on a character (C locale). -/
def isxdigit (c : Char) : Bool :=
  (48 ≤ c.toNat && c.toNat ≤ 57) || (97 ≤ c.toNat && c.toNat ≤ 102) ||
    (65 ≤ c.toNat && c.toNat ≤ 70)

/-- The character `':'`. -/
def is_colon (c : Char) : Bool := c.toNat == 58

/-- The C library `isspace` (C locale): space, `\t`, `\n`, `\v`, `\f`, `\r`. -/
def isspace (c : Char) : Bool := c.toNat == 32 || (9 ≤ c.toNat && c.toNat ≤ 13)

/-- The C library `isdigit`. -/
def isdigit (c : Char) : Bool := 48 ≤ c.toNat && c.toNat ≤ 57

/-- The character scan of `is_valid_mac_str` (`for( tok = mac; *tok; tok++ )`):
`none` when a character is neither a hex digit nor a colon (the code returns
-1 there), otherwise the colon count `ccount`. -/
def scan_chars : List Char → Int → Option Int
  | [], ccount => some ccount
  | c :: cs, ccount =>
    if !isxdigit c then
      if !is_colon c then none
      else scan_chars cs (ccount + 1)
    else scan_chars cs ccount

/-- The tokens that the successive calls `strtok_r( dmac, ":", &strtp )`,
`strtok_r( NULL, ":", &strtp )`, ... return before the first `NULL`: the
maximal non-empty runs of characters other than the delimiter, in order
(`strtok_r` skips leading delimiters, so empty fields yield no token).
`cur` is the token being read, most recent character first. -/
def strtok_r_tokens : List Char → List Char → List (List Char)
  | [], cur => if cur.isEmpty then [] else [cur.reverse]
  | c :: cs, cur =>
    if is_colon c then
      if cur.isEmpty then strtok_r_tokens cs []
      else cur.reverse :: strtok_r_tokens cs []
    else strtok_r_tokens cs (c :: cur)

/-- The digit loop of `atoi`: the value of the longest prefix of decimal
digits, accumulated from `acc`. -/
def atoi_digits : List Char → Int → Int
  | [], acc => acc
  | c :: cs, acc => if isdigit c then atoi_digits cs (acc * 10 + (c.toNat - 48 : Nat)) else acc

/-- Skipping of leading white space by `atoi`. -/
def skip_space : List Char → List Char
  | [] => []
  | c :: cs => if isspace c then skip_space cs else c :: cs

/-- The C library `atoi`: optional white space, optional sign, then decimal
digits; conversion stops at the first other character.  The value is not
reduced to the range of `int` (out of range, C leaves `atoi` undefined). -/
def atoi (s : List Char) : Int :=
  match skip_space s with
  | [] => 0
  | c :: cs =>
    if c.toNat == 45 then - atoi_digits cs 0
    else if c.toNat == 43 then atoi_digits cs 0
    else atoi_digits (c :: cs) 0

/-- The token loop of `is_valid_mac_str`: -1 at the first token with
`atoi( tok ) > 255`, 0 when all tokens pass. -/
def check_tokens : List (List Char) → Int
  | [] => 0
  | tok :: toks => if atoi tok > 255 then -1 else check_tokens toks

/-- `is_valid_mac_str` on the characters of the string (`strdup` is taken to
succeed). -/
def is_valid_mac_chars (mac : List Char) : Int :=
  if mac.length < 17 then -1
  else
    match scan_chars mac 0 with
    | none => -1
    | some ccount =>
      if ccount != 5 then -1
      else check_tokens (strtok_r_tokens mac [])

/-- `static int is_valid_mac_str( char* mac )`: -1 if invalid, 0 if ok. -/
def is_valid_mac_str (mac : String) : Int := is_valid_mac_chars mac.toList

/-! ### The specification's reading of a valid MAC string -/

/-- The colon-separated fields of a string, empty fields included: a string
with `k` colons has `k + 1` fields. -/
def colon_fields : List Char → List (List Char)
  | [] => [[]]
  | c :: cs =>
    if is_colon c then [] :: colon_fields cs
    else (c :: (colon_fields cs).headD []) :: (colon_fields cs).tail

/-- The value of one hexadecimal digit. -/
def hex_digit_value (c : Char) : Nat :=
  if isdigit c then c.toNat - 48 else if 97 ≤ c.toNat then c.toNat - 87 else c.toNat - 55

/-- The hexadecimal value of a run of hexadecimal digits, accumulated from `acc`. -/
def hex_value : List Char → Nat → Nat
  | [], acc => acc
  | c :: cs, acc => hex_value cs (acc * 16 + hex_digit_value c)

/-- A field that is a non-empty run of hexadecimal digits with hexadecimal
value at most 255. -/
def spec_octet (f : List Char) : Bool :=
  !f.isEmpty && f.all isxdigit && decide (hex_value f 0 ≤ 255)

/-- The specification's valid MAC string: exactly six colon-separated fields,
each a non-empty run of hexadecimal digits with hexadecimal value at most 255. -/
def spec_valid_mac (s : List Char) : Bool :=
  (colon_fields s).length == 6 && (colon_fields s).all spec_octet

/-- The canonical form `hh:hh:hh:hh:hh:hh`: 17 characters, six groups of
exactly two hexadecimal digits separated by five colons. -/
def canonical_mac : List Char → Bool
  | [a0, a1, p0, b0, b1, p1, c0, c1, p2, d0, d1, p3, e0, e1, p4, f0, f1] =>
    isxdigit a0 && isxdigit a1 && is_colon p0 && isxdigit b0 && isxdigit b1 && is_colon p1 &&
    isxdigit c0 && isxdigit c1 && is_colon p2 && isxdigit d0 && isxdigit d1 && is_colon p3 &&
    isxdigit e0 && isxdigit e1 && is_colon p4 && isxdigit f0 && isxdigit f1
  | _ => false

/-! ## The configuration model (`sriov.h`, as far as `main.c` uses it) -/

/-- `#define ADDED 1`: change marker of a port or VF. -/
def ADDED : Int := 1

/-- `#define DELETED (-1)`. -/
def DELETED : Int := -1

/-- `#define UNCHANGED 0`. -/
def UNCHANGED : Int := 0

/-- `#define RESET 2`. -/
def RESET : Int := 2

/-- `struct vf_s`: the fields that `main.c` reads or writes.  `vlans`, `macs`
and `tc_pctgs` are the arrays, `num_vlans` and `num_macs` the counts kept
beside them.  `rate` is a C floating-point number, modelled by its rational
value.  The shares `tc_pctgs` are percentages, modelled as natural numbers.
A command string that is `NULL` is `none`. -/
structure vf_s where
  num : Int
  last_updated : Int
  strip_stag : Int
  insert_stag : Int
  allow_bcast : Int
  allow_mcast : Int
  allow_un_ucast : Int
  vlan_anti_spoof : Int
  mac_anti_spoof : Int
  rate : ℚ
  num_vlans : Int
  vlans : List Int
  num_macs : Int
  macs : List String
  start_cb : Option String
  stop_cb : Option String
  tc_pctgs : List Nat
  deriving DecidableEq

/-- `struct sriov_port_s`: the fields that `main.c` reads or writes. -/
structure sriov_port_s where
  name : String
  pciid : String
  rte_port_number : Int
  flags : Nat
  last_updated : Int
  mtu : Int
  ntcs : Int
  num_vfs : Int
  vfs : List vf_s
  deriving DecidableEq

/-- `sriov_conf_t`: the running configuration. -/
structure sriov_conf_t where
  num_ports : Int
  ports : List sriov_port_s
  deriving DecidableEq

/-- `parms_t`: the two fields that the reconciler reads. -/
structure parms_t where
  initialised : Int
  forreal : Int
  deriving DecidableEq

/-- What the code takes from headers that are not among the sources: the
macro `VFN2MASK`, the flag `PF_LOOPBACK`, the DPDK constant
`ETH_VMDQ_ACCEPT_UNTAG`; and `rate_arg`, the floating-point conversion
`(uint16_t)( 10000 * vf->rate )`, which the model does not compute. -/
structure sriov_h where
  VFN2MASK : Int → Nat
  PF_LOOPBACK : Nat
  ETH_VMDQ_ACCEPT_UNTAG : Nat
  rate_arg : ℚ → Nat

/-- A slot that holds no VF: index -1, everything else zero. -/
def free_vf : vf_s :=
  { num := -1, last_updated := 0, strip_stag := 0, insert_stag := 0, allow_bcast := 0,
    allow_mcast := 0, allow_un_ucast := 0, vlan_anti_spoof := 0, mac_anti_spoof := 0,
    rate := 0, num_vlans := 0, vlans := [], num_macs := 0, macs := [], start_cb := none,
    stop_cb := none, tc_pctgs := [] }

/-- The array read `port->vfs[j]`.  The array has `MAX_VFS` slots; a read
beyond the list (outside the array in C) yields a free slot. -/
def vf_at (port : sriov_port_s) (j : Nat) : vf_s := port.vfs.getD j free_vf

/-- The array read `vf->tc_pctgs[i]` (0 beyond the list). -/
def tc_pctg (vf : vf_s) (i : Nat) : Nat := vf.tc_pctgs.getD i 0

/-- The VLAN ids that the loops `for( v = 0; v < vf->num_vlans; ++v )` read:
`vf->vlans[0]`, ..., `vf->vlans[num_vlans-1]`. -/
def recorded_vlans (vf : vf_s) : List Int :=
  (List.range vf.num_vlans.toNat).map fun v => vf.vlans.getD v 0

/-- The MAC strings that the loops `for( m = 0; m < vf->num_macs; ++m )` read. -/
def recorded_macs (vf : vf_s) : List String :=
  (List.range vf.num_macs.toNat).map fun m => vf.macs.getD m ""

/-! ## Binary64 arithmetic, as far as `gen_tc_pctgs` uses it

`gen_tc_pctgs` computes `factor = (double) sums[i] / 100.0` and
`v = tc_pctgs[i] * factor`.  Both operations are correctly rounded (round to
nearest, ties to even) in IEEE 754 binary64, so they are modelled exactly on
non-negative values `m · 2^e`.  The exponent range is not modelled: the values
that occur are far from overflow and underflow. -/

/-- Floor of the binary logarithm, by halving; `fuel` bounds the number of
halvings. -/
def log2_fuel : Nat → Nat → Nat
  | 0, _ => 0
  | fuel + 1, n => if n < 2 then 0 else log2_fuel fuel (n / 2) + 1

/-- Floor of the binary logarithm of `n` (0 for `n = 0`). -/
def ilog2 (n : Nat) : Nat := log2_fuel n n

/-- A non-negative finite binary64 value `m · 2^e`. -/
structure dbl where
  m : Nat
  e : Int
  deriving DecidableEq

/-- The integer nearest to `n / d`, ties to the even one. -/
def round_even (n d : Nat) : Nat :=
  if 2 * (n % d) < d then n / d
  else if d < 2 * (n % d) then n / d + 1
  else if (n / d) % 2 = 0 then n / d else n / d + 1

/-- The fraction `n / (d · 2^e)` as a pair of naturals. -/
def scale (n d : Nat) (e : Int) : Nat × Nat :=
  if e < 0 then (n * 2 ^ (-e).toNat, d) else (n, d * 2 ^ e.toNat)

/-- The binary64 value nearest to the rational `n / d` (`d > 0`): the
exponent `e` is chosen so that `n / (d · 2^e)` lies in `[2^52, 2^53)`, and
the 53-bit significand is that quotient rounded to nearest, ties to even. -/
def fl (n d : Nat) : dbl :=
  if n = 0 then ⟨0, 0⟩
  else
    let e0 : Int := (ilog2 n : Int) - (ilog2 d : Int) - 52
    let e : Int := if 2 ^ 52 ≤ (scale n d e0).1 / (scale n d e0).2 then e0 else e0 - 1
    ⟨round_even (scale n d e).1 (scale n d e).2, e⟩

/-- The binary64 product `c * f` of an `int` value `c ≥ 0` (converted
exactly) and a binary64 value `f`. -/
def dbl_mul_int (c : Nat) (f : dbl) : dbl :=
  if f.e < 0 then fl (c * f.m) (2 ^ (-f.e).toNat) else fl (c * f.m * 2 ^ f.e.toNat) 1

/-- The conversion `(uint8_t) v`: the fractional part is dropped.  For `v`
of 256 or more (where C leaves the conversion undefined) the model keeps the
low eight bits. -/
def dbl_to_uint8 (v : dbl) : Nat :=
  (if v.e < 0 then v.m / 2 ^ (-v.e).toNat else v.m * 2 ^ v.e.toNat) % 256

/-! ## `gen_tc_pctgs` -/

/-- The value of `sums[i]` after the first loop nest of `gen_tc_pctgs`: the
sum of `tc_pctgs[i]` over the slots `j < MAX_VFS` with `num >= 0`. -/
def tc_sum (MAX_VFS : Nat) (port : sriov_port_s) (i : Nat) : Nat :=
  (List.range MAX_VFS).foldl
    (fun sum j => if 0 ≤ (vf_at port j).num then sum + tc_pctg (vf_at port j) i else sum) 0

/-- One round `i` of the second loop of `gen_tc_pctgs`, on the output array
`norm_pctgs`.  Both inner loops run `for( j = i; j < MAX_VFS; j++ )`.  The
variable `minv` is written but never read for the result and is left out.  A
store beyond the array (outside the allocation in C) is dropped. -/
def norm_tc (MAX_VFS : Nat) (port : sriov_port_s) (ntcs i : Nat) (norm_pctgs : List Nat) :
    List Nat :=
  if tc_sum MAX_VFS port i ≠ 100 then
    let factor := fl (tc_sum MAX_VFS port i) 100
    (List.range' i (MAX_VFS - i)).foldl
      (fun norm j =>
        if 0 ≤ (vf_at port j).num then
          norm.set (j * ntcs + i) (dbl_to_uint8 (dbl_mul_int (tc_pctg (vf_at port j) i) factor))
        else norm)
      norm_pctgs
  else
    (List.range' i (MAX_VFS - i)).foldl
      (fun norm j => norm.set (j * ntcs + i) (tc_pctg (vf_at port j) i)) norm_pctgs

/-- `static int* gen_tc_pctgs( sriov_port_t *port )`: the array of
`MAX_QUEUES` entries that it returns (`malloc` is taken to succeed).
`MAX_VFS` and `MAX_QUEUES` are constants of `sriov.h`. -/
def gen_tc_pctgs (MAX_VFS MAX_QUEUES : Nat) (port : sriov_port_s) : List Nat :=
  (List.range port.ntcs.toNat).foldl
    (fun norm i => norm_tc MAX_VFS port port.ntcs.toNat i norm) (List.replicate MAX_QUEUES 0)

/-- The value that round `i` of the second loop stores for slot `j`, if it
stores one. -/
def stored (MAX_VFS : Nat) (port : sriov_port_s) (i j : Nat) : Option Nat :=
  if tc_sum MAX_VFS port i ≠ 100 then
    if 0 ≤ (vf_at port j).num then
      some (dbl_to_uint8 (dbl_mul_int (tc_pctg (vf_at port j) i) (fl (tc_sum MAX_VFS port i) 100)))
    else none
  else some (tc_pctg (vf_at port j) i)

/-- A loop of array stores: for each `j` of `js`, the value `st j` (if any) is
stored at index `idx j`. -/
def store_loop (idx : Nat → Nat) (st : Nat → Option Nat) (a : List Nat) (js : List Nat) :
    List Nat :=
  js.foldl (fun norm j => match st j with
    | some v => norm.set (idx j) v
    | none => norm) a

/-- The sum of the entries of class `t` over all VF slots of an output array. -/
def class_total (MAX_VFS ntcs : Nat) (out : List Nat) (t : Nat) : Nat :=
  ((List.range MAX_VFS).map fun j => out.getD (j * ntcs + t) 0).sum

/-! ## The NIC control interface and `vfd_update_nic` -/

/-- A call into the NIC library, with its arguments. -/
inductive NicCall where
  | tx_set_loopback (port : Nat) (onoff : Int)
  | set_queue_drop (port : Nat) (onoff : Int)
  | rte_eth_promiscuous_enable (port : Int)
  | rte_eth_allmulticast_enable (port : Int)
  | rte_eth_dev_uc_all_hash_table_set (port : Int) (onoff : Int)
  | set_vf_rx_vlan (port : Int) (vlan : Int) (vf_mask : Nat) (onoff : Int)
  | set_vf_rx_mac (port : Int) (mac : String) (vf : Int) (onoff : Int)
  | set_vf_rate_limit (port : Int) (vf : Int) (rate : Nat) (q_msk : Nat)
  | set_split_erop (port : Nat) (vf : Nat) (onoff : Int)
  | set_vf_vlan_anti_spoofing (port : Int) (vf : Int) (onoff : Int)
  | set_vf_mac_anti_spoofing (port : Int) (vf : Int) (onoff : Int)
  | rx_vlan_strip_set_on_vf (port : Int) (vf : Int) (onoff : Int)
  | tx_vlan_insert_set_on_vf (port : Int) (vf : Int) (vlan : Int)
  | set_vf_allow_bcast (port : Int) (vf : Int) (onoff : Int)
  | set_vf_allow_mcast (port : Int) (vf : Int) (onoff : Int)
  | set_vf_allow_un_ucast (port : Int) (vf : Int) (onoff : Int)
  | rte_eth_dev_set_vf_rxmode (port : Int) (vf : Int) (rx_mode : Nat) (onoff : Int)
  deriving DecidableEq

open NicCall

/-- `static int vfd_set_ins_strip( struct sriov_port_s *port, struct vf_s *vf )`:
the calls it issues and its return value.  A nil pointer is `none`. -/
def vfd_set_ins_strip (port : Option sriov_port_s) (vf : Option vf_s) : List NicCall × Int :=
  match port, vf with
  | some port, some vf =>
    if vf.num_vlans = 1 then
      if vf.insert_stag ≠ 0 then
        ([rx_vlan_strip_set_on_vf port.rte_port_number vf.num vf.strip_stag,
          tx_vlan_insert_set_on_vf port.rte_port_number vf.num (vf.vlans.getD 0 0)], 1)
      else
        ([rx_vlan_strip_set_on_vf port.rte_port_number vf.num vf.strip_stag,
          tx_vlan_insert_set_on_vf port.rte_port_number vf.num 0], 1)
    else
      ([rx_vlan_strip_set_on_vf port.rte_port_number vf.num 0,
        tx_vlan_insert_set_on_vf port.rte_port_number vf.num 0], 1)
  | _, _ => ([], 0)

/-- The VLAN filter calls of one VF (`set_vf_rx_vlan` per recorded VLAN, with
`onoff` 0 to remove and 1 to add); none when `forreal` is off. -/
def vlan_calls (parms : parms_t) (port : sriov_port_s) (vf : vf_s) (vf_mask : Nat) (onoff : Int) :
    List NicCall :=
  if parms.forreal ≠ 0 then
    (recorded_vlans vf).map fun vlan => set_vf_rx_vlan port.rte_port_number vlan vf_mask onoff
  else []

/-- The MAC filter calls of one VF (`set_vf_rx_mac` per recorded MAC); none
when `forreal` is off. -/
def mac_calls (parms : parms_t) (port : sriov_port_s) (vf : vf_s) (onoff : Int) : List NicCall :=
  if parms.forreal ≠ 0 then
    (recorded_macs vf).map fun mac => set_vf_rx_mac port.rte_port_number mac vf.num onoff
  else []

/-- The calls of the end-of-round block (`if( vf->num >= 0 )` after the
marker test), issued in every pass for a VF that is in use. -/
def refresh_calls (h : sriov_h) (parms : parms_t) (port : sriov_port_s) (vf : vf_s) :
    List NicCall :=
  if 0 ≤ vf.num then
    if parms.forreal ≠ 0 then
      [rte_eth_promiscuous_enable port.rte_port_number,
       rte_eth_allmulticast_enable port.rte_port_number,
       rte_eth_dev_uc_all_hash_table_set port.rte_port_number 1,
       rte_eth_dev_set_vf_rxmode port.rte_port_number vf.num (0 ||| h.ETH_VMDQ_ACCEPT_UNTAG) 0]
    else []
  else []

/-- The body of the VF loop of `vfd_update_nic` for slot `y` of the port with
loop index `i`: the calls issued and the slot afterwards. -/
def update_vf (h : sriov_h) (parms : parms_t) (i y : Nat) (port : sriov_port_s) (vf : vf_s) :
    List NicCall × vf_s :=
  let vf_mask := h.VFN2MASK vf.num
  if vf.last_updated ≠ UNCHANGED then
    let vf1 : vf_s :=
      if vf.last_updated = DELETED then { vf with start_cb := none, stop_cb := none } else vf
    let c_vlan :=
      if vf1.last_updated = DELETED then vlan_calls parms port vf1 vf_mask 0
      else vlan_calls parms port vf1 vf_mask 1
    let c_mac :=
      if vf1.last_updated = DELETED then mac_calls parms port vf1 0
      else mac_calls parms port vf1 1
    let c_rate :=
      if vf1.rate > 0 then
        [set_vf_rate_limit port.rte_port_number vf1.num (h.rate_arg vf1.rate) 1]
      else []
    let vf2 : vf_s := if vf1.last_updated = DELETED then { vf1 with num := -1 } else vf1
    let c_set :=
      if 0 ≤ vf2.num then
        if parms.forreal ≠ 0 then
          [set_split_erop i y 1,
           set_vf_vlan_anti_spoofing port.rte_port_number vf2.num vf2.vlan_anti_spoof,
           set_vf_mac_anti_spoofing port.rte_port_number vf2.num vf2.mac_anti_spoof] ++
          (vfd_set_ins_strip (some port) (some vf2)).1 ++
          [set_vf_allow_bcast port.rte_port_number vf2.num vf2.allow_bcast,
           set_vf_allow_mcast port.rte_port_number vf2.num vf2.allow_mcast,
           set_vf_allow_un_ucast port.rte_port_number vf2.num vf2.allow_un_ucast]
        else []
      else []
    let vf3 : vf_s := { vf2 with last_updated := UNCHANGED }
    (c_vlan ++ c_mac ++ c_rate ++ c_set ++ refresh_calls h parms port vf3, vf3)
  else (refresh_calls h parms port vf, vf)

/-- The VF loop `for( y = 0; y < port->num_vfs; ++y )`, from slot `y` on, with
`n` rounds left, over the slots `vfs` from `y` on. -/
def update_vfs (h : sriov_h) (parms : parms_t) (i : Nat) (port : sriov_port_s) :
    Nat → Nat → List vf_s → List NicCall × List vf_s
  | _, 0, vfs => ([], vfs)
  | _, _ + 1, [] => ([], [])
  | y, n + 1, vf :: vfs =>
    ((update_vf h parms i y port vf).1 ++ (update_vfs h parms i port (y + 1) n vfs).1,
     (update_vf h parms i y port vf).2 :: (update_vfs h parms i port (y + 1) n vfs).2)

/-- The calls of the port part of one round of the port loop: loopback and
queue drop, then the activation sequence when the port marker is `ADDED`. -/
def port_calls (h : sriov_h) (parms : parms_t) (i : Nat) (port : sriov_port_s) : List NicCall :=
  (if parms.forreal ≠ 0 then
    [tx_set_loopback i (if port.flags &&& h.PF_LOOPBACK ≠ 0 then 1 else 0), set_queue_drop i 1]
   else []) ++
  (if port.last_updated = ADDED then
    if parms.forreal ≠ 0 then
      [rte_eth_promiscuous_enable port.rte_port_number,
       rte_eth_allmulticast_enable port.rte_port_number,
       rte_eth_dev_uc_all_hash_table_set port.rte_port_number 1]
    else []
   else [])

/-- The port after the marker test of the port loop: an `ADDED` marker is set
to `UNCHANGED`, any other marker is left as it is. -/
def mark_port (port : sriov_port_s) : sriov_port_s :=
  if port.last_updated = ADDED then { port with last_updated := UNCHANGED } else port

/-- The body of the port loop of `vfd_update_nic` for the port with loop
index `i`: the calls issued and the port afterwards. -/
def update_port (h : sriov_h) (parms : parms_t) (i : Nat) (port : sriov_port_s) :
    List NicCall × sriov_port_s :=
  (port_calls h parms i port ++
    (update_vfs h parms i (mark_port port) 0 port.num_vfs.toNat port.vfs).1,
   { mark_port port with
     vfs := (update_vfs h parms i (mark_port port) 0 port.num_vfs.toNat port.vfs).2 })

/-- The port loop `for( i = 0; i < conf->num_ports; ++i )`, from index `i`
on, with `n` rounds left. -/
def update_ports (h : sriov_h) (parms : parms_t) :
    Nat → Nat → List sriov_port_s → List NicCall × List sriov_port_s
  | _, 0, ports => ([], ports)
  | _, _ + 1, [] => ([], [])
  | i, n + 1, port :: ports =>
    ((update_port h parms i port).1 ++ (update_ports h parms (i + 1) n ports).1,
     (update_port h parms i port).2 :: (update_ports h parms (i + 1) n ports).2)

/-- What one call of `vfd_update_nic` does: its return value, the NIC calls
issued in order, and the configuration afterwards. -/
structure update_result where
  rc : Int
  calls : List NicCall
  conf : sriov_conf_t

/-- `static int vfd_update_nic( parms_t* parms, sriov_conf_t* conf )`. -/
def vfd_update_nic (h : sriov_h) (parms : parms_t) (conf : sriov_conf_t) : update_result :=
  if parms.initialised = 0 then { rc := 0, calls := [], conf := conf }
  else
    { rc := 0
      calls := (update_ports h parms 0 conf.num_ports.toNat conf.ports).1
      conf := { conf with ports := (update_ports h parms 0 conf.num_ports.toNat conf.ports).2 } }

/-- The calls of a pass that finds nothing to reconcile, for the ports from
loop index `i` on with `n` rounds left: per port the loopback and queue-drop
calls, then for each VF in use among its first `num_vfs` slots the
end-of-round calls; none at all when `forreal` is off. -/
def steady_ports (h : sriov_h) (parms : parms_t) :
    Nat → Nat → List sriov_port_s → List NicCall
  | _, 0, _ => []
  | _, _ + 1, [] => []
  | i, n + 1, port :: ports =>
    (if parms.forreal ≠ 0 then
      [tx_set_loopback i (if port.flags &&& h.PF_LOOPBACK ≠ 0 then 1 else 0), set_queue_drop i 1]
     else []) ++
    ((port.vfs.take port.num_vfs.toNat).flatMap fun vf => refresh_calls h parms port vf) ++
    steady_ports h parms (i + 1) n ports

/-- The calls of a pass of `vfd_update_nic` that finds nothing to reconcile. -/
def steady_calls (h : sriov_h) (parms : parms_t) (conf : sriov_conf_t) : List NicCall :=
  if parms.initialised = 0 then [] else steady_ports h parms 0 conf.num_ports.toNat conf.ports

/-- Whether a call is one of those issued in every pass: loopback and queue
drop of a port, and the promiscuous, all-multicast, unicast-hash and VF
receive-mode calls of the end-of-round block. -/
def is_per_pass_call : NicCall → Bool
  | tx_set_loopback _ _ => true
  | set_queue_drop _ _ => true
  | rte_eth_promiscuous_enable _ => true
  | rte_eth_allmulticast_enable _ => true
  | rte_eth_dev_uc_all_hash_table_set _ _ => true
  | rte_eth_dev_set_vf_rxmode _ _ _ _ => true
  | _ => false

/-! ## Concrete inputs, for evaluating the model -/

/-- An instance of the header parameters: `VFN2MASK(N)` as `1 << N`,
`PF_LOOPBACK` and `ETH_VMDQ_ACCEPT_UNTAG` as bit 0, and the rate argument as
the integer part of `10000 * rate` in 16 bits. -/
def example_h : sriov_h :=
  { VFN2MASK := fun n => 2 ^ n.toNat
    PF_LOOPBACK := 1
    ETH_VMDQ_ACCEPT_UNTAG := 1
    rate_arg := fun r => ((10000 * r.num) / r.den).toNat % 65536 }

/-- Parameters of a daemon that is initialised and run for real. -/
def example_parms : parms_t := { initialised := 1, forreal := 1 }

/-- A VF with index 3 marked `DELETED`, with VLANs 10 and 20, one MAC and a
hot-plug command. -/
def example_deleted_vf : vf_s :=
  { free_vf with
    num := 3, last_updated := DELETED, num_vlans := 2, vlans := [10, 20], num_macs := 1,
    macs := ["fa:ce:de:02:00:01"], start_cb := some "virsh attach-device" }

/-- A VF with index 1 in use and `UNCHANGED`, with VLAN 30. -/
def example_idle_vf : vf_s := { free_vf with num := 1, num_vlans := 1, vlans := [30] }

/-- A port with the two example VFs in its first two slots. -/
def example_port : sriov_port_s :=
  { name := "port0", pciid := "0000:07:00.0", rte_port_number := 0, flags := 0,
    last_updated := UNCHANGED, mtu := 9000, ntcs := 4, num_vfs := 2,
    vfs := [example_idle_vf, example_deleted_vf] }

/-- A configuration with the example port only. -/
def example_conf : sriov_conf_t := { num_ports := 1, ports := [example_port] }

/-- A VF with the given index and traffic-class shares, everything else as in
a free slot. -/
def example_qos_vf (num : Int) (shares : List Nat) : vf_s :=
  { free_vf with num := num, tc_pctgs := shares }

/-- A port with four traffic classes and the given VF slots. -/
def example_qos_port (vfs : List vf_s) : sriov_port_s :=
  { example_port with ntcs := 4, num_vfs := vfs.length, vfs := vfs }

/-! ## The lookup functions `suss_port`, `suss_vf`, `valid_vlan`, `valid_mtu` -/

/-- The two globals that the lookup functions read: the running configuration
and the table `rte_config_portmap`, which maps a hardware port id to an index
of the configuration.  `main` stores only indexes `i >= 0` into the table, and
the table is a zero-initialised static array: its entries are natural numbers,
and an entry beyond the list is 0. -/
structure globals where
  running_config : sriov_conf_t
  rte_config_portmap : List Nat

/-- `static struct sriov_port_s *suss_port( int portid )`: the port, or
`none` for a nil pointer.  The array `ports` holds at least `num_ports` ports. -/
def suss_port (g : globals) (portid : Int) : Option sriov_port_s :=
  if portid < 0 ∨ portid > g.running_config.num_ports then none
  else
    if (g.rte_config_portmap.getD portid.toNat 0 : Int) ≥ g.running_config.num_ports then none
    else g.running_config.ports[g.rte_config_portmap.getD portid.toNat 0]?

/-- The loop of `suss_vf` over the slots `vfs` that remain, with `n` rounds
left: the first slot with `num == vfid`, or `none` (nil). -/
def suss_vf_loop (vfid : Int) : Nat → List vf_s → Option vf_s
  | 0, _ => none
  | _ + 1, [] => none
  | n + 1, vf :: vfs => if vf.num = vfid then some vf else suss_vf_loop vfid n vfs

/-- `static struct vf_s *suss_vf( int port, int vfid )`.  The outer `none` is
a run that dereferences the nil pointer returned by `suss_port` (the code
does not test it); `some none` is the return value nil. -/
def suss_vf (g : globals) (port : Int) (vfid : Int) : Option (Option vf_s) :=
  match suss_port g port with
  | none => none
  | some p => some (suss_vf_loop vfid p.num_vfs.toNat p.vfs)

/-- The loop of `valid_vlan` from index `i` on with `n` rounds left: whether
some `vf->vlans[i]` read equals `vlan`. -/
def valid_vlan_loop (vf : vf_s) (vlan : Int) : Nat → Nat → Bool
  | _, 0 => false
  | i, n + 1 => if vf.vlans.getD i 0 = vlan then true else valid_vlan_loop vf vlan (i + 1) n

/-- `int valid_vlan( int port, int vfid, int vlan )`; `none` is a run that
dereferences a nil pointer in `suss_vf`. -/
def valid_vlan (g : globals) (port : Int) (vfid : Int) (vlan : Int) : Option Int :=
  match suss_vf g port vfid with
  | none => none
  | some none => some 0
  | some (some vf) => if valid_vlan_loop vf vlan 0 vf.num_vlans.toNat then some 1 else some 0

/-- `int valid_mtu( int port, int mtu )`. -/
def valid_mtu (g : globals) (port : Int) (mtu : Int) : Int :=
  match suss_port g port with
  | none => 0
  | some p => if mtu ≥ 0 ∧ mtu ≤ p.mtu then 1 else 0

/-! ## Signal handling: `sig_int` and `close_ports` -/

/-- The signal number `SIGABRT` (Linux). -/
def SIGABRT : Int := 6

/-- The signal number `SIGFPE` (Linux). -/
def SIGFPE : Int := 8

/-- The signal number `SIGSEGV` (Linux). -/
def SIGSEGV : Int := 11

/-- The signal number `SIGTERM` (Linux). -/
def SIGTERM : Int := 15

/-- A call issued on the shutdown path: the two DPDK calls of `close_ports`,
and `abort`. -/
inductive ShutdownCall where
  | rte_eth_dev_stop (port : Nat)
  | rte_eth_dev_close (port : Nat)
  | abort
  deriving DecidableEq

/-- The loop of `close_ports` from port `i` on, with `n` rounds left. -/
def close_ports_loop : Nat → Nat → List ShutdownCall
  | _, 0 => []
  | i, n + 1 =>
    ShutdownCall.rte_eth_dev_stop i :: ShutdownCall.rte_eth_dev_close i ::
      close_ports_loop (i + 1) n

/-- `static void close_ports( void )`: the calls it issues, for the value
`n_ports` of the global. -/
def close_ports (n_ports : Int) : List ShutdownCall := close_ports_loop 0 n_ports.toNat

/-- What one invocation of `sig_int` does: the flag `terminated` afterwards
and the calls issued. -/
structure sig_result where
  terminated : Int
  calls : List ShutdownCall
  deriving DecidableEq

/-- `static void sig_int( int sig )`, entered with the given value of the
global `terminated`. -/
def sig_int (n_ports : Int) (sig : Int) (terminated : Int) : sig_result :=
  if terminated ≠ 0 then { terminated := terminated, calls := [] }
  else if sig = SIGABRT ∨ sig = SIGFPE ∨ sig = SIGSEGV then
    { terminated := 1, calls := close_ports n_ports ++ [ShutdownCall.abort] }
  else { terminated := 1, calls := [] }

/-- A sequence of signals delivered to `sig_int` one after the other, from
the given value of `terminated`: the flag at the end and all calls issued.
Signals delivered after `abort` has been called are included (`abort` itself
raises `SIGABRT`, which the handler catches). -/
def deliver (n_ports : Int) : List Int → Int → sig_result
  | [], terminated => { terminated := terminated, calls := [] }
  | sig :: sigs, terminated =>
    { terminated := (deliver n_ports sigs (sig_int n_ports sig terminated).terminated).terminated
      calls := (sig_int n_ports sig terminated).calls ++
        (deliver n_ports sigs (sig_int n_ports sig terminated).terminated).calls }

/-- A VF with exactly one VLAN (100), `strip_stag` 1 and `insert_stag` 0. -/
def example_one_vlan_vf : vf_s :=
  { free_vf with num := 2, num_vlans := 1, vlans := [100], strip_stag := 1, insert_stag := 0 }

/-- A VF with the VLANs 10 and 20, `strip_stag` 1 and `insert_stag` 1. -/
def example_two_vlan_vf : vf_s :=
  { free_vf with num := 4, num_vlans := 2, vlans := [10, 20], strip_stag := 1, insert_stag := 1 }

/-- The globals of a daemon that runs the example configuration, hardware
port 0 mapped to index 0. -/
def example_globals : globals :=
  { running_config := example_conf, rte_config_portmap := [0] }

/-- A VF with index 2 marked `ADDED`, with VLAN 100, one MAC, both anti-spoof
flags and the broadcast flag set, `strip_stag` and `insert_stag` set. -/
def example_added_vf : vf_s :=
  { free_vf with
    num := 2, last_updated := ADDED, num_vlans := 1, vlans := [100], num_macs := 1,
    macs := ["fa:ce:de:02:00:02"], vlan_anti_spoof := 1, mac_anti_spoof := 1,
    allow_bcast := 1, strip_stag := 1, insert_stag := 1 }

/-- A configuration of one port, marked `RESET`, whose only slot holds the VF
of the example that is marked `ADDED`. -/
def example_added_conf : sriov_conf_t :=
  { num_ports := 1
    ports := [{ example_port with last_updated := RESET, num_vfs := 1,
                                  vfs := [example_added_vf] }] }

/-! ## `vfd_update_nic` with the return codes of the NIC calls

The same function once more, now with the return code of every NIC call
supplied from outside: `rc k` is the code that the call number `k` of the pass
returns.  The code keeps a return code in `ret` at three places and tests it
at two of them, to write a log line. -/

/-- A log line that is written depending on a return code: `bad_unicast_hash`
is "ERR: bad unicast hash table parameter", `bad_rxmode` is
"set_vf_allow_untagged(): bad VF receive mode parameter". -/
inductive RcLog where
  | bad_unicast_hash (ret : Int)
  | bad_rxmode (ret : Int)
  deriving DecidableEq

/-- The calls issued and the return-code log lines written so far. -/
structure nic_run where
  calls : List NicCall
  logs : List RcLog
  deriving DecidableEq

/-- One NIC call: the call is recorded and its return code is handed back. -/
def nic_call (rc : Nat → Int) (c : NicCall) (w : nic_run) : Int × nic_run :=
  (rc w.calls.length, { w with calls := w.calls ++ [c] })

/-- A run of NIC calls whose return codes the code does not look at. -/
def nic_calls (rc : Nat → Int) (cs : List NicCall) (w : nic_run) : nic_run :=
  cs.foldl (fun w c => (nic_call rc c w).2) w

/-- `vfd_set_ins_strip` on a non-nil port and VF, with return codes: its return
value and the run afterwards. -/
def vfd_set_ins_strip_rc (rc : Nat → Int) (port : sriov_port_s) (vf : vf_s) (w : nic_run) :
    Int × nic_run :=
  if vf.num_vlans = 1 then
    let w1 := (nic_call rc (rx_vlan_strip_set_on_vf port.rte_port_number vf.num vf.strip_stag) w).2
    if vf.insert_stag ≠ 0 then
      (1, (nic_call rc
        (tx_vlan_insert_set_on_vf port.rte_port_number vf.num (vf.vlans.getD 0 0)) w1).2)
    else
      (1, (nic_call rc (tx_vlan_insert_set_on_vf port.rte_port_number vf.num 0) w1).2)
  else
    let w1 := (nic_call rc (rx_vlan_strip_set_on_vf port.rte_port_number vf.num 0) w).2
    (1, (nic_call rc (tx_vlan_insert_set_on_vf port.rte_port_number vf.num 0) w1).2)

/-- The end-of-round block with return codes: `ret` is assigned from the
unicast-hash call and again from the receive-mode call, and tested after the
latter. -/
def refresh_rc (rc : Nat → Int) (h : sriov_h) (parms : parms_t) (port : sriov_port_s)
    (vf : vf_s) (w : nic_run) : nic_run :=
  if 0 ≤ vf.num then
    if parms.forreal ≠ 0 then
      let w1 := (nic_call rc (rte_eth_promiscuous_enable port.rte_port_number) w).2
      let w2 := (nic_call rc (rte_eth_allmulticast_enable port.rte_port_number) w1).2
      let r3 := nic_call rc (rte_eth_dev_uc_all_hash_table_set port.rte_port_number 1) w2
      let r4 := nic_call rc
        (rte_eth_dev_set_vf_rxmode port.rte_port_number vf.num
          (0 ||| h.ETH_VMDQ_ACCEPT_UNTAG) 0) r3.2
      if r4.1 < 0 then { r4.2 with logs := r4.2.logs ++ [RcLog.bad_rxmode r4.1] } else r4.2
    else w
  else w

/-- The body of the VF loop with return codes: the slot and the run
afterwards. -/
def update_vf_rc (rc : Nat → Int) (h : sriov_h) (parms : parms_t) (i y : Nat)
    (port : sriov_port_s) (vf : vf_s) (w : nic_run) : vf_s × nic_run :=
  let vf_mask := h.VFN2MASK vf.num
  if vf.last_updated ≠ UNCHANGED then
    let vf1 : vf_s :=
      if vf.last_updated = DELETED then { vf with start_cb := none, stop_cb := none } else vf
    let w1 :=
      if vf1.last_updated = DELETED then
        (recorded_vlans vf1).foldl
          (fun w vlan =>
            if parms.forreal ≠ 0 then
              (nic_call rc (set_vf_rx_vlan port.rte_port_number vlan vf_mask 0) w).2
            else w) w
      else
        (recorded_vlans vf1).foldl
          (fun w vlan =>
            if parms.forreal ≠ 0 then
              (nic_call rc (set_vf_rx_vlan port.rte_port_number vlan vf_mask 1) w).2
            else w) w
    let w2 :=
      if vf1.last_updated = DELETED then
        (recorded_macs vf1).foldl
          (fun w mac =>
            if parms.forreal ≠ 0 then
              (nic_call rc (set_vf_rx_mac port.rte_port_number mac vf1.num 0) w).2
            else w) w1
      else
        (recorded_macs vf1).foldl
          (fun w mac =>
            if parms.forreal ≠ 0 then
              (nic_call rc (set_vf_rx_mac port.rte_port_number mac vf1.num 1) w).2
            else w) w1
    let w3 :=
      if vf1.rate > 0 then
        (nic_call rc
          (set_vf_rate_limit port.rte_port_number vf1.num (h.rate_arg vf1.rate) 1) w2).2
      else w2
    let vf2 : vf_s := if vf1.last_updated = DELETED then { vf1 with num := -1 } else vf1
    let w4 :=
      if 0 ≤ vf2.num then
        if parms.forreal ≠ 0 then
          let wa := nic_calls rc
            [set_split_erop i y 1,
             set_vf_vlan_anti_spoofing port.rte_port_number vf2.num vf2.vlan_anti_spoof,
             set_vf_mac_anti_spoofing port.rte_port_number vf2.num vf2.mac_anti_spoof] w3
          let wb := (vfd_set_ins_strip_rc rc port vf2 wa).2
          nic_calls rc
            [set_vf_allow_bcast port.rte_port_number vf2.num vf2.allow_bcast,
             set_vf_allow_mcast port.rte_port_number vf2.num vf2.allow_mcast,
             set_vf_allow_un_ucast port.rte_port_number vf2.num vf2.allow_un_ucast] wb
        else w3
      else w3
    let vf3 : vf_s := { vf2 with last_updated := UNCHANGED }
    (vf3, refresh_rc rc h parms port vf3 w4)
  else (vf, refresh_rc rc h parms port vf w)

/-- The VF loop with return codes. -/
def update_vfs_rc (rc : Nat → Int) (h : sriov_h) (parms : parms_t) (i : Nat)
    (port : sriov_port_s) : Nat → Nat → List vf_s → nic_run → List vf_s × nic_run
  | _, 0, vfs, w => (vfs, w)
  | _, _ + 1, [], w => ([], w)
  | y, n + 1, vf :: vfs, w =>
    ((update_vf_rc rc h parms i y port vf w).1 ::
        (update_vfs_rc rc h parms i port (y + 1) n vfs (update_vf_rc rc h parms i y port vf w).2).1,
     (update_vfs_rc rc h parms i port (y + 1) n vfs (update_vf_rc rc h parms i y port vf w).2).2)

/-- The port part of one round of the port loop with return codes: `ret` is
assigned from the unicast-hash call of the activation sequence and tested. -/
def port_rc (rc : Nat → Int) (h : sriov_h) (parms : parms_t) (i : Nat) (port : sriov_port_s)
    (w : nic_run) : nic_run :=
  let w1 :=
    if parms.forreal ≠ 0 then
      nic_calls rc
        [tx_set_loopback i (if port.flags &&& h.PF_LOOPBACK ≠ 0 then 1 else 0),
         set_queue_drop i 1] w
    else w
  if port.last_updated = ADDED then
    if parms.forreal ≠ 0 then
      let w2 := nic_calls rc
        [rte_eth_promiscuous_enable port.rte_port_number,
         rte_eth_allmulticast_enable port.rte_port_number] w1
      let r3 := nic_call rc (rte_eth_dev_uc_all_hash_table_set port.rte_port_number 1) w2
      if r3.1 < 0 then { r3.2 with logs := r3.2.logs ++ [RcLog.bad_unicast_hash r3.1] }
      else r3.2
    else w1
  else w1

/-- The body of the port loop with return codes. -/
def update_port_rc (rc : Nat → Int) (h : sriov_h) (parms : parms_t) (i : Nat)
    (port : sriov_port_s) (w : nic_run) : sriov_port_s × nic_run :=
  ({ mark_port port with
     vfs := (update_vfs_rc rc h parms i (mark_port port) 0 port.num_vfs.toNat port.vfs
       (port_rc rc h parms i port w)).1 },
   (update_vfs_rc rc h parms i (mark_port port) 0 port.num_vfs.toNat port.vfs
     (port_rc rc h parms i port w)).2)

/-- The port loop with return codes. -/
def update_ports_rc (rc : Nat → Int) (h : sriov_h) (parms : parms_t) :
    Nat → Nat → List sriov_port_s → nic_run → List sriov_port_s × nic_run
  | _, 0, ports, w => (ports, w)
  | _, _ + 1, [], w => ([], w)
  | i, n + 1, port :: ports, w =>
    ((update_port_rc rc h parms i port w).1 ::
        (update_ports_rc rc h parms (i + 1) n ports (update_port_rc rc h parms i port w).2).1,
     (update_ports_rc rc h parms (i + 1) n ports (update_port_rc rc h parms i port w).2).2)

/-- What one call of `vfd_update_nic` does, given the return codes: its return
value, the calls and return-code log lines, and the configuration afterwards. -/
structure update_rc_result where
  rc : Int
  run : nic_run
  conf : sriov_conf_t

/-- `vfd_update_nic` with the return codes `rc` of the NIC calls. -/
def vfd_update_nic_rc (rc : Nat → Int) (h : sriov_h) (parms : parms_t) (conf : sriov_conf_t) :
    update_rc_result :=
  if parms.initialised = 0 then { rc := 0, run := { calls := [], logs := [] }, conf := conf }
  else
    { rc := 0
      run := (update_ports_rc rc h parms 0 conf.num_ports.toNat conf.ports
        { calls := [], logs := [] }).2
      conf := { conf with
        ports := (update_ports_rc rc h parms 0 conf.num_ports.toNat conf.ports
          { calls := [], logs := [] }).1 } }

/-! ## `restore_vf_setings` -/

/-- What `restore_vf_setings` has done so far: the NIC calls issued by its
invocations of `vfd_update_nic`, the running configuration, and the counter
`matched`, which is the number of those invocations. -/
structure restore_state where
  calls : List NicCall
  conf : sriov_conf_t
  matched : Nat

/-- The running configuration after `vf->last_updated = RESET` for slot `y` of
the port with index `i`. -/
def mark_reset (conf : sriov_conf_t) (i y : Nat) (port : sriov_port_s) (vf : vf_s) :
    sriov_conf_t :=
  { conf with
    ports := conf.ports.set i
      { port with vfs := port.vfs.set y { vf with last_updated := RESET } } }

/-- The VF loop of `restore_vf_setings` for the port with index `i`, from slot
`y` on with `n` rounds left.  A slot with `vf_id == vf->num` is marked `RESET`
and `vfd_update_nic` is run on the whole running configuration; the loop goes
on with the configuration that this leaves.  (`vfd_update_nic` does not write
`num_vfs`, so the bound of the loop is the one at its start.) -/
def restore_vfs (h : sriov_h) (g_parms : parms_t) (vf_id : Int) (i : Nat) :
    Nat → Nat → restore_state → restore_state
  | _, 0, s => s
  | y, n + 1, s =>
    match s.conf.ports[i]? with
    | none => s
    | some port =>
      match port.vfs[y]? with
      | none => s
      | some vf =>
        if vf_id = vf.num then
          restore_vfs h g_parms vf_id i (y + 1) n
            { calls := s.calls ++ (vfd_update_nic h g_parms (mark_reset s.conf i y port vf)).calls
              conf := (vfd_update_nic h g_parms (mark_reset s.conf i y port vf)).conf
              matched := s.matched + 1 }
        else restore_vfs h g_parms vf_id i (y + 1) n s

/-- The port loop of `restore_vf_setings`, from index `i` on with `n` rounds
left. -/
def restore_ports (h : sriov_h) (g_parms : parms_t) (port_id : Nat) (vf_id : Int) :
    Nat → Nat → restore_state → restore_state
  | _, 0, s => s
  | i, n + 1, s =>
    match s.conf.ports[i]? with
    | none => s
    | some port =>
      if (port_id : Int) = port.rte_port_number then
        restore_ports h g_parms port_id vf_id (i + 1) n
          (restore_vfs h g_parms vf_id i 0 port.num_vfs.toNat s)
      else restore_ports h g_parms port_id vf_id (i + 1) n s

/-- `void restore_vf_setings( uint8_t port_id, int vf_id )`, on the globals
`g_parms` and `running_config`.  The dump of the configuration at log level 2
is not modelled. -/
def restore_vf_setings (h : sriov_h) (g_parms : parms_t) (running_config : sriov_conf_t)
    (port_id : Nat) (vf_id : Int) : restore_state :=
  restore_ports h g_parms port_id vf_id 0 running_config.num_ports.toNat
    { calls := [], conf := running_config, matched := 0 }

/-! ## Further concrete inputs and bookkeeping for the lookups and the QoS array -/

/-- The indexes of `rte_config_portmap` that a call of `suss_port` reads: the
statement `rc_idx = rte_config_portmap[portid]` is reached when the range
test `portid < 0 || portid > running_config->num_ports` lets `portid` pass. -/
def suss_port_reads (g : globals) (portid : Int) : List Nat :=
  if portid < 0 ∨ portid > g.running_config.num_ports then [] else [portid.toNat]

/-- The indexes of `norm_pctgs` that round `i` of the second loop of
`gen_tc_pctgs` assigns to, in order: `(j*ntcs)+i` for `j` from `i` to
`MAX_VFS - 1`, in the scaling branch for the slots in use only. -/
def norm_tc_writes (MAX_VFS : Nat) (port : sriov_port_s) (ntcs i : Nat) : List Nat :=
  if tc_sum MAX_VFS port i ≠ 100 then
    ((List.range' i (MAX_VFS - i)).filter fun j => decide (0 ≤ (vf_at port j).num)).map
      fun j => j * ntcs + i
  else (List.range' i (MAX_VFS - i)).map fun j => j * ntcs + i

/-- The indexes of `norm_pctgs` that `gen_tc_pctgs` assigns to after the
`memset`, in order. -/
def gen_tc_writes (MAX_VFS : Nat) (port : sriov_port_s) : List Nat :=
  (List.range port.ntcs.toNat).flatMap fun i => norm_tc_writes MAX_VFS port port.ntcs.toNat i

/-- The VF of the example that is marked `DELETED`, with a rate limit of 1. -/
def example_rated_deleted_vf : vf_s := { example_deleted_vf with rate := 1 }

/-- A configuration of one port whose only slot holds the VF marked
`DELETED` that has a rate limit. -/
def example_rated_deleted_conf : sriov_conf_t :=
  { num_ports := 1
    ports := [{ example_port with num_vfs := 1, vfs := [example_rated_deleted_vf] }] }

/-- The VF of the example that is marked `ADDED`, with a rate limit of 1. -/
def example_rated_added_vf : vf_s := { example_added_vf with rate := 1 }

/-- A configuration of one port whose only slot holds the VF marked `ADDED`
that has a rate limit. -/
def example_rated_added_conf : sriov_conf_t :=
  { num_ports := 1
    ports := [{ example_port with num_vfs := 1, vfs := [example_rated_added_vf] }] }

/-- Parameters with `initialised` set and `forreal` off. -/
def example_dry_parms : parms_t := { initialised := 1, forreal := 0 }

/-- The globals of a daemon that runs the example configuration (one port),
with a port map of two entries: hardware port 0 is mapped to index 0, and the
entry of hardware port 1 was never assigned and holds the initial 0. -/
def example_globals_two : globals :=
  { running_config := example_conf, rte_config_portmap := [0, 0] }

/-- A port with four traffic classes and two VFs in use, whose shares of
class 0 are 50 and 8. -/
def example_50_8_port : sriov_port_s :=
  example_qos_port [example_qos_vf 1 [50, 0, 0, 0], example_qos_vf 2 [8, 0, 0, 0]]

/-! ## Bookkeeping for `restore_vf_setings` and further concrete inputs -/

/-- The statements of the matched branch of `restore_vf_setings` for slot `y`
of the port with index `i`: `matched++`, `vf->last_updated = RESET`, and the
call of `vfd_update_nic` on the whole running configuration. -/
def restore_match (h : sriov_h) (g_parms : parms_t) (s : restore_state) (i y : Nat)
    (port : sriov_port_s) (vf : vf_s) : restore_state :=
  { calls := s.calls ++ (vfd_update_nic h g_parms (mark_reset s.conf i y port vf)).calls
    conf := (vfd_update_nic h g_parms (mark_reset s.conf i y port vf)).conf
    matched := s.matched + 1 }

/-- What the loops of `restore_vf_setings` read of slot `y` of the port with
index `i`: the port number and `num_vfs` of the port, and the slot. -/
def slot_view (conf : sriov_conf_t) (i y : Nat) : Option (Int × Int × vf_s) :=
  conf.ports[i]?.bind fun p => p.vfs[y]?.map fun v => (p.rte_port_number, p.num_vfs, v)

/-- A VF with index 1 marked `DELETED`, with VLANs 10 and 20 and one MAC: a VF
in use whose delete has not been carried out yet. -/
def example_pending_vf : vf_s := { example_deleted_vf with num := 1 }

/-- A configuration of two ports that both carry the port number 0 (`main`
assigns `rte_port_number` only to the ports that the hardware reports).  The
first port holds VF 1, `UNCHANGED`; the second holds a VF 1 marked
`DELETED`. -/
def example_twin_conf : sriov_conf_t :=
  { num_ports := 2
    ports := [{ example_port with num_vfs := 1, vfs := [example_idle_vf] },
              { example_port with name := "port1", pciid := "0000:08:00.0", num_vfs := 1,
                                  vfs := [example_pending_vf] }] }

theorem isxdigit_not_colon {c : Char} (h : isxdigit c = true) : is_colon c = false := by
  simp only [isxdigit, is_colon, Bool.or_eq_true, Bool.and_eq_true, decide_eq_true_eq,
    beq_eq_false_iff_ne, ne_eq] at *
  omega

theorem is_colon_not_xdigit {c : Char} (h : is_colon c = true) : isxdigit c = false := by
  cases hx : isxdigit c
  · rfl
  · rw [isxdigit_not_colon hx] at h; exact absurd h (by decide)

/-- The scan succeeds exactly on strings of hex digits and colons, and then
counts the colons. -/
theorem scan_chars_eq_some (s : List Char) (k n : Int) :
    scan_chars s k = some n ↔
      (∀ c ∈ s, isxdigit c = true ∨ is_colon c = true) ∧ n = k + (s.countP is_colon : Nat) := by
  induction s generalizing k with
  | nil =>
    simp only [scan_chars, Option.some.injEq, List.not_mem_nil, false_implies, implies_true,
      true_and, List.countP_nil, Nat.cast_zero, add_zero]
    exact eq_comm
  | cons c cs ih =>
    cases hx : isxdigit c
    · cases hc : is_colon c
      · simp [scan_chars, hx, hc]
      · simp [scan_chars, hx, hc, ih, List.countP_cons]
        intro _; constructor <;> intro h <;> omega
    · have hc := isxdigit_not_colon hx
      simp [scan_chars, hx, hc, ih, List.countP_cons]

theorem scan_chars_eq_none (s : List Char) (k : Int) :
    scan_chars s k = none ↔ ∃ c ∈ s, isxdigit c = false ∧ is_colon c = false := by
  induction s generalizing k with
  | nil => simp [scan_chars]
  | cons c cs ih =>
    cases hx : isxdigit c
    · cases hc : is_colon c
      · simp [scan_chars, hx, hc]
      · simp [scan_chars, hx, hc, ih]
    · simp [scan_chars, hx, ih]

theorem check_tokens_eq_zero (toks : List (List Char)) :
    check_tokens toks = 0 ↔ ∀ tok ∈ toks, atoi tok ≤ 255 := by
  induction toks with
  | nil => simp [check_tokens]
  | cons t ts ih =>
    by_cases h : atoi t > 255
    · simp [check_tokens, h]
    · simp [check_tokens, h, ih]; omega

theorem check_tokens_cases (toks : List (List Char)) :
    check_tokens toks = 0 ∨ check_tokens toks = -1 := by
  induction toks with
  | nil => simp [check_tokens]
  | cons t ts ih =>
    by_cases h : atoi t > 255
    · simp [check_tokens, h]
    · simpa [check_tokens, h] using ih

theorem colon_fields_ne_nil (s : List Char) : colon_fields s ≠ [] := by
  cases s with
  | nil => simp [colon_fields]
  | cons c cs => by_cases h : is_colon c = true <;> simp [colon_fields, h]

theorem colon_fields_head_tail (s : List Char) :
    colon_fields s = (colon_fields s).headD [] :: (colon_fields s).tail := by
  have h := colon_fields_ne_nil s
  cases hf : colon_fields s with
  | nil => exact absurd hf h
  | cons f fs => rfl

theorem colon_fields_length (s : List Char) :
    (colon_fields s).length = s.countP is_colon + 1 := by
  induction s with
  | nil => simp [colon_fields]
  | cons c cs ih =>
    by_cases h : is_colon c = true
    · simp [colon_fields, h, ih]
    · have hl : (colon_fields cs).tail.length + 1 = (colon_fields cs).length := by
        rw [List.length_tail]
        have := List.length_pos.mpr (colon_fields_ne_nil cs)
        omega
      simp [colon_fields, h, hl, ih]

/-- Every character of a string is a colon or lies in one of its fields. -/
theorem mem_colon_fields (s : List Char) :
    ∀ c ∈ s, is_colon c = true ∨ ∃ f ∈ colon_fields s, c ∈ f := by
  induction s with
  | nil => simp
  | cons d ds ih =>
    intro c hc
    by_cases hd : is_colon d = true
    · rcases List.mem_cons.mp hc with rfl | hc
      · exact Or.inl hd
      · rcases ih c hc with h | ⟨f, hf, hcf⟩
        · exact Or.inl h
        · exact Or.inr ⟨f, by simp [colon_fields, hd, hf], hcf⟩
    · rcases List.mem_cons.mp hc with rfl | hc
      · exact Or.inr ⟨c :: (colon_fields ds).headD [], by simp [colon_fields, hd],
          List.mem_cons_self _ _⟩
      · rcases ih c hc with h | ⟨f, hf, hcf⟩
        · exact Or.inl h
        · rw [colon_fields_head_tail ds] at hf
          rcases List.mem_cons.mp hf with rfl | hf
          · exact Or.inr ⟨d :: (colon_fields ds).headD [], by simp [colon_fields, hd],
              List.mem_cons_of_mem _ hcf⟩
          · exact Or.inr ⟨f, by simp [colon_fields, hd, hf], hcf⟩

/-- Every token that `strtok_r` returns is the token being read followed by
the first field, or one of the later fields. -/
theorem strtok_r_tokens_sub (s cur tok : List Char) (h : tok ∈ strtok_r_tokens s cur) :
    tok = cur.reverse ++ (colon_fields s).headD [] ∨ tok ∈ (colon_fields s).tail := by
  induction s generalizing cur with
  | nil =>
    by_cases hc : cur.isEmpty = true
    · simp [strtok_r_tokens, hc] at h
    · simp [strtok_r_tokens, hc] at h
      simp [colon_fields, h]
  | cons d ds ih =>
    by_cases hd : is_colon d = true
    · have key : tok ∈ strtok_r_tokens ds [] → tok ∈ colon_fields ds := by
        intro ht
        rw [colon_fields_head_tail ds]
        rcases ih [] ht with h1 | h1
        · simp [h1]
        · exact List.mem_cons_of_mem _ h1
      by_cases hc : cur.isEmpty = true
      · simp only [strtok_r_tokens, hd, hc, if_true] at h
        right; simpa [colon_fields, hd] using key h
      · simp only [strtok_r_tokens, hd, hc, if_true] at h
        rcases List.mem_cons.mp h with h1 | h1
        · left; simp [colon_fields, hd, h1]
        · right; simpa [colon_fields, hd] using key h1
    · simp only [strtok_r_tokens, hd] at h
      rcases ih (d :: cur) h with h1 | h1
      · left; simp [colon_fields, hd, h1]
      · right; simpa [colon_fields, hd] using h1

theorem strtok_r_tokens_mem_fields (s tok : List Char) (h : tok ∈ strtok_r_tokens s []) :
    tok ∈ colon_fields s := by
  rw [colon_fields_head_tail s]
  rcases strtok_r_tokens_sub s [] tok h with h1 | h1
  · simp [h1]
  · exact List.mem_cons_of_mem _ h1

theorem le_hex_value (f : List Char) (b : Nat) : b ≤ hex_value f b := by
  induction f generalizing b with
  | nil => simp [hex_value]
  | cons c cs ih =>
    have := ih (b * 16 + hex_digit_value c)
    simp only [hex_value]; omega

/-- The decimal prefix that `atoi` converts is at most the hexadecimal value. -/
theorem atoi_digits_le_hex_value (f : List Char) (a : Int) (b : Nat) (hab : a ≤ b) :
    atoi_digits f a ≤ hex_value f b := by
  induction f generalizing a b with
  | nil => simpa [atoi_digits, hex_value] using hab
  | cons c cs ih =>
    by_cases hd : isdigit c = true
    · simp only [atoi_digits, hd, if_true, hex_value, hex_digit_value]
      apply ih
      push_cast
      omega
    · have := le_hex_value cs (b * 16 + hex_digit_value c)
      simp only [atoi_digits, hd, hex_value]
      simp only [Bool.false_eq_true, if_false]
      omega

theorem atoi_le_hex_value (f : List Char) (hx : ∀ c ∈ f, isxdigit c = true) :
    atoi f ≤ hex_value f 0 := by
  cases f with
  | nil => simp [atoi, skip_space, hex_value]
  | cons c cs =>
    have hc := hx c (List.mem_cons_self _ _)
    have hs : isspace c = false := by
      simp only [isxdigit, isspace, Bool.or_eq_true, Bool.and_eq_true, decide_eq_true_eq,
        Bool.or_eq_false_iff, beq_eq_false_iff_ne, ne_eq, Bool.and_eq_false_imp,
        decide_eq_false_iff_not] at *
      omega
    have h45 : (c.toNat == 45) = false := by
      simp only [isxdigit, Bool.or_eq_true, Bool.and_eq_true, decide_eq_true_eq,
        beq_eq_false_iff_ne, ne_eq] at *
      omega
    have h43 : (c.toNat == 43) = false := by
      simp only [isxdigit, Bool.or_eq_true, Bool.and_eq_true, decide_eq_true_eq,
        beq_eq_false_iff_ne, ne_eq] at *
      omega
    simp only [atoi, skip_space, hs, h45, h43, Bool.false_eq_true, if_false]
    exact atoi_digits_le_hex_value (c :: cs) 0 0 (by simp)

/-- A string of at least 17 characters that is valid in the specification's
reading is accepted by the code. -/
theorem is_valid_mac_chars_of_spec (s : List Char) (hlen : 17 ≤ s.length)
    (hs : spec_valid_mac s = true) : is_valid_mac_chars s = 0 := by
  simp only [spec_valid_mac, Bool.and_eq_true, beq_iff_eq, List.all_eq_true] at hs
  obtain ⟨h6, hf⟩ := hs
  have hcount : s.countP is_colon = 5 := by
    have := colon_fields_length s; omega
  have hscan : scan_chars s 0 = some 5 := by
    rw [scan_chars_eq_some]
    refine ⟨?_, by simp [hcount]⟩
    intro c hc
    rcases mem_colon_fields s c hc with h | ⟨f, hfm, hcf⟩
    · exact Or.inr h
    · have := hf f hfm
      simp only [spec_octet, Bool.and_eq_true, List.all_eq_true] at this
      exact Or.inl (this.1.2 c hcf)
  have htok : check_tokens (strtok_r_tokens s []) = 0 := by
    rw [check_tokens_eq_zero]
    intro tok ht
    have := hf tok (strtok_r_tokens_mem_fields s tok ht)
    simp only [spec_octet, Bool.and_eq_true, List.all_eq_true, decide_eq_true_eq] at this
    have h1 := atoi_le_hex_value tok this.1.2
    omega
  have hl : ¬ s.length < 17 := by omega
  simp [is_valid_mac_chars, hl, hscan, htok]

/-! ## Theorems on `is_valid_mac_str` -/

/-- C3, as stated, fails: the string `0:0:0:0:0:0` consists of exactly six
colon-separated fields, each a non-empty run of hexadecimal digits of value 0,
and `is_valid_mac_str` returns -1 on it (it is shorter than 17 characters). -/
theorem is_valid_mac_str_rejects_short_octets :
    spec_valid_mac "0:0:0:0:0:0".toList = true ∧ is_valid_mac_str "0:0:0:0:0:0" = -1 := by
  decide

/-- C3, amended: `is_valid_mac_str` returns 0 or -1; it returns 0 on every
string of at least 17 characters that consists of exactly six colon-separated
fields, each a non-empty run of hexadecimal digits of hexadecimal value at
most 255; and whenever it returns 0 the string has at least 17 characters,
all of them hexadecimal digits or colons, exactly five of them colons. -/
theorem is_valid_mac_str_accepts_long_octets (s : String) :
    (is_valid_mac_str s = 0 ∨ is_valid_mac_str s = -1) ∧
    (17 ≤ s.length → spec_valid_mac s.toList = true → is_valid_mac_str s = 0) ∧
    (is_valid_mac_str s = 0 →
      17 ≤ s.length ∧ (∀ c ∈ s.toList, isxdigit c = true ∨ is_colon c = true) ∧
        s.toList.countP is_colon = 5) := by
  refine ⟨?_, ?_, ?_⟩
  · unfold is_valid_mac_str is_valid_mac_chars
    split
    · exact Or.inr rfl
    · split
      · exact Or.inr rfl
      · split
        · exact Or.inr rfl
        · exact check_tokens_cases _
  · intro hlen hs
    exact is_valid_mac_chars_of_spec s.toList (by simpa using hlen) hs
  · intro h
    unfold is_valid_mac_str is_valid_mac_chars at h
    split at h
    · exact absurd h (by decide)
    · rename_i hlen
      split at h
      · exact absurd h (by decide)
      · rename_i ccount hscan
        split at h
        · exact absurd h (by decide)
        · rename_i h5
          have h5 : ccount = 5 := by simpa using h5
          rw [scan_chars_eq_some] at hscan
          refine ⟨by simpa using hlen, hscan.1, ?_⟩
          have := hscan.2
          omega

/-- C3, amended, at the string `00:1b:21:3c:9d:f8`. -/
theorem is_valid_mac_str_accepts_long_octets_witness :
    is_valid_mac_str "00:1b:21:3c:9d:f8" = 0 :=
  (is_valid_mac_str_accepts_long_octets "00:1b:21:3c:9d:f8").2.1 (by decide) (by decide)

/-- C4: every string of the canonical form `hh:hh:hh:hh:hh:hh` (17 characters,
six groups of exactly two hexadecimal digits of either case, five colons) is
reported valid: `is_valid_mac_str` returns 0. -/
theorem is_valid_mac_str_canonical (s : String) (h : canonical_mac s.toList = true) :
    is_valid_mac_str s = 0 := by
  unfold is_valid_mac_str
  generalize s.toList = l at h
  unfold canonical_mac at h
  split at h
  · simp only [Bool.and_eq_true] at h
    obtain ⟨⟨⟨⟨⟨⟨⟨⟨⟨⟨⟨⟨⟨⟨⟨⟨a0, a1⟩, p0⟩, b0⟩, b1⟩, p1⟩, c0⟩, c1⟩, p2⟩, d0⟩, d1⟩, p3⟩, e0⟩, e1⟩, p4⟩,
      f0⟩, f1⟩ := h
    apply is_valid_mac_chars_of_spec
    · simp
    · have hv : ∀ x y : Char, isxdigit x = true → isxdigit y = true →
          spec_octet [x, y] = true := by
        intro x y hx hy
        have bx : hex_digit_value x ≤ 15 := by
          simp only [isxdigit, Bool.or_eq_true, Bool.and_eq_true, decide_eq_true_eq] at hx
          simp only [hex_digit_value, isdigit, Bool.and_eq_true, decide_eq_true_eq]
          split <;> [omega; (split <;> omega)]
        have by1 : hex_digit_value y ≤ 15 := by
          simp only [isxdigit, Bool.or_eq_true, Bool.and_eq_true, decide_eq_true_eq] at hy
          simp only [hex_digit_value, isdigit, Bool.and_eq_true, decide_eq_true_eq]
          split <;> [omega; (split <;> omega)]
        simp only [spec_octet, List.isEmpty_cons, Bool.not_false, List.all_cons, hx, hy,
          List.all_nil, Bool.and_self, hex_value, zero_mul, zero_add, Bool.true_and,
          decide_eq_true_eq]
        omega
      simp [spec_valid_mac, colon_fields, isxdigit_not_colon a0, isxdigit_not_colon a1,
        isxdigit_not_colon b0, isxdigit_not_colon b1, isxdigit_not_colon c0,
        isxdigit_not_colon c1, isxdigit_not_colon d0, isxdigit_not_colon d1,
        isxdigit_not_colon e0, isxdigit_not_colon e1, isxdigit_not_colon f0,
        isxdigit_not_colon f1, p0, p1, p2, p3, p4, hv, a0, a1, b0, b1, c0, c1, d0, d1,
        e0, e1, f0, f1]
  · exact absurd h (by decide)

/-- C4 at the string `0A:1b:2C:3d:4E:5f`. -/
theorem is_valid_mac_str_canonical_witness : is_valid_mac_str "0A:1b:2C:3d:4E:5f" = 0 :=
  is_valid_mac_str_canonical "0A:1b:2C:3d:4E:5f" (by decide)

/-- C5: a string that is shorter than 17 characters, or contains a character
that is neither a hexadecimal digit nor a colon, or whose number of colons is
not exactly 5, is reported invalid: `is_valid_mac_str` returns -1. -/
theorem is_valid_mac_str_rejects (s : String)
    (h : s.length < 17 ∨ (∃ c ∈ s.toList, isxdigit c = false ∧ is_colon c = false) ∨
      s.toList.countP is_colon ≠ 5) :
    is_valid_mac_str s = -1 := by
  unfold is_valid_mac_str is_valid_mac_chars
  split
  · rfl
  · rename_i hlen
    split
    · rfl
    · rename_i ccount hscan
      split
      · rfl
      · rename_i h5
        have h5 : ccount = 5 := by simpa using h5
        exfalso
        rcases h with h | h | h
        · exact hlen (by simpa using h)
        · have := (scan_chars_eq_none s.toList 0).mpr h
          rw [this] at hscan
          exact absurd hscan (by simp)
        · rw [scan_chars_eq_some] at hscan
          have := hscan.2
          omega

/-- C5 at three strings: one too short, one with the character `g`, one with
four colons. -/
theorem is_valid_mac_str_rejects_witness :
    is_valid_mac_str "00:11:22:33:44:5" = -1 ∧ is_valid_mac_str "00:11:22:33:44:5g" = -1 ∧
      is_valid_mac_str "00:11:22:33:44555" = -1 :=
  ⟨is_valid_mac_str_rejects "00:11:22:33:44:5" (Or.inl (by decide)),
   is_valid_mac_str_rejects "00:11:22:33:44:5g" (Or.inr (Or.inl ⟨'g', by decide, by decide⟩)),
   is_valid_mac_str_rejects "00:11:22:33:44555" (Or.inr (Or.inr (by decide)))⟩

/-- C6 fails on the code: the string `1ff:00:00:00:00:00` is made of
hexadecimal digits and exactly five colons, its first field `1ff` has the
hexadecimal value 511, and `is_valid_mac_str` returns 0 (valid): `atoi`
converts the decimal prefix `1` of the field. -/
theorem is_valid_mac_str_accepts_1ff :
    ("1ff:00:00:00:00:00".toList.all fun c => isxdigit c || is_colon c) = true ∧
      "1ff:00:00:00:00:00".toList.countP is_colon = 5 ∧
      (colon_fields "1ff:00:00:00:00:00".toList).head? = some "1ff".toList ∧
      hex_value "1ff".toList 0 = 511 ∧ atoi "1ff".toList = 1 ∧
      is_valid_mac_str "1ff:00:00:00:00:00" = 0 := by
  decide

/-! ## Lemmas on `vfd_update_nic` -/

/-- The VF loop, cut at a slot that it reaches. -/
theorem update_vfs_split (h : sriov_h) (parms : parms_t) (i : Nat) (port : sriov_port_s)
    (vs : List vf_s) (vf : vf_s) (ws : List vf_s) (y n : Nat) (hn : vs.length < n) :
    update_vfs h parms i port y n (vs ++ vf :: ws) =
      ((update_vfs h parms i port y vs.length vs).1 ++
          (update_vf h parms i (y + vs.length) port vf).1 ++
          (update_vfs h parms i port (y + vs.length + 1) (n - vs.length - 1) ws).1,
       (update_vfs h parms i port y vs.length vs).2 ++
          (update_vf h parms i (y + vs.length) port vf).2 ::
          (update_vfs h parms i port (y + vs.length + 1) (n - vs.length - 1) ws).2) := by
  induction vs generalizing y n with
  | nil =>
    obtain ⟨m, rfl⟩ : ∃ m, n = m + 1 := ⟨n - 1, by simp at hn; omega⟩
    simp [update_vfs]
  | cons v vs ih =>
    obtain ⟨m, rfl⟩ : ∃ m, n = m + 1 := ⟨n - 1, by simp at hn; omega⟩
    have hm : vs.length < m := by simp at hn; omega
    have e1 : y + 1 + vs.length = y + (vs.length + 1) := by omega
    have e2 : m + 1 - (vs.length + 1) - 1 = m - vs.length - 1 := by omega
    simp only [List.cons_append, update_vfs, List.append_eq, ih (y + 1) m hm, List.length_cons,
      e1, e2, List.append_assoc]

/-- The VF loop over exactly the slots it is given leaves as many slots. -/
theorem update_vfs_length (h : sriov_h) (parms : parms_t) (i : Nat) (port : sriov_port_s)
    (vs : List vf_s) (y n : Nat) : (update_vfs h parms i port y n vs).2.length = vs.length := by
  induction vs generalizing y n with
  | nil => cases n <;> simp [update_vfs]
  | cons v vs ih => cases n <;> simp [update_vfs, ih]

/-- The port loop, cut at a port that it reaches. -/
theorem update_ports_split (h : sriov_h) (parms : parms_t)
    (ps : List sriov_port_s) (port : sriov_port_s) (qs : List sriov_port_s) (i n : Nat)
    (hn : ps.length < n) :
    update_ports h parms i n (ps ++ port :: qs) =
      ((update_ports h parms i ps.length ps).1 ++
          (update_port h parms (i + ps.length) port).1 ++
          (update_ports h parms (i + ps.length + 1) (n - ps.length - 1) qs).1,
       (update_ports h parms i ps.length ps).2 ++
          (update_port h parms (i + ps.length) port).2 ::
          (update_ports h parms (i + ps.length + 1) (n - ps.length - 1) qs).2) := by
  induction ps generalizing i n with
  | nil =>
    obtain ⟨m, rfl⟩ : ∃ m, n = m + 1 := ⟨n - 1, by simp at hn; omega⟩
    simp [update_ports]
  | cons v vs ih =>
    obtain ⟨m, rfl⟩ : ∃ m, n = m + 1 := ⟨n - 1, by simp at hn; omega⟩
    have hm : vs.length < m := by simp at hn; omega
    have e1 : i + 1 + vs.length = i + (vs.length + 1) := by omega
    have e2 : m + 1 - (vs.length + 1) - 1 = m - vs.length - 1 := by omega
    simp only [List.cons_append, update_ports, List.append_eq, ih (i + 1) m hm,
      List.length_cons, e1, e2, List.append_assoc]

theorem update_ports_length (h : sriov_h) (parms : parms_t)
    (ps : List sriov_port_s) (i n : Nat) : (update_ports h parms i n ps).2.length = ps.length := by
  induction ps generalizing i n with
  | nil => cases n <;> simp [update_ports]
  | cons v vs ih => cases n <;> simp [update_ports, ih]

/-- What the loop body does for a slot whose marker is `DELETED`, with
`forreal` on. -/
theorem update_vf_deleted (h : sriov_h) (parms : parms_t) (i y : Nat) (port : sriov_port_s)
    (vf : vf_s) (hreal : parms.forreal ≠ 0) (hdel : vf.last_updated = DELETED) :
    update_vf h parms i y port vf =
      (((recorded_vlans vf).map fun vlan =>
          set_vf_rx_vlan port.rte_port_number vlan (h.VFN2MASK vf.num) 0) ++
        ((recorded_macs vf).map fun mac => set_vf_rx_mac port.rte_port_number mac vf.num 0) ++
        (if vf.rate > 0 then
          [set_vf_rate_limit port.rte_port_number vf.num (h.rate_arg vf.rate) 1] else []),
       { vf with start_cb := none, stop_cb := none, num := -1, last_updated := UNCHANGED }) := by
  have h1 : ¬ (DELETED = UNCHANGED) := by decide
  simp [update_vf, h1, hdel, vlan_calls, mac_calls, hreal, refresh_calls, recorded_vlans,
    recorded_macs]

@[simp]
theorem mark_port_rte_port_number (port : sriov_port_s) :
    (mark_port port).rte_port_number = port.rte_port_number := by
  unfold mark_port; split <;> rfl

@[simp]
theorem mark_port_vfs (port : sriov_port_s) : (mark_port port).vfs = port.vfs := by
  unfold mark_port; split <;> rfl

@[simp]
theorem mark_port_num_vfs (port : sriov_port_s) :
    (mark_port port).num_vfs = port.num_vfs := by
  unfold mark_port; split <;> rfl

@[simp]
theorem mark_port_flags (port : sriov_port_s) : (mark_port port).flags = port.flags := by
  unfold mark_port; split <;> rfl

theorem mark_port_last_updated (port : sriov_port_s) :
    (mark_port port).last_updated ≠ ADDED := by
  have hc : UNCHANGED ≠ ADDED := by decide
  by_cases hp : port.last_updated = ADDED <;> simp [mark_port, hp, hc]

/-- The loop body leaves the marker of the slot `UNCHANGED`. -/
theorem update_vf_marker (h : sriov_h) (parms : parms_t) (i y : Nat) (port : sriov_port_s)
    (vf : vf_s) : (update_vf h parms i y port vf).2.last_updated = UNCHANGED := by
  unfold update_vf
  split
  · rfl
  · rename_i hu
    simpa using hu

/-- On a slot whose marker is `UNCHANGED` the loop body issues the
end-of-round calls only and leaves the slot as it is. -/
theorem update_vf_unchanged (h : sriov_h) (parms : parms_t) (i y : Nat) (port : sriov_port_s)
    (vf : vf_s) (hu : vf.last_updated = UNCHANGED) :
    update_vf h parms i y port vf = (refresh_calls h parms port vf, vf) := by
  simp [update_vf, hu]

/-- A second run of the VF loop over the slots that a first run left. -/
theorem update_vfs_steady (h : sriov_h) (parms : parms_t) (i i2 : Nat)
    (port port2 : sriov_port_s) (vfs : List vf_s) (y y2 n : Nat) :
    update_vfs h parms i2 port2 y2 n (update_vfs h parms i port y n vfs).2 =
      ((((update_vfs h parms i port y n vfs).2).take n).flatMap
          fun vf => refresh_calls h parms port2 vf,
       (update_vfs h parms i port y n vfs).2) := by
  induction vfs generalizing y y2 n with
  | nil => cases n <;> simp [update_vfs]
  | cons v vs ih =>
    cases n with
    | zero => simp [update_vfs]
    | succ m =>
      simp only [update_vfs, List.take_succ_cons, List.flatMap_cons]
      rw [update_vf_unchanged h parms i2 y2 port2 _ (update_vf_marker h parms i y port v)]
      rw [ih (y + 1) (y2 + 1) m]

/-- A second run of the port loop body on the port that a first run left. -/
theorem update_port_steady (h : sriov_h) (parms : parms_t) (i : Nat) (port : sriov_port_s) :
    update_port h parms i (update_port h parms i port).2 =
      ((if parms.forreal ≠ 0 then
          [tx_set_loopback i
            (if (update_port h parms i port).2.flags &&& h.PF_LOOPBACK ≠ 0 then 1 else 0),
           set_queue_drop i 1]
        else []) ++
        (((update_port h parms i port).2.vfs.take (update_port h parms i port).2.num_vfs.toNat).flatMap
          fun vf => refresh_calls h parms (update_port h parms i port).2 vf),
       (update_port h parms i port).2) := by
  have hne : (update_port h parms i port).2.last_updated ≠ ADDED := mark_port_last_updated port
  have hvfs : (update_port h parms i port).2.vfs =
      (update_vfs h parms i (mark_port port) 0 port.num_vfs.toNat port.vfs).2 := rfl
  have hnum : (update_port h parms i port).2.num_vfs = port.num_vfs := mark_port_num_vfs port
  generalize (update_port h parms i port).2 = q at hne hvfs hnum ⊢
  have hq : mark_port q = q := by simp [mark_port, hne]
  unfold update_port port_calls
  rw [hq]
  simp only [hne, if_false, List.append_nil]
  rw [hvfs, hnum, update_vfs_steady, ← hvfs, ← hnum]

/-- A second run of the port loop over the ports that a first run left. -/
theorem update_ports_steady (h : sriov_h) (parms : parms_t) (ps : List sriov_port_s)
    (i n : Nat) :
    update_ports h parms i n (update_ports h parms i n ps).2 =
      (steady_ports h parms i n (update_ports h parms i n ps).2,
       (update_ports h parms i n ps).2) := by
  induction ps generalizing i n with
  | nil => cases n <;> simp [update_ports, steady_ports]
  | cons p ps ih =>
    cases n with
    | zero => simp [update_ports, steady_ports]
    | succ m =>
      simp only [update_ports, steady_ports]
      rw [update_port_steady, ih (i + 1) m]

theorem steady_ports_per_pass (h : sriov_h) (parms : parms_t) (ps : List sriov_port_s)
    (i n : Nat) : ∀ c ∈ steady_ports h parms i n ps, is_per_pass_call c = true := by
  induction ps generalizing i n with
  | nil => cases n <;> simp [steady_ports]
  | cons p ps ih =>
    cases n with
    | zero => simp [steady_ports]
    | succ m =>
      intro c hc
      simp only [steady_ports, List.mem_append, List.mem_flatMap] at hc
      rcases hc with (hc | ⟨vf, _, hc⟩) | hc
      · split at hc
        · simp at hc; rcases hc with rfl | rfl <;> rfl
        · simp at hc
      · unfold refresh_calls at hc
        split at hc
        · split at hc
          · simp at hc; rcases hc with rfl | rfl | rfl | rfl <;> rfl
          · simp at hc
        · simp at hc
      · exact ih (i + 1) m c hc

theorem steady_ports_forreal_off (h : sriov_h) (parms : parms_t) (hoff : parms.forreal = 0)
    (ps : List sriov_port_s) (i n : Nat) : steady_ports h parms i n ps = [] := by
  induction ps generalizing i n with
  | nil => cases n <;> simp [steady_ports]
  | cons p ps ih =>
    cases n with
    | zero => simp [steady_ports]
    | succ m => simp [steady_ports, hoff, ih, refresh_calls]

/-! ## Theorems on `vfd_update_nic` -/

/-- C1: with `initialised` and `forreal` on, for a VF slot (slot `vs.length`
of the port with loop index `ps.length`) whose marker is `DELETED` and whose
index `vf.num` is at least 0, the calls of one pass of `vfd_update_nic` are:
the calls of everything the pass handles before the slot; then one
remove-VLAN call (`set_vf_rx_vlan` with `onoff` 0) per recorded VLAN, in list
order, each with the mask of `vf.num`; then one remove-MAC call
(`set_vf_rx_mac` with `onoff` 0) per recorded MAC, in list order, each with
the VF number `vf.num`; then the rate-limit call if a rate is set; then the
calls of everything handled after the slot.  The slot ends with index -1 (and
marker `UNCHANGED`, command strings released), and no remove-MAC call of the
slot carries -1. -/
theorem vfd_update_nic_deleted_teardown (h : sriov_h) (parms : parms_t) (conf : sriov_conf_t)
    (ps : List sriov_port_s) (port : sriov_port_s) (qs : List sriov_port_s)
    (vs : List vf_s) (vf : vf_s) (ws : List vf_s)
    (hinit : parms.initialised ≠ 0) (hreal : parms.forreal ≠ 0)
    (hports : conf.ports = ps ++ port :: qs) (hi : ps.length < conf.num_ports.toNat)
    (hvfs : port.vfs = vs ++ vf :: ws) (hy : vs.length < port.num_vfs.toNat)
    (hdel : vf.last_updated = DELETED) (hnum : 0 ≤ vf.num) :
    (vfd_update_nic h parms conf).calls =
        (update_ports h parms 0 ps.length ps).1 ++ port_calls h parms ps.length port ++
        (update_vfs h parms ps.length (mark_port port) 0 vs.length vs).1 ++
        ((recorded_vlans vf).map fun vlan =>
          set_vf_rx_vlan port.rte_port_number vlan (h.VFN2MASK vf.num) 0) ++
        ((recorded_macs vf).map fun mac => set_vf_rx_mac port.rte_port_number mac vf.num 0) ++
        (if vf.rate > 0 then
          [set_vf_rate_limit port.rte_port_number vf.num (h.rate_arg vf.rate) 1] else []) ++
        (update_vfs h parms ps.length (mark_port port) (vs.length + 1)
          (port.num_vfs.toNat - vs.length - 1) ws).1 ++
        (update_ports h parms (ps.length + 1) (conf.num_ports.toNat - ps.length - 1) qs).1 ∧
      ((vfd_update_nic h parms conf).conf.ports[ps.length]?.bind fun p => p.vfs[vs.length]?) =
        some { vf with start_cb := none, stop_cb := none, num := -1,
                       last_updated := UNCHANGED } ∧
      ∀ mac onoff, set_vf_rx_mac port.rte_port_number mac (-1) onoff ∉
        (recorded_macs vf).map fun mac => set_vf_rx_mac port.rte_port_number mac vf.num 0 := by
  refine ⟨?_, ?_, ?_⟩
  · simp only [vfd_update_nic, hinit, if_false, hports, update_ports_split h parms ps port qs 0 _ hi,
      update_port, hvfs, update_vfs_split h parms _ (mark_port port) vs vf ws 0 _ hy,
      update_vf_deleted h parms _ _ _ vf hreal hdel, mark_port_rte_port_number, Nat.zero_add,
      List.append_assoc]
  · have hlenp : (update_ports h parms 0 ps.length ps).2.length = ps.length :=
      update_ports_length h parms ps 0 _
    have hlenv : (update_vfs h parms ps.length (mark_port port) 0 vs.length vs).2.length =
        vs.length := update_vfs_length h parms _ _ vs 0 _
    simp only [vfd_update_nic, hinit, if_false, hports,
      update_ports_split h parms ps port qs 0 _ hi, update_port, hvfs,
      update_vfs_split h parms _ (mark_port port) vs vf ws 0 _ hy,
      update_vf_deleted h parms _ _ _ vf hreal hdel, Nat.zero_add]
    rw [List.getElem?_append_right (by omega)]
    simp only [hlenp, Nat.sub_self, List.getElem?_cons_zero, Option.some_bind]
    rw [List.getElem?_append_right (by omega)]
    simp [hlenv]
  · intro mac onoff hmem
    simp only [List.mem_map] at hmem
    obtain ⟨m, _, hm⟩ := hmem
    injection hm with _ _ h3 _
    omega

/-- C1 at the example configuration: the VF in slot 1 (index 3, VLANs 10 and
20, one MAC) is marked `DELETED`; the pass issues the port calls and the
end-of-round calls of slot 0, then the two remove-VLAN calls with mask
`1 << 3`, then the remove-MAC call with VF number 3, and slot 1 ends with
index -1. -/
theorem vfd_update_nic_deleted_teardown_witness :
    (vfd_update_nic example_h example_parms example_conf).calls =
        [tx_set_loopback 0 0, set_queue_drop 0 1,
         rte_eth_promiscuous_enable 0, rte_eth_allmulticast_enable 0,
         rte_eth_dev_uc_all_hash_table_set 0 1, rte_eth_dev_set_vf_rxmode 0 1 1 0,
         set_vf_rx_vlan 0 10 8 0, set_vf_rx_vlan 0 20 8 0,
         set_vf_rx_mac 0 "fa:ce:de:02:00:01" 3 0] ∧
      ((vfd_update_nic example_h example_parms example_conf).conf.ports[0]?.bind
          fun p => p.vfs[1]?) =
        some { example_deleted_vf with start_cb := none, stop_cb := none, num := -1,
                                       last_updated := UNCHANGED } :=
  have t := vfd_update_nic_deleted_teardown example_h example_parms example_conf
    [] example_port [] [example_idle_vf] example_deleted_vf []
    (by decide) (by decide) rfl (by decide) rfl (by decide) rfl (by decide)
  ⟨t.1.trans (by decide), t.2.1⟩

/-- C2, as stated, fails: on the example configuration (initialised, `forreal`
on) the second of two successive passes of `vfd_update_nic` still issues NIC
calls: loopback and queue drop for the port, and the four end-of-round calls
for the VF in use. -/
theorem vfd_update_nic_second_pass_calls :
    (vfd_update_nic example_h example_parms
        (vfd_update_nic example_h example_parms example_conf).conf).calls =
      [tx_set_loopback 0 0, set_queue_drop 0 1,
       rte_eth_promiscuous_enable 0, rte_eth_allmulticast_enable 0,
       rte_eth_dev_uc_all_hash_table_set 0 1, rte_eth_dev_set_vf_rxmode 0 1 1 0] := by
  decide

/-- C2, amended: the second of two successive passes of `vfd_update_nic`
leaves the configuration (every port and VF field, markers included) exactly
as the first pass left it and returns 0; the calls it issues are exactly the
per-pass calls (`steady_calls`: loopback and queue drop per port, and the
promiscuous, all-multicast, unicast-hash and receive-mode calls per VF in
use), so no filter, rate-limit, anti-spoof, strip/insert or allow-flag call;
with `forreal` off it issues no call at all. -/
theorem vfd_update_nic_second_pass (h : sriov_h) (parms : parms_t) (conf : sriov_conf_t) :
    (vfd_update_nic h parms (vfd_update_nic h parms conf).conf).conf =
        (vfd_update_nic h parms conf).conf ∧
      (vfd_update_nic h parms (vfd_update_nic h parms conf).conf).rc = 0 ∧
      (vfd_update_nic h parms (vfd_update_nic h parms conf).conf).calls =
        steady_calls h parms (vfd_update_nic h parms conf).conf ∧
      (∀ c ∈ (vfd_update_nic h parms (vfd_update_nic h parms conf).conf).calls,
        is_per_pass_call c = true) ∧
      (parms.forreal = 0 →
        (vfd_update_nic h parms (vfd_update_nic h parms conf).conf).calls = []) := by
  by_cases hinit : parms.initialised = 0
  · simp [vfd_update_nic, hinit, steady_calls]
  · have key : (vfd_update_nic h parms (vfd_update_nic h parms conf).conf).calls =
        steady_calls h parms (vfd_update_nic h parms conf).conf := by
      simp only [vfd_update_nic, hinit, if_false, steady_calls, update_ports_steady]
    refine ⟨?_, ?_, key, ?_, ?_⟩
    · simp only [vfd_update_nic, hinit, if_false, update_ports_steady]
    · simp [vfd_update_nic, hinit]
    · rw [key]
      simp only [steady_calls, hinit, if_false]
      exact steady_ports_per_pass h parms _ _ _
    · intro hoff
      rw [key]
      simp only [steady_calls, hinit, if_false]
      exact steady_ports_forreal_off h parms hoff _ _ _

/-- C2, amended, with `forreal` off: the second pass over the example
configuration issues no call. -/
theorem vfd_update_nic_second_pass_witness :
    (vfd_update_nic example_h { initialised := 1, forreal := 0 }
      (vfd_update_nic example_h { initialised := 1, forreal := 0 } example_conf).conf).calls
      = [] :=
  (vfd_update_nic_second_pass example_h { initialised := 1, forreal := 0 } example_conf).2.2.2.2
    (by decide)

/-! ## Lemmas on `gen_tc_pctgs` -/

theorem norm_tc_eq_store_loop (M : Nat) (port : sriov_port_s) (ntcs i : Nat) (a : List Nat) :
    norm_tc M port ntcs i a =
      store_loop (fun j => j * ntcs + i) (stored M port i) a (List.range' i (M - i)) := by
  unfold norm_tc store_loop stored
  by_cases hs : tc_sum M port i ≠ 100
  · rw [if_pos hs]
    show List.foldl _ a _ = List.foldl _ a _
    congr 1
    funext norm j
    by_cases ha : 0 ≤ (vf_at port j).num <;> simp [hs, ha]
  · rw [if_neg hs]
    show List.foldl _ a _ = List.foldl _ a _
    congr 1
    funext norm j
    simp [hs]

theorem store_loop_length (idx : Nat → Nat) (st : Nat → Option Nat) (a js : List Nat) :
    (store_loop idx st a js).length = a.length := by
  induction js generalizing a with
  | nil => rfl
  | cons x xs ih =>
    simp only [store_loop, List.foldl_cons] at ih ⊢
    rw [ih]
    split <;> simp

theorem store_loop_getD_of_ne (idx : Nat → Nat) (st : Nat → Option Nat) (a js : List Nat)
    (k : Nat) (hk : ∀ j ∈ js, idx j ≠ k) : (store_loop idx st a js).getD k 0 = a.getD k 0 := by
  induction js generalizing a with
  | nil => rfl
  | cons x xs ih =>
    simp only [store_loop, List.foldl_cons] at ih ⊢
    rw [ih _ (fun j hj => hk j (List.mem_cons_of_mem _ hj))]
    have hx := hk x (List.mem_cons_self _ _)
    split
    · simp [List.getD_eq_getElem?_getD, List.getElem?_set_ne hx]
    · rfl

theorem store_loop_getD_of_mem (idx : Nat → Nat) (st : Nat → Option Nat) (a js : List Nat)
    (j : Nat) (hj : j ∈ js) (hinj : ∀ x ∈ js, idx x = idx j → x = j) (hlt : idx j < a.length) :
    (store_loop idx st a js).getD (idx j) 0 = (st j).getD (a.getD (idx j) 0) := by
  induction js generalizing a with
  | nil => exact absurd hj (List.not_mem_nil _)
  | cons x xs ih =>
    by_cases hx : x = j
    · subst hx
      by_cases hmem : x ∈ xs
      · have := ih (a := match st x with
          | some v => a.set (idx x) v
          | none => a) hmem (fun y hy => hinj y (List.mem_cons_of_mem _ hy))
          (by split <;> simp [hlt])
        simp only [store_loop, List.foldl_cons] at this ⊢
        rw [this]
        cases hs : st x <;> simp [List.getD_eq_getElem?_getD, hlt]
      · have hne : ∀ y ∈ xs, idx y ≠ idx x := by
          intro y hy he
          exact hmem ((hinj y (List.mem_cons_of_mem _ hy) he) ▸ hy)
        have := store_loop_getD_of_ne idx st (match st x with
          | some v => a.set (idx x) v
          | none => a) xs (idx x) hne
        simp only [store_loop, List.foldl_cons] at this ⊢
        rw [this]
        cases hs : st x <;> simp [List.getD_eq_getElem?_getD, hlt]
    · have hj2 : j ∈ xs := by
        rcases List.mem_cons.mp hj with h | h
        · exact absurd h.symm hx
        · exact h
      have hne : idx x ≠ idx j := fun he => hx (hinj x (List.mem_cons_self _ _) he)
      have := ih (a := match st x with
          | some v => a.set (idx x) v
          | none => a) hj2 (fun y hy => hinj y (List.mem_cons_of_mem _ hy))
          (by split <;> simp [hlt])
      simp only [store_loop, List.foldl_cons] at this ⊢
      rw [this]
      cases hs : st x <;> simp [List.getD_eq_getElem?_getD, List.getElem?_set_ne hne]

theorem norm_tc_length (M : Nat) (port : sriov_port_s) (ntcs i : Nat) (a : List Nat) :
    (norm_tc M port ntcs i a).length = a.length := by
  rw [norm_tc_eq_store_loop, store_loop_length]

/-- Round `i` of the second loop leaves the entries of every other class as
they are. -/
theorem norm_tc_getD_other (M : Nat) (port : sriov_port_s) (ntcs i : Nat) (a : List Nat)
    (j t : Nat) (ht : t < ntcs) (hi : i < ntcs) (hne : i ≠ t) :
    (norm_tc M port ntcs i a).getD (j * ntcs + t) 0 = a.getD (j * ntcs + t) 0 := by
  rw [norm_tc_eq_store_loop]
  apply store_loop_getD_of_ne
  intro x _ he
  apply hne
  have h2 := congrArg (· % ntcs) he
  simpa [Nat.mul_add_mod', Nat.mod_eq_of_lt hi, Nat.mod_eq_of_lt ht] using h2

/-- Round `t` of the second loop stores into the entry of slot `j` and class
`t` exactly when `t ≤ j < MAX_VFS`. -/
theorem norm_tc_getD_same (M : Nat) (port : sriov_port_s) (ntcs t : Nat) (a : List Nat)
    (j : Nat) (ht : t < ntcs) (hk : j * ntcs + t < a.length) :
    (norm_tc M port ntcs t a).getD (j * ntcs + t) 0 =
      if t ≤ j ∧ j < M then (stored M port t j).getD (a.getD (j * ntcs + t) 0)
      else a.getD (j * ntcs + t) 0 := by
  rw [norm_tc_eq_store_loop]
  have hpos : 0 < ntcs := by omega
  have hinj : ∀ x : Nat, x * ntcs + t = j * ntcs + t → x = j := by
    intro x he
    exact Nat.eq_of_mul_eq_mul_right hpos (by omega)
  by_cases hr : t ≤ j ∧ j < M
  · rw [if_pos hr]
    have hmem : j ∈ List.range' t (M - t) := by
      rw [List.mem_range'_1]; omega
    exact store_loop_getD_of_mem (fun j => j * ntcs + t) (stored M port t) a _ j hmem
      (fun x _ he => hinj x he) hk
  · rw [if_neg hr]
    apply store_loop_getD_of_ne
    intro x hx he
    rw [List.mem_range'_1] at hx
    have := hinj x he
    omega

/-- The second loop over a list of rounds: the entry of slot `j` and class
`t` is touched by round `t` only. -/
theorem rounds_getD (M : Nat) (port : sriov_port_s) (ntcs : Nat) (rounds : List Nat)
    (a : List Nat) (j t : Nat) (ht : t < ntcs) (hk : j * ntcs + t < a.length)
    (hr : ∀ i ∈ rounds, i < ntcs) :
    (rounds.foldl (fun norm i => norm_tc M port ntcs i norm) a).getD (j * ntcs + t) 0 =
      if t ∈ rounds ∧ t ≤ j ∧ j < M then (stored M port t j).getD (a.getD (j * ntcs + t) 0)
      else a.getD (j * ntcs + t) 0 := by
  induction rounds generalizing a with
  | nil => simp
  | cons r rs ih =>
    have hlen : j * ntcs + t < (norm_tc M port ntcs r a).length := by
      rw [norm_tc_length]; exact hk
    rw [List.foldl_cons, ih _ hlen (fun i hi => hr i (List.mem_cons_of_mem _ hi))]
    by_cases hrt : r = t
    · subst hrt
      rw [norm_tc_getD_same M port ntcs r a j ht hk]
      by_cases hj : r ≤ j ∧ j < M
      · cases hs : stored M port r j <;> simp [hj, hs]
      · simp [hj]
    · rw [norm_tc_getD_other M port ntcs r a j t ht (hr r (List.mem_cons_self _ _)) hrt]
      have : (t ∈ r :: rs) ↔ t ∈ rs := by
        simp [List.mem_cons, Ne.symm hrt]
      simp only [this]

/-- What `gen_tc_pctgs` leaves in the entry of slot `j` and class `t`: the
value stored by round `t` when `t ≤ j < MAX_VFS` and that round stores one,
else the initial 0. -/
theorem gen_tc_pctgs_getD (M Q : Nat) (port : sriov_port_s) (j t : Nat)
    (ht : t < port.ntcs.toNat) (hk : j * port.ntcs.toNat + t < Q) :
    (gen_tc_pctgs M Q port).getD (j * port.ntcs.toNat + t) 0 =
      if t ≤ j ∧ j < M then (stored M port t j).getD 0 else 0 := by
  unfold gen_tc_pctgs
  rw [rounds_getD M port _ _ _ j t ht (by simpa using hk) (fun i hi => List.mem_range.mp hi)]
  have hmem : t ∈ List.range port.ntcs.toNat := List.mem_range.mpr ht
  have h0 : (List.replicate Q 0).getD (j * port.ntcs.toNat + t) 0 = 0 := by
    simp [List.getD_eq_getElem?_getD, List.getElem?_replicate, hk]
  simp only [hmem, true_and, h0]

theorem gen_tc_pctgs_length (M Q : Nat) (port : sriov_port_s) :
    (gen_tc_pctgs M Q port).length = Q := by
  unfold gen_tc_pctgs
  generalize List.range port.ntcs.toNat = rounds
  have : ∀ a : List Nat, (rounds.foldl (fun norm i => norm_tc M port port.ntcs.toNat i norm) a).length
      = a.length := by
    induction rounds with
    | nil => intro a; rfl
    | cons r rs ih => intro a; rw [List.foldl_cons, ih, norm_tc_length]
  rw [this]; simp

/-- The sum `sums[i]` as a sum over the slots. -/
theorem tc_sum_eq_sum (M : Nat) (port : sriov_port_s) (i : Nat) :
    tc_sum M port i =
      ∑ j in Finset.range M, if 0 ≤ (vf_at port j).num then tc_pctg (vf_at port j) i else 0 := by
  unfold tc_sum
  induction M with
  | zero => simp
  | succ m ih =>
    rw [List.range_succ, List.foldl_append, ih, Finset.sum_range_succ]
    simp only [List.foldl_cons, List.foldl_nil]
    split <;> simp

theorem class_total_eq_sum (M ntcs : Nat) (out : List Nat) (t : Nat) :
    class_total M ntcs out t = ∑ j in Finset.range M, out.getD (j * ntcs + t) 0 := by
  unfold class_total
  induction M with
  | zero => simp
  | succ m ih => rw [List.range_succ, List.map_append, List.sum_append, ih, Finset.sum_range_succ]; simp

theorem gen_tc_pctgs_getD_ntcs (M Q : Nat) (port : sriov_port_s) (n j t : Nat)
    (hn : port.ntcs.toNat = n) (ht : t < n) (hk : j * n + t < Q) :
    (gen_tc_pctgs M Q port).getD (j * n + t) 0 =
      if t ≤ j ∧ j < M then (stored M port t j).getD 0 else 0 := by
  subst hn
  exact gen_tc_pctgs_getD M Q port j t ht hk

/-- The class sum of a port on which exactly the slots `a` and `b` are in use. -/
theorem tc_sum_two (M : Nat) (port : sriov_port_s) (t a b : Nat) (ha : a < M) (hb : b < M)
    (hab : a ≠ b) (haa : 0 ≤ (vf_at port a).num) (hba : 0 ≤ (vf_at port b).num)
    (hrest : ∀ j, j < M → j ≠ a → j ≠ b → (vf_at port j).num < 0) :
    tc_sum M port t = tc_pctg (vf_at port a) t + tc_pctg (vf_at port b) t := by
  rw [tc_sum_eq_sum, Finset.sum_eq_add a b hab]
  · simp [haa, hba]
  · intro c hc hne
    have := hrest c (Finset.mem_range.mp hc) hne.1 hne.2
    rw [if_neg (by omega)]
  · intro h; exact absurd (Finset.mem_range.mpr ha) h
  · intro h; exact absurd (Finset.mem_range.mpr hb) h

/-- The class-0 entries of the output for a port with four classes on which
exactly the slots `a` and `b` are in use, both with class-0 share 60. -/
theorem gen_tc_pctgs_60_60_entry (M Q : Nat) (port : sriov_port_s) (a b : Nat)
    (hntcs : port.ntcs = 4) (ha : a < M) (hb : b < M) (hab : a ≠ b)
    (haa : 0 ≤ (vf_at port a).num) (hba : 0 ≤ (vf_at port b).num)
    (hsa : tc_pctg (vf_at port a) 0 = 60) (hsb : tc_pctg (vf_at port b) 0 = 60)
    (hrest : ∀ j, j < M → j ≠ a → j ≠ b → (vf_at port j).num < 0)
    (j : Nat) (hj : j < M) (hq : j * 4 + 0 < Q) :
    (gen_tc_pctgs M Q port).getD (j * 4 + 0) 0 = if j = a ∨ j = b then 72 else 0 := by
  have hn : port.ntcs.toNat = 4 := by rw [hntcs]; rfl
  have hsum : tc_sum M port 0 = 120 := by
    rw [tc_sum_two M port 0 a b ha hb hab haa hba hrest, hsa, hsb]
  have h72 : dbl_to_uint8 (dbl_mul_int 60 (fl 120 100)) = 72 := by decide
  rw [gen_tc_pctgs_getD_ntcs M Q port 4 j 0 hn (by omega) hq]
  simp only [Nat.zero_le, hj, and_self, if_true, stored, hsum]
  by_cases hja : j = a
  · subst hja; simp [haa, hsa, h72]
  · by_cases hjb : j = b
    · subst hjb; simp [hba, hsb, h72]
    · have := hrest j hj hja hjb
      have hneg : ¬ (0 ≤ (vf_at port j).num) := by omega
      simp [hja, hjb, hneg]

/-! ## Theorems on `gen_tc_pctgs` -/

/-- C7 fails on the code: on a port with four classes on which exactly two
slots are in use, both with class-0 share 60 (class sum 120), the class-0
entries of the array returned by `gen_tc_pctgs` sum to 144, which is more
than 100 (for any `MAX_VFS` and any `MAX_QUEUES` that holds all slots). -/
theorem gen_tc_pctgs_60_60_total (M Q : Nat) (port : sriov_port_s) (a b : Nat)
    (hntcs : port.ntcs = 4) (hQ : M * 4 ≤ Q) (ha : a < M) (hb : b < M) (hab : a ≠ b)
    (haa : 0 ≤ (vf_at port a).num) (hba : 0 ≤ (vf_at port b).num)
    (hsa : tc_pctg (vf_at port a) 0 = 60) (hsb : tc_pctg (vf_at port b) 0 = 60)
    (hrest : ∀ j, j < M → j ≠ a → j ≠ b → (vf_at port j).num < 0) :
    class_total M 4 (gen_tc_pctgs M Q port) 0 = 144 := by
  have key := gen_tc_pctgs_60_60_entry M Q port a b hntcs ha hb hab haa hba hsa hsb hrest
  rw [class_total_eq_sum, Finset.sum_eq_add a b hab]
  · rw [key a ha (by omega), key b hb (by omega)]; simp
  · intro c hc hne
    have hc := Finset.mem_range.mp hc
    rw [key c hc (by omega)]; simp [hne.1, hne.2]
  · intro h; exact absurd (Finset.mem_range.mpr ha) h
  · intro h; exact absurd (Finset.mem_range.mpr hb) h

/-- C7's failing input, with `MAX_VFS` 3 and `MAX_QUEUES` 12: slots 0 and 1
in use with class-0 share 60, slot 2 free; the class-0 total is 144. -/
theorem gen_tc_pctgs_60_60_total_witness :
    class_total 3 4 (gen_tc_pctgs 3 12 (example_qos_port
      [example_qos_vf 1 [60, 0, 0, 0], example_qos_vf 2 [60, 0, 0, 0], free_vf])) 0 = 144 :=
  gen_tc_pctgs_60_60_total 3 12 _ 0 1 rfl (by decide) (by decide) (by decide) (by decide)
    (by decide) (by decide) rfl rfl (by decide)

/-- C8 fails on the code: on a port with `ntcs = 4` on which exactly two
slots `a` and `b` are in use, both with class-0 share 60 (class sum 120),
`gen_tc_pctgs` returns the class-0 shares 72 and 72 for them (the shares are
multiplied by `120 / 100.0`), not 50 and 50. -/
theorem gen_tc_pctgs_60_60 (M Q : Nat) (port : sriov_port_s) (a b : Nat)
    (hntcs : port.ntcs = 4) (ha : a < M) (hb : b < M) (hab : a ≠ b)
    (hqa : a * 4 + 0 < Q) (hqb : b * 4 + 0 < Q)
    (haa : 0 ≤ (vf_at port a).num) (hba : 0 ≤ (vf_at port b).num)
    (hsa : tc_pctg (vf_at port a) 0 = 60) (hsb : tc_pctg (vf_at port b) 0 = 60)
    (hrest : ∀ j, j < M → j ≠ a → j ≠ b → (vf_at port j).num < 0) :
    (gen_tc_pctgs M Q port).getD (a * 4 + 0) 0 = 72 ∧
      (gen_tc_pctgs M Q port).getD (b * 4 + 0) 0 = 72 := by
  have key := gen_tc_pctgs_60_60_entry M Q port a b hntcs ha hb hab haa hba hsa hsb hrest
  rw [key a ha hqa, key b hb hqb]
  simp

/-- C8's scenario with `MAX_VFS` 3 and `MAX_QUEUES` 12: the two VFs are in
slots 0 and 1, and entries 0 and 4 of the output are 72. -/
theorem gen_tc_pctgs_60_60_witness :
    (gen_tc_pctgs 3 12 (example_qos_port
        [example_qos_vf 1 [60, 0, 0, 0], example_qos_vf 2 [60, 0, 0, 0], free_vf])).getD
          (0 * 4 + 0) 0 = 72 ∧
      (gen_tc_pctgs 3 12 (example_qos_port
        [example_qos_vf 1 [60, 0, 0, 0], example_qos_vf 2 [60, 0, 0, 0], free_vf])).getD
          (1 * 4 + 0) 0 = 72 :=
  gen_tc_pctgs_60_60 3 12 _ 0 1 rfl (by decide) (by decide) (by decide) (by decide) (by decide)
    (by decide) (by decide) rfl rfl (by decide)

/-- C9 fails on the code: for a class `t` and a slot `j < t` the entry
`output[j*ntcs + t]` is 0 whatever the slot holds, because both inner loops
of the second loop nest start at `j = t`; it is neither the configured share
nor the scaled share of a VF in use in that slot. -/
theorem gen_tc_pctgs_low_slot (M Q : Nat) (port : sriov_port_s) (j t : Nat)
    (ht : t < port.ntcs.toNat) (hjt : j < t) (hk : j * port.ntcs.toNat + t < Q) :
    (gen_tc_pctgs M Q port).getD (j * port.ntcs.toNat + t) 0 = 0 := by
  rw [gen_tc_pctgs_getD M Q port j t ht hk, if_neg (by omega)]

/-- C9's failing input, with `MAX_VFS` 2 and `MAX_QUEUES` 8: the VF in slot 0
is in use with share 100 for class 1, the class sum is 100, and
`output[0*4 + 1]` is 0, not 100. -/
theorem gen_tc_pctgs_low_slot_witness :
    0 ≤ (vf_at (example_qos_port [example_qos_vf 1 [100, 100, 100, 100], free_vf]) 0).num ∧
      tc_pctg (vf_at (example_qos_port [example_qos_vf 1 [100, 100, 100, 100], free_vf]) 0) 1
        = 100 ∧
      tc_sum 2 (example_qos_port [example_qos_vf 1 [100, 100, 100, 100], free_vf]) 1 = 100 ∧
      (gen_tc_pctgs 2 8 (example_qos_port [example_qos_vf 1 [100, 100, 100, 100], free_vf])).getD
        (0 * 4 + 1) 0 = 0 :=
  ⟨by decide, by decide, by decide,
   gen_tc_pctgs_low_slot 2 8 (example_qos_port [example_qos_vf 1 [100, 100, 100, 100], free_vf])
     0 1 (by decide) (by decide) (by decide)⟩

/-- C10 fails on the code: when the shares of the VFs in use for class `t`
sum to exactly 100, the entry `output[j*ntcs + t]` of every slot `j` with
`t ≤ j < MAX_VFS` is the share stored in that slot, whether or not the slot is
in use (the copying loop does not test `num`); so the entry of a free slot
that still holds a share is not 0. -/
theorem gen_tc_pctgs_slot_copied (M Q : Nat) (port : sriov_port_s) (j t : Nat)
    (ht : t < port.ntcs.toNat) (htj : t ≤ j) (hj : j < M) (hk : j * port.ntcs.toNat + t < Q)
    (hsum : tc_sum M port t = 100) :
    (gen_tc_pctgs M Q port).getD (j * port.ntcs.toNat + t) 0 = tc_pctg (vf_at port j) t := by
  rw [gen_tc_pctgs_getD M Q port j t ht hk, if_pos ⟨htj, hj⟩]
  simp [stored, hsum]

/-- C10's failing input, with `MAX_VFS` 2 and `MAX_QUEUES` 8: slot 0 in use
with class-0 share 100, slot 1 free (index -1) with a left-over class-0 share
of 30; `output[1*4 + 0]` is 30. -/
theorem gen_tc_pctgs_slot_copied_witness :
    (vf_at (example_qos_port
        [example_qos_vf 1 [100, 0, 0, 0], example_qos_vf (-1) [30, 0, 0, 0]]) 1).num < 0 ∧
      (gen_tc_pctgs 2 8 (example_qos_port
        [example_qos_vf 1 [100, 0, 0, 0], example_qos_vf (-1) [30, 0, 0, 0]])).getD
          (1 * 4 + 0) 0 = 30 :=
  ⟨by decide,
   gen_tc_pctgs_slot_copied 2 8
    (example_qos_port [example_qos_vf 1 [100, 0, 0, 0], example_qos_vf (-1) [30, 0, 0, 0]])
    1 0 (by decide) (by decide) (by decide) (by decide) (by decide)⟩

/-! ## Theorems on `vfd_set_ins_strip` -/

/-- C11: for every non-nil port and VF, `vfd_set_ins_strip` issues exactly two
calls, strip then insert, and returns 1.  When the VF has exactly one VLAN
(`num_vlans = 1`) the strip call carries `strip_stag` and the insert call
carries `vlans[0]` if `insert_stag` is set and 0 otherwise; when it has zero
or several VLANs both calls carry 0.  The two scenarios: one VLAN with
`strip_stag` 1 and `insert_stag` 0 gives strip 1 and insert id 0; the VLANs
10 and 20 with `strip_stag` 1 give strip 0 and insert id 0. -/
theorem vfd_set_ins_strip_calls (port : sriov_port_s) (vf : vf_s) :
    vfd_set_ins_strip (some port) (some vf) =
        ([rx_vlan_strip_set_on_vf port.rte_port_number vf.num
            (if vf.num_vlans = 1 then vf.strip_stag else 0),
          tx_vlan_insert_set_on_vf port.rte_port_number vf.num
            (if vf.num_vlans = 1 ∧ vf.insert_stag ≠ 0 then vf.vlans.getD 0 0 else 0)], 1) ∧
      vfd_set_ins_strip (some example_port) (some example_one_vlan_vf) =
        ([rx_vlan_strip_set_on_vf 0 2 1, tx_vlan_insert_set_on_vf 0 2 0], 1) ∧
      vfd_set_ins_strip (some example_port) (some example_two_vlan_vf) =
        ([rx_vlan_strip_set_on_vf 0 4 0, tx_vlan_insert_set_on_vf 0 4 0], 1) := by
  refine ⟨?_, by decide, by decide⟩
  unfold vfd_set_ins_strip
  by_cases h1 : vf.num_vlans = 1
  · by_cases h2 : vf.insert_stag ≠ 0
    · simp [h1, h2]
    · simp only [ne_eq, not_not] at h2
      simp [h1, h2]
  · simp [h1]

/-! ## Theorems on the lookup functions -/

theorem suss_vf_loop_eq_some (vfid : Int) (n : Nat) (vfs : List vf_s) (vf : vf_s) :
    suss_vf_loop vfid n vfs = some vf ↔
      ∃ y, y < n ∧ vfs[y]? = some vf ∧ vf.num = vfid ∧
        ∀ z, z < y → ∀ w, vfs[z]? = some w → w.num ≠ vfid := by
  induction vfs generalizing n with
  | nil => cases n <;> simp [suss_vf_loop]
  | cons v vs ih =>
    cases n with
    | zero => simp [suss_vf_loop]
    | succ m =>
      by_cases hv : v.num = vfid
      · simp only [suss_vf_loop, hv, if_true, Option.some.injEq]
        constructor
        · rintro rfl
          exact ⟨0, by omega, by simp, hv, fun z hz => absurd hz (by omega)⟩
        · rintro ⟨y, _, hy, _, hfirst⟩
          cases y with
          | zero => simpa using hy
          | succ y => exact absurd hv (hfirst 0 (by omega) v (by simp))
      · simp only [suss_vf_loop, hv, if_false, ih]
        constructor
        · rintro ⟨y, hy, hget, hnum, hfirst⟩
          refine ⟨y + 1, by omega, by simpa using hget, hnum, ?_⟩
          intro z hz w hw
          cases z with
          | zero =>
            have : v = w := by simpa using hw
            subst this; exact hv
          | succ z => exact hfirst z (by omega) w (by simpa using hw)
        · rintro ⟨y, hy, hget, hnum, hfirst⟩
          cases y with
          | zero =>
            have : v = vf := by simpa using hget
            subst this; exact absurd hnum hv
          | succ y =>
            refine ⟨y, by omega, by simpa using hget, hnum, ?_⟩
            intro z hz w hw
            exact hfirst (z + 1) (by omega) w (by simpa using hw)

theorem valid_vlan_loop_eq_true (vf : vf_s) (vlan : Int) (i n : Nat) :
    valid_vlan_loop vf vlan i n = true ↔ ∃ k, i ≤ k ∧ k < i + n ∧ vf.vlans.getD k 0 = vlan := by
  induction n generalizing i with
  | zero =>
    simp only [valid_vlan_loop, Bool.false_eq_true, false_iff, not_exists, not_and]
    intro k h1 h2; omega
  | succ m ih =>
    by_cases h : vf.vlans.getD i 0 = vlan
    · simp only [valid_vlan_loop, h, if_true, true_iff]
      exact ⟨i, by omega, by omega, h⟩
    · simp only [valid_vlan_loop, h, if_false, ih]
      constructor
      · rintro ⟨k, h1, h2, h3⟩
        exact ⟨k, by omega, by omega, h3⟩
      · rintro ⟨k, h1, h2, h3⟩
        have : k ≠ i := by rintro rfl; exact h h3
        exact ⟨k, by omega, by omega, h3⟩

/-- C12: when `suss_port` maps the port id to a port `p`, `valid_vlan` runs to
its end and returns 1 if and only if some slot `y` among the first `num_vfs`
slots of `p` holds a VF with the given id, and, for the first such slot, `vlan`
equals one of the first `num_vlans` entries of its VLAN list; otherwise it
returns 0.  The function only reads the configuration: it yields a value and
no new configuration. -/
theorem valid_vlan_iff (g : globals) (port vfid vlan : Int) (p : sriov_port_s)
    (hp : suss_port g port = some p) :
    (valid_vlan g port vfid vlan = some 1 ∨ valid_vlan g port vfid vlan = some 0) ∧
      (valid_vlan g port vfid vlan = some 1 ↔
        ∃ y vf, y < p.num_vfs.toNat ∧ p.vfs[y]? = some vf ∧ vf.num = vfid ∧
          (∀ z, z < y → ∀ w, p.vfs[z]? = some w → w.num ≠ vfid) ∧
          ∃ k, k < vf.num_vlans.toNat ∧ vf.vlans.getD k 0 = vlan) := by
  have hval : valid_vlan g port vfid vlan =
      match suss_vf_loop vfid p.num_vfs.toNat p.vfs with
      | none => some 0
      | some vf => if valid_vlan_loop vf vlan 0 vf.num_vlans.toNat then some 1 else some 0 := by
    simp only [valid_vlan, suss_vf, hp]
    cases suss_vf_loop vfid p.num_vfs.toNat p.vfs <;> rfl
  rw [hval]
  cases hloop : suss_vf_loop vfid p.num_vfs.toNat p.vfs with
  | none =>
    refine ⟨Or.inr rfl, ?_⟩
    constructor
    · intro h; exact absurd h (by simp)
    · rintro ⟨y, vf, hy, hget, hnum, hfirst, _⟩
      have := (suss_vf_loop_eq_some vfid p.num_vfs.toNat p.vfs vf).mpr ⟨y, hy, hget, hnum, hfirst⟩
      rw [hloop] at this
      exact absurd this (by simp)
  | some vf =>
    obtain ⟨y, hy, hget, hnum, hfirst⟩ := (suss_vf_loop_eq_some vfid _ _ vf).mp hloop
    dsimp only
    by_cases hv : valid_vlan_loop vf vlan 0 vf.num_vlans.toNat = true
    · rw [if_pos hv]
      refine ⟨Or.inl rfl, fun _ => ?_, fun _ => rfl⟩
      obtain ⟨k, _, hk, hkv⟩ := (valid_vlan_loop_eq_true vf vlan 0 _).mp hv
      exact ⟨y, vf, hy, hget, hnum, hfirst, k, by omega, hkv⟩
    · rw [if_neg hv]
      refine ⟨Or.inr rfl, fun h => absurd h (by simp), ?_⟩
      rintro ⟨y2, vf2, hy2, hget2, hnum2, hfirst2, k, hk, hkv⟩
      have h2 := (suss_vf_loop_eq_some vfid p.num_vfs.toNat p.vfs vf2).mpr
        ⟨y2, hy2, hget2, hnum2, hfirst2⟩
      rw [hloop] at h2
      have : vf = vf2 := by simpa using h2
      subst this
      exact absurd ((valid_vlan_loop_eq_true vf vlan 0 _).mpr ⟨k, by omega, by omega, hkv⟩) hv

/-- C12 on the example configuration: port id 0 maps to the example port, VF 1
has VLAN 30, so `valid_vlan( 0, 1, 30 )` is 1. -/
theorem valid_vlan_iff_witness :
    suss_port example_globals 0 = some example_port ∧
      valid_vlan example_globals 0 1 30 = some 1 :=
  ⟨by decide,
   ((valid_vlan_iff example_globals 0 1 30 example_port (by decide)).2).mpr
     ⟨0, example_idle_vf, by decide, by decide, by decide,
      fun z hz => absurd hz (by omega), 0, by decide, by decide⟩⟩

/-- C13: `valid_mtu` returns 1 if and only if `suss_port` maps the port id to a
port `p` and `0 <= mtu <= p.mtu`; in every other case (no port, `mtu` negative,
`mtu` above `p.mtu`) it returns 0. -/
theorem valid_mtu_iff (g : globals) (port mtu : Int) :
    (valid_mtu g port mtu = 1 ↔ ∃ p, suss_port g port = some p ∧ 0 ≤ mtu ∧ mtu ≤ p.mtu) ∧
      (valid_mtu g port mtu = 1 ∨ valid_mtu g port mtu = 0) ∧
      (suss_port g port = none → valid_mtu g port mtu = 0) ∧
      (mtu < 0 → valid_mtu g port mtu = 0) ∧
      (∀ p, suss_port g port = some p → p.mtu < mtu → valid_mtu g port mtu = 0) := by
  cases hp : suss_port g port with
  | none =>
    have hval : valid_mtu g port mtu = 0 := by simp [valid_mtu, hp]
    rw [hval]
    refine ⟨⟨fun h => absurd h (by decide), ?_⟩, Or.inr rfl, fun _ => rfl, fun _ => rfl,
      fun _ _ _ => rfl⟩
    rintro ⟨q, hq, _⟩
    exact absurd hq (by simp)
  | some p =>
    by_cases h : mtu ≥ 0 ∧ mtu ≤ p.mtu
    · have hval : valid_mtu g port mtu = 1 := by simp [valid_mtu, hp, h]
      rw [hval]
      refine ⟨⟨fun _ => ⟨p, rfl, h.1, h.2⟩, fun _ => rfl⟩, Or.inl rfl,
        fun h2 => absurd h2 (by simp), fun h2 => ?_, fun q hq h2 => ?_⟩
      · omega
      · have : p = q := by simpa using hq
        subst this; omega
    · have hval : valid_mtu g port mtu = 0 := by simp only [valid_mtu, hp, h, if_false]
      rw [hval]
      refine ⟨⟨fun h0 => absurd h0 (by decide), ?_⟩, Or.inr rfl, fun _ => rfl, fun _ => rfl,
        fun _ _ _ => rfl⟩
      rintro ⟨q, hq, h1, h2⟩
      have : p = q := by simpa using hq
      subst this
      exact absurd ⟨h1, h2⟩ h

/-- C13 on the example configuration, whose port has `mtu` 9000: the bounds 0
and 9000 are accepted, 9001 and -1 are not, and port id 5 does not map. -/
theorem valid_mtu_iff_witness :
    valid_mtu example_globals 0 9000 = 1 ∧ valid_mtu example_globals 0 0 = 1 ∧
      valid_mtu example_globals 0 9001 = 0 ∧ valid_mtu example_globals 0 (-1) = 0 ∧
      valid_mtu example_globals 5 1500 = 0 :=
  ⟨(valid_mtu_iff example_globals 0 9000).1.mpr ⟨example_port, by decide, by decide, by decide⟩,
   (valid_mtu_iff example_globals 0 0).1.mpr ⟨example_port, by decide, by decide, by decide⟩,
   (valid_mtu_iff example_globals 0 9001).2.2.2.2 example_port (by decide) (by decide),
   (valid_mtu_iff example_globals 0 (-1)).2.2.2.1 (by decide),
   (valid_mtu_iff example_globals 5 1500).2.2.1 (by decide)⟩

/-! ## Theorems on `sig_int` and `close_ports` -/

theorem sig_int_terminated (n_ports sig t : Int) (ht : t ≠ 0) :
    sig_int n_ports sig t = { terminated := t, calls := [] } := by
  simp [sig_int, ht]

theorem deliver_terminated (n_ports : Int) (sigs : List Int) (t : Int) (ht : t ≠ 0) :
    deliver n_ports sigs t = { terminated := t, calls := [] } := by
  induction sigs with
  | nil => rfl
  | cons s ss ih => simp [deliver, sig_int_terminated n_ports s t ht, ih]

theorem sig_int_first (n_ports sig : Int) :
    (sig_int n_ports sig 0).terminated = 1 ∧
      ((sig_int n_ports sig 0).calls = [] ∨
        (sig_int n_ports sig 0).calls = close_ports n_ports ++ [ShutdownCall.abort]) := by
  unfold sig_int
  by_cases h : sig = SIGABRT ∨ sig = SIGFPE ∨ sig = SIGSEGV
  · simp [h]
  · simp [h]

theorem close_ports_loop_eq (i n : Nat) :
    close_ports_loop i n =
      (List.range' i n).flatMap fun j =>
        [ShutdownCall.rte_eth_dev_stop j, ShutdownCall.rte_eth_dev_close j] := by
  induction n generalizing i with
  | zero => rfl
  | succ m ih => simp [close_ports_loop, ih, List.range'_succ]

/-- C16: for every sequence of signals delivered to `sig_int`, starting with
`terminated = 0`: the first delivery sets `terminated` to 1; an invocation
that finds `terminated` set leaves it as it is and issues no call (neither
`close_ports` nor `abort`); so after the whole sequence `terminated` is 1, and
the calls of the whole sequence are those of the first delivery, which are
either none or one run of `close_ports` followed by `abort`. -/
theorem sig_int_once (n_ports : Int) (sig : Int) (sigs : List Int) :
    (sig_int n_ports sig 0).terminated = 1 ∧
      (∀ s t, t ≠ 0 → sig_int n_ports s t = { terminated := t, calls := [] }) ∧
      (deliver n_ports (sig :: sigs) 0).terminated = 1 ∧
      (deliver n_ports (sig :: sigs) 0).calls = (sig_int n_ports sig 0).calls ∧
      ((deliver n_ports (sig :: sigs) 0).calls = [] ∨
        (deliver n_ports (sig :: sigs) 0).calls = close_ports n_ports ++ [ShutdownCall.abort]) := by
  have h1 := sig_int_first n_ports sig
  have hd : deliver n_ports (sig :: sigs) 0 =
      { terminated := 1, calls := (sig_int n_ports sig 0).calls } := by
    simp [deliver, h1.1, deliver_terminated n_ports sigs 1 (by decide)]
  refine ⟨h1.1, fun s t ht => sig_int_terminated n_ports s t ht, ?_, ?_, ?_⟩
  · rw [hd]
  · rw [hd]
  · rw [hd]; exact h1.2

/-- C16 with two ports: `SIGSEGV` followed by `SIGTERM` and `SIGABRT` releases
the ports once and calls `abort` once; the second and third delivery find
`terminated = 1` and do nothing. -/
theorem sig_int_once_witness :
    (deliver 2 [SIGSEGV, SIGTERM, SIGABRT] 0).calls =
        [ShutdownCall.rte_eth_dev_stop 0, ShutdownCall.rte_eth_dev_close 0,
         ShutdownCall.rte_eth_dev_stop 1, ShutdownCall.rte_eth_dev_close 1,
         ShutdownCall.abort] ∧
      sig_int 2 SIGABRT 1 = { terminated := 1, calls := [] } :=
  ⟨(sig_int_once 2 SIGSEGV [SIGTERM, SIGABRT]).2.2.2.1.trans (by decide),
   (sig_int_once 2 SIGSEGV [SIGTERM, SIGABRT]).2.1 SIGABRT 1 (by decide)⟩

/-- C17: entered with `terminated = 0` for `SIGABRT`, `SIGFPE` or `SIGSEGV`,
`sig_int` sets `terminated` and issues: for each port `0 .. n_ports-1` in index
order a stop call followed by a close call (the one run of `close_ports`), and
after all of them `abort`.  With one port these are exactly one stop, one
close and then `abort`. -/
theorem sig_int_abort (n_ports sig : Int)
    (h : sig = SIGABRT ∨ sig = SIGFPE ∨ sig = SIGSEGV) :
    (sig_int n_ports sig 0).terminated = 1 ∧
      (sig_int n_ports sig 0).calls =
        ((List.range n_ports.toNat).flatMap fun i =>
          [ShutdownCall.rte_eth_dev_stop i, ShutdownCall.rte_eth_dev_close i]) ++
        [ShutdownCall.abort] ∧
      (n_ports = 1 → (sig_int n_ports sig 0).calls =
        [ShutdownCall.rte_eth_dev_stop 0, ShutdownCall.rte_eth_dev_close 0,
         ShutdownCall.abort]) := by
  have hc : (sig_int n_ports sig 0).calls = close_ports n_ports ++ [ShutdownCall.abort] := by
    simp [sig_int, h]
  refine ⟨(sig_int_first n_ports sig).1, ?_, ?_⟩
  · rw [hc, close_ports, close_ports_loop_eq, List.range_eq_range']
  · intro h1
    rw [hc, h1]
    rfl

/-- C17 with one open port and `SIGSEGV`: one stop, one close, then `abort`. -/
theorem sig_int_abort_witness :
    (sig_int 1 SIGSEGV 0).calls =
      [ShutdownCall.rte_eth_dev_stop 0, ShutdownCall.rte_eth_dev_close 0, ShutdownCall.abort] :=
  (sig_int_abort 1 SIGSEGV (Or.inr (Or.inr rfl))).2.2 rfl

/-! ## More lemmas on `vfd_update_nic` -/

/-- The slot `k` after the VF loop: the loop body applied to it if the loop
reaches it, else the slot as it was. -/
theorem update_vfs_get (h : sriov_h) (parms : parms_t) (i : Nat) (port : sriov_port_s)
    (vfs : List vf_s) (y n k : Nat) :
    (update_vfs h parms i port y n vfs).2[k]? =
      vfs[k]?.map fun vf => if k < n then (update_vf h parms i (y + k) port vf).2 else vf := by
  induction vfs generalizing y n k with
  | nil => cases n <;> simp [update_vfs]
  | cons v vs ih =>
    cases n with
    | zero => simp [update_vfs]
    | succ m =>
      cases k with
      | zero => simp [update_vfs]
      | succ k =>
        have e : y + 1 + k = y + (k + 1) := by omega
        simp [update_vfs, ih, e]

/-- The port `k` after the port loop. -/
theorem update_ports_get (h : sriov_h) (parms : parms_t) (ps : List sriov_port_s)
    (i n k : Nat) :
    (update_ports h parms i n ps).2[k]? =
      ps[k]?.map fun p => if k < n then (update_port h parms (i + k) p).2 else p := by
  induction ps generalizing i n k with
  | nil => cases n <;> simp [update_ports]
  | cons v vs ih =>
    cases n with
    | zero => simp [update_ports]
    | succ m =>
      cases k with
      | zero => simp [update_ports]
      | succ k =>
        have e : i + 1 + k = i + (k + 1) := by omega
        simp [update_ports, ih, e]

/-- The port with loop index `i` after a pass of an initialised daemon. -/
theorem vfd_update_nic_port (h : sriov_h) (parms : parms_t) (conf : sriov_conf_t)
    (i : Nat) (port : sriov_port_s) (hinit : parms.initialised ≠ 0)
    (hport : conf.ports[i]? = some port) (hi : i < conf.num_ports.toNat) :
    (vfd_update_nic h parms conf).conf.ports[i]? = some (update_port h parms i port).2 := by
  simp [vfd_update_nic, hinit, update_ports_get, hport, hi]

/-- The slot `y` of the port with loop index `i` after a pass of an
initialised daemon: the loop body applied to the slot. -/
theorem vfd_update_nic_slot (h : sriov_h) (parms : parms_t) (conf : sriov_conf_t)
    (i y : Nat) (port : sriov_port_s) (vf : vf_s) (hinit : parms.initialised ≠ 0)
    (hport : conf.ports[i]? = some port) (hi : i < conf.num_ports.toNat)
    (hvf : port.vfs[y]? = some vf) (hy : y < port.num_vfs.toNat) :
    ((vfd_update_nic h parms conf).conf.ports[i]?.bind fun p => p.vfs[y]?) =
      some (update_vf h parms i y (mark_port port) vf).2 := by
  rw [vfd_update_nic_port h parms conf i port hinit hport hi]
  simp [update_port, update_vfs_get, hvf, hy]

/-- The slot that the loop body leaves for a marker `DELETED`, whatever
`forreal` is. -/
theorem update_vf_deleted_slot (h : sriov_h) (parms : parms_t) (i y : Nat)
    (port : sriov_port_s) (vf : vf_s) (hdel : vf.last_updated = DELETED) :
    (update_vf h parms i y port vf).2 =
      { vf with start_cb := none, stop_cb := none, num := -1, last_updated := UNCHANGED } := by
  have h1 : ¬ (DELETED = UNCHANGED) := by decide
  simp [update_vf, h1, hdel]

/-- The calls of a pass, cut at the slot `vs.length` of the port with loop
index `ps.length`: everything before the slot, the loop body for the slot,
everything after it. -/
theorem vfd_update_nic_calls_split (h : sriov_h) (parms : parms_t) (conf : sriov_conf_t)
    (ps : List sriov_port_s) (port : sriov_port_s) (qs : List sriov_port_s)
    (vs : List vf_s) (vf : vf_s) (ws : List vf_s)
    (hinit : parms.initialised ≠ 0)
    (hports : conf.ports = ps ++ port :: qs) (hi : ps.length < conf.num_ports.toNat)
    (hvfs : port.vfs = vs ++ vf :: ws) (hy : vs.length < port.num_vfs.toNat) :
    (vfd_update_nic h parms conf).calls =
      (update_ports h parms 0 ps.length ps).1 ++ port_calls h parms ps.length port ++
      (update_vfs h parms ps.length (mark_port port) 0 vs.length vs).1 ++
      (update_vf h parms ps.length vs.length (mark_port port) vf).1 ++
      (update_vfs h parms ps.length (mark_port port) (vs.length + 1)
        (port.num_vfs.toNat - vs.length - 1) ws).1 ++
      (update_ports h parms (ps.length + 1) (conf.num_ports.toNat - ps.length - 1) qs).1 := by
  simp only [vfd_update_nic, hinit, if_false, hports,
    update_ports_split h parms ps port qs 0 _ hi, update_port, hvfs,
    update_vfs_split h parms _ (mark_port port) vs vf ws 0 _ hy, Nat.zero_add,
    List.append_assoc]

/-- The calls of `vfd_set_ins_strip` on a port and a VF. -/
theorem vfd_set_ins_strip_some (port : sriov_port_s) (vf : vf_s) :
    vfd_set_ins_strip (some port) (some vf) =
      ([rx_vlan_strip_set_on_vf port.rte_port_number vf.num
          (if vf.num_vlans = 1 then vf.strip_stag else 0),
        tx_vlan_insert_set_on_vf port.rte_port_number vf.num
          (if vf.num_vlans = 1 ∧ vf.insert_stag ≠ 0 then vf.vlans.getD 0 0 else 0)], 1) := by
  unfold vfd_set_ins_strip
  by_cases h1 : vf.num_vlans = 1
  · by_cases h2 : vf.insert_stag ≠ 0
    · simp [h1, h2]
    · simp only [ne_eq, not_not] at h2
      simp [h1, h2]
  · simp [h1]

/-- The calls of the loop body for a slot whose marker is neither `UNCHANGED`
nor `DELETED` and whose index is at least 0, with `forreal` on, and the slot
afterwards. -/
theorem update_vf_applied (h : sriov_h) (parms : parms_t) (i y : Nat) (port : sriov_port_s)
    (vf : vf_s) (hreal : parms.forreal ≠ 0) (hu : vf.last_updated ≠ UNCHANGED)
    (hd : vf.last_updated ≠ DELETED) (hnum : 0 ≤ vf.num) :
    update_vf h parms i y port vf =
      (((recorded_vlans vf).map fun vlan =>
          set_vf_rx_vlan port.rte_port_number vlan (h.VFN2MASK vf.num) 1) ++
        ((recorded_macs vf).map fun mac => set_vf_rx_mac port.rte_port_number mac vf.num 1) ++
        (if vf.rate > 0 then
          [set_vf_rate_limit port.rte_port_number vf.num (h.rate_arg vf.rate) 1] else []) ++
        [set_split_erop i y 1,
         set_vf_vlan_anti_spoofing port.rte_port_number vf.num vf.vlan_anti_spoof,
         set_vf_mac_anti_spoofing port.rte_port_number vf.num vf.mac_anti_spoof,
         rx_vlan_strip_set_on_vf port.rte_port_number vf.num
           (if vf.num_vlans = 1 then vf.strip_stag else 0),
         tx_vlan_insert_set_on_vf port.rte_port_number vf.num
           (if vf.num_vlans = 1 ∧ vf.insert_stag ≠ 0 then vf.vlans.getD 0 0 else 0),
         set_vf_allow_bcast port.rte_port_number vf.num vf.allow_bcast,
         set_vf_allow_mcast port.rte_port_number vf.num vf.allow_mcast,
         set_vf_allow_un_ucast port.rte_port_number vf.num vf.allow_un_ucast] ++
        [rte_eth_promiscuous_enable port.rte_port_number,
         rte_eth_allmulticast_enable port.rte_port_number,
         rte_eth_dev_uc_all_hash_table_set port.rte_port_number 1,
         rte_eth_dev_set_vf_rxmode port.rte_port_number vf.num (0 ||| h.ETH_VMDQ_ACCEPT_UNTAG) 0],
       { vf with last_updated := UNCHANGED }) := by
  simp [update_vf, hu, hd, hnum, hreal, vlan_calls, mac_calls, refresh_calls,
    vfd_set_ins_strip_some, recorded_vlans, recorded_macs]

/-! ## Theorems on the state that `vfd_update_nic` leaves -/

/-- C14, as stated, fails: after a pass over the example configuration the
slot that was marked `DELETED` has index -1 and no command strings, but it
still has `num_vlans = 2`, `num_macs = 1` and its VLAN list `10, 20`. -/
theorem vfd_update_nic_deleted_keeps_lists :
    (((vfd_update_nic example_h example_parms example_conf).conf.ports[0]?.bind
        fun p => p.vfs[1]?).map fun vf => vf.num) = some (-1) ∧
      (((vfd_update_nic example_h example_parms example_conf).conf.ports[0]?.bind
        fun p => p.vfs[1]?).map fun vf => vf.start_cb) = some none ∧
      (((vfd_update_nic example_h example_parms example_conf).conf.ports[0]?.bind
        fun p => p.vfs[1]?).map fun vf => vf.num_vlans) = some 2 ∧
      (((vfd_update_nic example_h example_parms example_conf).conf.ports[0]?.bind
        fun p => p.vfs[1]?).map fun vf => vf.num_macs) = some 1 ∧
      (((vfd_update_nic example_h example_parms example_conf).conf.ports[0]?.bind
        fun p => p.vfs[1]?).map fun vf => vf.vlans) = some [10, 20] := by
  decide

/-- C14, amended: for an initialised daemon and a VF slot (slot `y` among the
first `num_vfs` slots of the port with loop index `i`) whose marker is
`DELETED`, after one pass of `vfd_update_nic` the index of the slot is -1, its
start and stop command strings are released and its marker is `UNCHANGED`;
every other field (`num_vlans`, `num_macs`, the VLAN and MAC lists, the rate
limit, the flags) is left as it was. -/
theorem vfd_update_nic_deleted_slot (h : sriov_h) (parms : parms_t) (conf : sriov_conf_t)
    (i y : Nat) (port : sriov_port_s) (vf : vf_s) (hinit : parms.initialised ≠ 0)
    (hport : conf.ports[i]? = some port) (hi : i < conf.num_ports.toNat)
    (hvf : port.vfs[y]? = some vf) (hy : y < port.num_vfs.toNat)
    (hdel : vf.last_updated = DELETED) :
    ((vfd_update_nic h parms conf).conf.ports[i]?.bind fun p => p.vfs[y]?) =
      some { vf with start_cb := none, stop_cb := none, num := -1,
                     last_updated := UNCHANGED } := by
  rw [vfd_update_nic_slot h parms conf i y port vf hinit hport hi hvf hy,
    update_vf_deleted_slot h parms i y _ vf hdel]

/-- C14, amended, on the example configuration (slot 1 of port 0). -/
theorem vfd_update_nic_deleted_slot_witness :
    ((vfd_update_nic example_h example_parms example_conf).conf.ports[0]?.bind
        fun p => p.vfs[1]?) =
      some { example_deleted_vf with start_cb := none, stop_cb := none, num := -1,
                                     last_updated := UNCHANGED } :=
  vfd_update_nic_deleted_slot example_h example_parms example_conf 0 1 example_port
    example_deleted_vf (by decide) (by decide) (by decide) (by decide) (by decide) (by decide)

/-- C15, as stated, fails: a port whose marker is `RESET` still has the marker
`RESET` after a pass of `vfd_update_nic` with `initialised` set. -/
theorem vfd_update_nic_port_marker_kept :
    ((vfd_update_nic example_h example_parms example_added_conf).conf.ports[0]?.map
      fun p => p.last_updated) = some RESET := by
  decide

/-- C15, amended: with `initialised` set, after `vfd_update_nic` returns, for
each of the first `num_ports` ports the marker of every VF in the first
`num_vfs` slots is `UNCHANGED`, whatever it was before; the marker of the port
is `UNCHANGED` if it was `ADDED` (or `UNCHANGED`), and any other port marker
is left as it was. -/
theorem vfd_update_nic_markers (h : sriov_h) (parms : parms_t) (conf : sriov_conf_t)
    (i : Nat) (port : sriov_port_s) (hinit : parms.initialised ≠ 0)
    (hport : conf.ports[i]? = some port) (hi : i < conf.num_ports.toNat) :
    ∃ p, (vfd_update_nic h parms conf).conf.ports[i]? = some p ∧
      p.last_updated = (if port.last_updated = ADDED then UNCHANGED else port.last_updated) ∧
      ∀ y vf, y < port.num_vfs.toNat → p.vfs[y]? = some vf → vf.last_updated = UNCHANGED := by
  refine ⟨_, vfd_update_nic_port h parms conf i port hinit hport hi, ?_, ?_⟩
  · simp only [update_port, mark_port]
    split <;> rfl
  · intro y vf hy hvf
    simp only [update_port, update_vfs_get, Nat.zero_add] at hvf
    cases hv : port.vfs[y]? with
    | none => rw [hv] at hvf; exact absurd hvf (by simp)
    | some v =>
      rw [hv] at hvf
      simp only [Option.map_some', hy, if_true, Option.some.injEq] at hvf
      rw [← hvf]
      exact update_vf_marker h parms i y _ v

/-- C15, amended, on the example configuration: after the pass the port is
`UNCHANGED` and so are its two VF slots. -/
theorem vfd_update_nic_markers_witness :
    ∃ p, (vfd_update_nic example_h example_parms example_conf).conf.ports[0]? = some p ∧
      p.last_updated =
        (if example_port.last_updated = ADDED then UNCHANGED else example_port.last_updated) ∧
      ∀ y vf, y < example_port.num_vfs.toNat → p.vfs[y]? = some vf →
        vf.last_updated = UNCHANGED :=
  vfd_update_nic_markers example_h example_parms example_conf 0 example_port
    (by decide) (by decide) (by decide)

/-! ## Theorems on the order of the per-VF setting calls -/

/-- C20, as stated, fails: for the VF marked `ADDED` of the example the pass
issues the split-receive-drop-enable call (`set_split_erop`) first, not last,
and the VLAN anti-spoof call before the MAC anti-spoof call. -/
theorem vfd_update_nic_added_calls :
    (vfd_update_nic example_h example_parms example_added_conf).calls =
      [tx_set_loopback 0 0, set_queue_drop 0 1,
       set_vf_rx_vlan 0 100 4 1, set_vf_rx_mac 0 "fa:ce:de:02:00:02" 2 1,
       set_split_erop 0 0 1,
       set_vf_vlan_anti_spoofing 0 2 1, set_vf_mac_anti_spoofing 0 2 1,
       rx_vlan_strip_set_on_vf 0 2 1, tx_vlan_insert_set_on_vf 0 2 100,
       set_vf_allow_bcast 0 2 1, set_vf_allow_mcast 0 2 0, set_vf_allow_un_ucast 0 2 0,
       rte_eth_promiscuous_enable 0, rte_eth_allmulticast_enable 0,
       rte_eth_dev_uc_all_hash_table_set 0 1, rte_eth_dev_set_vf_rxmode 0 2 1 0] := by
  decide

/-- C20, amended: with `initialised` and `forreal` on, for a VF slot whose
marker is neither `UNCHANGED` nor `DELETED` and whose index is at least 0, the
calls of the pass are: everything before the slot; the add-VLAN and add-MAC
calls and the rate-limit call if a rate is set; then the setting calls in the
order split-receive-drop-enable, VLAN anti-spoof, MAC anti-spoof, strip-tag,
insert-tag, allow-broadcast, allow-multicast, allow-unknown-unicast; then the
end-of-round calls; then everything after the slot. -/
theorem vfd_update_nic_setting_order (h : sriov_h) (parms : parms_t) (conf : sriov_conf_t)
    (ps : List sriov_port_s) (port : sriov_port_s) (qs : List sriov_port_s)
    (vs : List vf_s) (vf : vf_s) (ws : List vf_s)
    (hinit : parms.initialised ≠ 0) (hreal : parms.forreal ≠ 0)
    (hports : conf.ports = ps ++ port :: qs) (hi : ps.length < conf.num_ports.toNat)
    (hvfs : port.vfs = vs ++ vf :: ws) (hy : vs.length < port.num_vfs.toNat)
    (hu : vf.last_updated ≠ UNCHANGED) (hd : vf.last_updated ≠ DELETED) (hnum : 0 ≤ vf.num) :
    (vfd_update_nic h parms conf).calls =
      (update_ports h parms 0 ps.length ps).1 ++ port_calls h parms ps.length port ++
      (update_vfs h parms ps.length (mark_port port) 0 vs.length vs).1 ++
      (((recorded_vlans vf).map fun vlan =>
          set_vf_rx_vlan port.rte_port_number vlan (h.VFN2MASK vf.num) 1) ++
        ((recorded_macs vf).map fun mac => set_vf_rx_mac port.rte_port_number mac vf.num 1) ++
        (if vf.rate > 0 then
          [set_vf_rate_limit port.rte_port_number vf.num (h.rate_arg vf.rate) 1] else []) ++
        [set_split_erop ps.length vs.length 1,
         set_vf_vlan_anti_spoofing port.rte_port_number vf.num vf.vlan_anti_spoof,
         set_vf_mac_anti_spoofing port.rte_port_number vf.num vf.mac_anti_spoof,
         rx_vlan_strip_set_on_vf port.rte_port_number vf.num
           (if vf.num_vlans = 1 then vf.strip_stag else 0),
         tx_vlan_insert_set_on_vf port.rte_port_number vf.num
           (if vf.num_vlans = 1 ∧ vf.insert_stag ≠ 0 then vf.vlans.getD 0 0 else 0),
         set_vf_allow_bcast port.rte_port_number vf.num vf.allow_bcast,
         set_vf_allow_mcast port.rte_port_number vf.num vf.allow_mcast,
         set_vf_allow_un_ucast port.rte_port_number vf.num vf.allow_un_ucast] ++
        [rte_eth_promiscuous_enable port.rte_port_number,
         rte_eth_allmulticast_enable port.rte_port_number,
         rte_eth_dev_uc_all_hash_table_set port.rte_port_number 1,
         rte_eth_dev_set_vf_rxmode port.rte_port_number vf.num
           (0 ||| h.ETH_VMDQ_ACCEPT_UNTAG) 0]) ++
      (update_vfs h parms ps.length (mark_port port) (vs.length + 1)
        (port.num_vfs.toNat - vs.length - 1) ws).1 ++
      (update_ports h parms (ps.length + 1) (conf.num_ports.toNat - ps.length - 1) qs).1 := by
  rw [vfd_update_nic_calls_split h parms conf ps port qs vs vf ws hinit hports hi hvfs hy,
    update_vf_applied h parms _ _ (mark_port port) vf hreal hu hd hnum]
  simp only [mark_port_rte_port_number]

/-- C20, amended, on the example configuration with the VF marked `ADDED`. -/
theorem vfd_update_nic_setting_order_witness :
    (vfd_update_nic example_h example_parms example_added_conf).calls =
      [tx_set_loopback 0 0, set_queue_drop 0 1,
       set_vf_rx_vlan 0 100 4 1, set_vf_rx_mac 0 "fa:ce:de:02:00:02" 2 1,
       set_split_erop 0 0 1,
       set_vf_vlan_anti_spoofing 0 2 1, set_vf_mac_anti_spoofing 0 2 1,
       rx_vlan_strip_set_on_vf 0 2 1, tx_vlan_insert_set_on_vf 0 2 100,
       set_vf_allow_bcast 0 2 1, set_vf_allow_mcast 0 2 0, set_vf_allow_un_ucast 0 2 0,
       rte_eth_promiscuous_enable 0, rte_eth_allmulticast_enable 0,
       rte_eth_dev_uc_all_hash_table_set 0 1, rte_eth_dev_set_vf_rxmode 0 2 1 0] :=
  (vfd_update_nic_setting_order example_h example_parms example_added_conf
    [] { example_port with last_updated := RESET, num_vfs := 1, vfs := [example_added_vf] } []
    [] example_added_vf [] (by decide) (by decide) rfl (by decide) rfl (by decide)
    (by decide) (by decide) (by decide)).trans (by decide)

/-! ## Lemmas on `vfd_update_nic` with return codes -/

@[simp]
theorem nic_call_calls (rc : Nat → Int) (c : NicCall) (w : nic_run) :
    (nic_call rc c w).2.calls = w.calls ++ [c] := rfl

@[simp]
theorem nic_calls_calls (rc : Nat → Int) (cs : List NicCall) (w : nic_run) :
    (nic_calls rc cs w).calls = w.calls ++ cs := by
  induction cs generalizing w with
  | nil => simp [nic_calls]
  | cons c cs ih =>
    have := ih (nic_call rc c w).2
    simp only [nic_calls, List.foldl_cons] at this ⊢
    rw [this]; simp

theorem fold_calls (rc : Nat → Int) {α : Type} (f : α → NicCall) (xs : List α) (w : nic_run) :
    (xs.foldl (fun w x => (nic_call rc (f x) w).2) w).calls = w.calls ++ xs.map f := by
  induction xs generalizing w with
  | nil => simp
  | cons x xs ih => rw [List.foldl_cons, ih]; simp

theorem fold_keep {α : Type} (xs : List α) (w : nic_run) :
    xs.foldl (fun w _ => w) w = w := by
  induction xs with
  | nil => rfl
  | cons x xs ih => rw [List.foldl_cons, ih]

theorem vfd_set_ins_strip_rc_calls (rc : Nat → Int) (port : sriov_port_s) (vf : vf_s)
    (w : nic_run) :
    (vfd_set_ins_strip_rc rc port vf w).2.calls =
      w.calls ++ (vfd_set_ins_strip (some port) (some vf)).1 := by
  unfold vfd_set_ins_strip_rc vfd_set_ins_strip
  by_cases h1 : vf.num_vlans = 1
  · by_cases h2 : vf.insert_stag ≠ 0
    · simp [h1, h2]
    · simp only [ne_eq, not_not] at h2
      simp [h1, h2]
  · simp [h1]

theorem refresh_rc_calls (rc : Nat → Int) (h : sriov_h) (parms : parms_t)
    (port : sriov_port_s) (vf : vf_s) (w : nic_run) :
    (refresh_rc rc h parms port vf w).calls = w.calls ++ refresh_calls h parms port vf := by
  unfold refresh_rc refresh_calls
  by_cases hn : 0 ≤ vf.num
  · by_cases hr : parms.forreal ≠ 0
    · simp [hn, hr, apply_ite nic_run.calls]
    · simp [hn, hr]
  · simp [hn]

/-- The loop body with return codes issues the calls of the loop body and
leaves the same slot, whatever the return codes are. -/
theorem update_vf_rc_eq (rc : Nat → Int) (h : sriov_h) (parms : parms_t) (i y : Nat)
    (port : sriov_port_s) (vf : vf_s) (w : nic_run) :
    (update_vf_rc rc h parms i y port vf w).1 = (update_vf h parms i y port vf).2 ∧
      (update_vf_rc rc h parms i y port vf w).2.calls =
        w.calls ++ (update_vf h parms i y port vf).1 := by
  unfold update_vf_rc update_vf
  have h1 : ¬ (DELETED = UNCHANGED) := by decide
  by_cases hu : vf.last_updated = UNCHANGED
  · simp [hu, refresh_rc_calls]
  · by_cases hd : vf.last_updated = DELETED <;> by_cases hr : parms.forreal = 0 <;>
      by_cases hrate : vf.rate > 0 <;> by_cases hn : 0 ≤ vf.num <;>
      simp [hu, hd, h1, hr, hrate, hn, refresh_rc_calls, fold_calls, fold_keep, vlan_calls,
        mac_calls, vfd_set_ins_strip_rc_calls]

theorem update_vfs_rc_eq (rc : Nat → Int) (h : sriov_h) (parms : parms_t) (i : Nat)
    (port : sriov_port_s) (vfs : List vf_s) (y n : Nat) (w : nic_run) :
    (update_vfs_rc rc h parms i port y n vfs w).1 = (update_vfs h parms i port y n vfs).2 ∧
      (update_vfs_rc rc h parms i port y n vfs w).2.calls =
        w.calls ++ (update_vfs h parms i port y n vfs).1 := by
  induction vfs generalizing y n w with
  | nil => cases n <;> simp [update_vfs_rc, update_vfs]
  | cons v vs ih =>
    cases n with
    | zero => simp [update_vfs_rc, update_vfs]
    | succ m =>
      have hv := update_vf_rc_eq rc h parms i y port v w
      have hi := ih (y + 1) m (update_vf_rc rc h parms i y port v w).2
      simp only [update_vfs_rc, update_vfs, hv.1, hi.1, hi.2, hv.2, List.append_assoc, and_self]

theorem port_rc_calls (rc : Nat → Int) (h : sriov_h) (parms : parms_t) (i : Nat)
    (port : sriov_port_s) (w : nic_run) :
    (port_rc rc h parms i port w).calls = w.calls ++ port_calls h parms i port := by
  unfold port_rc port_calls
  by_cases hr : parms.forreal ≠ 0
  · by_cases ha : port.last_updated = ADDED
    · simp [hr, ha, apply_ite nic_run.calls]
    · simp [hr, ha]
  · by_cases ha : port.last_updated = ADDED <;> simp [hr, ha]

theorem update_port_rc_eq (rc : Nat → Int) (h : sriov_h) (parms : parms_t) (i : Nat)
    (port : sriov_port_s) (w : nic_run) :
    (update_port_rc rc h parms i port w).1 = (update_port h parms i port).2 ∧
      (update_port_rc rc h parms i port w).2.calls =
        w.calls ++ (update_port h parms i port).1 := by
  have hv := update_vfs_rc_eq rc h parms i (mark_port port) port.vfs 0 port.num_vfs.toNat
    (port_rc rc h parms i port w)
  simp only [update_port_rc, update_port, hv.1, hv.2, port_rc_calls, List.append_assoc, and_self]

theorem update_ports_rc_eq (rc : Nat → Int) (h : sriov_h) (parms : parms_t)
    (ps : List sriov_port_s) (i n : Nat) (w : nic_run) :
    (update_ports_rc rc h parms i n ps w).1 = (update_ports h parms i n ps).2 ∧
      (update_ports_rc rc h parms i n ps w).2.calls =
        w.calls ++ (update_ports h parms i n ps).1 := by
  induction ps generalizing i n w with
  | nil => cases n <;> simp [update_ports_rc, update_ports]
  | cons v vs ih =>
    cases n with
    | zero => simp [update_ports_rc, update_ports]
    | succ m =>
      have hv := update_port_rc_eq rc h parms i v w
      have hi := ih (i + 1) m (update_port_rc rc h parms i v w).2
      simp only [update_ports_rc, update_ports, hv.1, hi.1, hi.2, hv.2, List.append_assoc,
        and_self]

/-- The pass with return codes issues the calls of `vfd_update_nic` and leaves
its configuration. -/
theorem vfd_update_nic_rc_eq (rc : Nat → Int) (h : sriov_h) (parms : parms_t)
    (conf : sriov_conf_t) :
    (vfd_update_nic_rc rc h parms conf).rc = 0 ∧
      (vfd_update_nic_rc rc h parms conf).run.calls = (vfd_update_nic h parms conf).calls ∧
      (vfd_update_nic_rc rc h parms conf).conf = (vfd_update_nic h parms conf).conf := by
  unfold vfd_update_nic_rc vfd_update_nic
  by_cases hinit : parms.initialised = 0
  · simp [hinit]
  · have hp := update_ports_rc_eq rc h parms conf.ports 0 conf.num_ports.toNat
      { calls := [], logs := [] }
    simp [hinit, hp.1, hp.2]

/-- The return codes do reach the log: on the example configuration the
receive-mode call of the VF in use is call number 5 of the pass, and a
negative return code of that call is logged. -/
theorem vfd_update_nic_rc_logs :
    (vfd_update_nic_rc (fun _ => 0) example_h example_parms example_conf).run.logs = [] ∧
      (vfd_update_nic_rc (fun k => if k = 5 then -22 else 0) example_h example_parms
        example_conf).run.logs = [RcLog.bad_rxmode (-22)] := by
  decide

/-! ## Theorems on `vfd_update_nic` with return codes -/

/-- C18: `vfd_update_nic` returns 0 for every input, and the return codes of
the NIC calls change neither the calls nor the result: for any two
assignments `rc1`, `rc2` of return codes to the calls of a pass, on the same
parms and configuration, the sequence of NIC calls issued is the same and the
configuration afterwards is the same (a failing call is logged and the pass
goes on). -/
theorem vfd_update_nic_rc_independent (rc1 rc2 : Nat → Int) (h : sriov_h) (parms : parms_t)
    (conf : sriov_conf_t) :
    (vfd_update_nic_rc rc1 h parms conf).rc = 0 ∧ (vfd_update_nic h parms conf).rc = 0 ∧
      (vfd_update_nic_rc rc1 h parms conf).run.calls =
        (vfd_update_nic_rc rc2 h parms conf).run.calls ∧
      (vfd_update_nic_rc rc1 h parms conf).conf = (vfd_update_nic_rc rc2 h parms conf).conf := by
  have h1 := vfd_update_nic_rc_eq rc1 h parms conf
  have h2 := vfd_update_nic_rc_eq rc2 h parms conf
  refine ⟨h1.1, ?_, h1.2.1.trans h2.2.1.symm, h1.2.2.trans h2.2.2.symm⟩
  unfold vfd_update_nic
  split <;> rfl

/-! ## Lemmas on `restore_vf_setings` -/

/-- The VF loop of `restore_vf_setings` does nothing when no slot that it
visits has the index looked for. -/
theorem restore_vfs_skip (h : sriov_h) (g : parms_t) (vf_id : Int) (i : Nat) (n y : Nat)
    (s : restore_state)
    (hno : ∀ port vf y2, y ≤ y2 → y2 < y + n → s.conf.ports[i]? = some port →
      port.vfs[y2]? = some vf → vf_id ≠ vf.num) :
    restore_vfs h g vf_id i y n s = s := by
  induction n generalizing y with
  | zero => rfl
  | succ m ih =>
    unfold restore_vfs
    cases hp : s.conf.ports[i]? with
    | none => rfl
    | some port =>
      dsimp only
      cases hv : port.vfs[y]? with
      | none => rfl
      | some vf =>
        dsimp only
        have hne := hno port vf y (le_refl _) (by omega) hp hv
        rw [if_neg hne]
        exact ih (y + 1) (fun port vf y2 h1 h2 => hno port vf y2 (by omega) (by omega))

/-- The VF loop of `restore_vf_setings` passes over `k` slots that do not have
the index looked for. -/
theorem restore_vfs_advance (h : sriov_h) (g : parms_t) (vf_id : Int) (i : Nat) (k m y : Nat)
    (s : restore_state) (port : sriov_port_s) (hp : s.conf.ports[i]? = some port)
    (hno : ∀ y2, y ≤ y2 → y2 < y + k → ∃ vf, port.vfs[y2]? = some vf ∧ vf_id ≠ vf.num) :
    restore_vfs h g vf_id i y (k + m) s = restore_vfs h g vf_id i (y + k) m s := by
  induction k generalizing y with
  | zero => simp
  | succ j ih =>
    obtain ⟨vf, hv, hne⟩ := hno y (le_refl _) (by omega)
    have e : j + 1 + m = (j + m) + 1 := by omega
    rw [e]
    conv => lhs; unfold restore_vfs
    simp only [hp, hv, hne, if_false]
    rw [ih (y + 1) (fun y2 h1 h2 => hno y2 (by omega) (by omega))]
    congr 1; omega

/-- The port loop of `restore_vf_setings` does nothing when no port that it
visits has the port number looked for. -/
theorem restore_ports_skip (h : sriov_h) (g : parms_t) (port_id : Nat) (vf_id : Int)
    (n i : Nat) (s : restore_state)
    (hno : ∀ port i2, i ≤ i2 → i2 < i + n → s.conf.ports[i2]? = some port →
      (port_id : Int) ≠ port.rte_port_number) :
    restore_ports h g port_id vf_id i n s = s := by
  induction n generalizing i with
  | zero => rfl
  | succ m ih =>
    unfold restore_ports
    cases hp : s.conf.ports[i]? with
    | none => rfl
    | some port =>
      dsimp only
      have hne := hno port i (le_refl _) (by omega) hp
      rw [if_neg hne]
      exact ih (i + 1) (fun port i2 h1 h2 => hno port i2 (by omega) (by omega))

/-- The port loop of `restore_vf_setings` passes over `k` ports that do not
have the port number looked for. -/
theorem restore_ports_advance (h : sriov_h) (g : parms_t) (port_id : Nat) (vf_id : Int)
    (k m i : Nat) (s : restore_state)
    (hno : ∀ i2, i ≤ i2 → i2 < i + k →
      ∃ port, s.conf.ports[i2]? = some port ∧ (port_id : Int) ≠ port.rte_port_number) :
    restore_ports h g port_id vf_id i (k + m) s =
      restore_ports h g port_id vf_id (i + k) m s := by
  induction k generalizing i with
  | zero => simp
  | succ j ih =>
    obtain ⟨port, hp, hne⟩ := hno i (le_refl _) (by omega)
    have e : j + 1 + m = (j + m) + 1 := by omega
    rw [e]
    conv => lhs; unfold restore_ports
    simp only [hp, hne, if_false]
    rw [ih (i + 1) (fun i2 h1 h2 => hno i2 (by omega) (by omega))]
    congr 1; omega

/-- The loop body leaves the index of a slot as it is or sets it to -1. -/
theorem update_vf_num (h : sriov_h) (parms : parms_t) (i y : Nat) (port : sriov_port_s)
    (vf : vf_s) :
    (update_vf h parms i y port vf).2.num = vf.num ∨ (update_vf h parms i y port vf).2.num = -1 := by
  by_cases hu : vf.last_updated = UNCHANGED
  · left; simp [update_vf, hu]
  · by_cases hd : vf.last_updated = DELETED
    · right; rw [update_vf_deleted_slot h parms i y port vf hd]
    · left; simp [update_vf, hu, hd]

theorem update_port_rte_port_number (h : sriov_h) (parms : parms_t) (i : Nat)
    (port : sriov_port_s) :
    (update_port h parms i port).2.rte_port_number = port.rte_port_number := by
  simp [update_port]

/-- A pass leaves the port number of every port as it is. -/
theorem vfd_update_nic_rte_port_number (h : sriov_h) (parms : parms_t) (conf : sriov_conf_t)
    (k : Nat) (p : sriov_port_s) (hp : (vfd_update_nic h parms conf).conf.ports[k]? = some p) :
    ∃ p0, conf.ports[k]? = some p0 ∧ p.rte_port_number = p0.rte_port_number := by
  unfold vfd_update_nic at hp
  by_cases hinit : parms.initialised = 0
  · simp only [hinit, if_true] at hp
    exact ⟨p, hp, rfl⟩
  · simp only [hinit, if_false, update_ports_get] at hp
    cases hc : conf.ports[k]? with
    | none => rw [hc] at hp; exact absurd hp (by simp)
    | some p0 =>
      rw [hc] at hp
      simp only [Option.map_some', Option.some.injEq] at hp
      refine ⟨p0, rfl, ?_⟩
      rw [← hp]
      split
      · exact update_port_rte_port_number h parms _ p0
      · rfl

/-- A pass leaves the index of every slot as it is or sets it to -1. -/
theorem vfd_update_nic_num (h : sriov_h) (parms : parms_t) (conf : sriov_conf_t)
    (k y : Nat) (p : sriov_port_s) (v : vf_s)
    (hp : (vfd_update_nic h parms conf).conf.ports[k]? = some p) (hv : p.vfs[y]? = some v) :
    ∃ p0 v0, conf.ports[k]? = some p0 ∧ p0.vfs[y]? = some v0 ∧
      (v.num = v0.num ∨ v.num = -1) := by
  unfold vfd_update_nic at hp
  by_cases hinit : parms.initialised = 0
  · simp only [hinit, if_true] at hp
    exact ⟨p, v, hp, hv, Or.inl rfl⟩
  · simp only [hinit, if_false, update_ports_get] at hp
    cases hc : conf.ports[k]? with
    | none => rw [hc] at hp; exact absurd hp (by simp)
    | some p0 =>
      rw [hc] at hp
      simp only [Option.map_some', Option.some.injEq] at hp
      by_cases hk : k < conf.num_ports.toNat
      · simp only [Nat.zero_add, hk, if_true] at hp
        rw [← hp] at hv
        simp only [update_port, update_vfs_get, mark_port_vfs] at hv
        cases hc2 : p0.vfs[y]? with
        | none => rw [hc2] at hv; exact absurd hv (by simp)
        | some v0 =>
          rw [hc2] at hv
          simp only [Option.map_some', Option.some.injEq] at hv
          refine ⟨p0, v0, rfl, hc2, ?_⟩
          rw [← hv]
          split
          · exact update_vf_num h parms _ _ _ v0
          · exact Or.inl rfl
      · simp only [Nat.zero_add, hk, if_false] at hp
        rw [← hp] at hv
        exact ⟨p0, v, rfl, hv, Or.inl rfl⟩

theorem getElem?_append_cons_after {α : Type} (l1 : List α) (a : α) (l2 : List α) (k : Nat)
    (x : α) (hk : l1.length < k) (hx : (l1 ++ a :: l2)[k]? = some x) : x ∈ l2 := by
  rw [List.getElem?_append_right (by omega)] at hx
  obtain ⟨j, hj⟩ : ∃ j, k - l1.length = j + 1 := ⟨k - l1.length - 1, by omega⟩
  rw [hj, List.getElem?_cons_succ] at hx
  exact List.getElem?_mem hx

theorem getElem?_append_cons_before {α : Type} (l1 : List α) (a : α) (l2 : List α) (k : Nat)
    (hk : k < l1.length) : ∃ x, (l1 ++ a :: l2)[k]? = some x ∧ x ∈ l1 := by
  rw [List.getElem?_append_left hk]
  exact ⟨l1[k], List.getElem?_eq_getElem hk, List.getElem_mem hk⟩

theorem getElem?_append_cons_at {α : Type} (l1 : List α) (a : α) (l2 : List α) :
    (l1 ++ a :: l2)[l1.length]? = some a := by
  rw [List.getElem?_append_right (le_refl _)]
  simp

/-- The port loop of `restore_vf_setings` does nothing when no slot of a port
with the port number looked for has the index looked for. -/
theorem restore_ports_nomatch (h : sriov_h) (g : parms_t) (port_id : Nat) (vf_id : Int)
    (n i : Nat) (s : restore_state)
    (hno : ∀ port i2, i ≤ i2 → i2 < i + n → s.conf.ports[i2]? = some port →
      (port_id : Int) = port.rte_port_number →
      ∀ vf y, y < port.num_vfs.toNat → port.vfs[y]? = some vf → vf_id ≠ vf.num) :
    restore_ports h g port_id vf_id i n s = s := by
  induction n generalizing i with
  | zero => rfl
  | succ m ih =>
    unfold restore_ports
    cases hp : s.conf.ports[i]? with
    | none => rfl
    | some port =>
      dsimp only
      have hrest := ih (i + 1) (fun port i2 h1 h2 => hno port i2 (by omega) (by omega))
      by_cases hm : (port_id : Int) = port.rte_port_number
      · rw [if_pos hm]
        have hin : restore_vfs h g vf_id i 0 port.num_vfs.toNat s = s := by
          apply restore_vfs_skip
          intro port2 vf y2 _ h2 hp2 hv
          rw [hp] at hp2
          have : port = port2 := by simpa using hp2
          subst this
          exact hno port i (le_refl _) (by omega) hp hm vf y2 (by omega) hv
        rw [hin]; exact hrest
      · rw [if_neg hm]; exact hrest

theorem set_append_cons {α : Type} (l1 : List α) (a b : α) (l2 : List α) :
    (l1 ++ a :: l2).set l1.length b = l1 ++ b :: l2 := by
  induction l1 with
  | nil => rfl
  | cons x xs ih => simp [ih]

/-- The loop body reads the port only for its port number. -/
theorem update_vf_port_congr (h : sriov_h) (parms : parms_t) (i y : Nat)
    (port port2 : sriov_port_s) (vf : vf_s)
    (hp : port.rte_port_number = port2.rte_port_number) :
    update_vf h parms i y port vf = update_vf h parms i y port2 vf := by
  simp only [update_vf, vlan_calls, mac_calls, refresh_calls, vfd_set_ins_strip, hp]

theorem update_vfs_port_congr (h : sriov_h) (parms : parms_t) (i : Nat)
    (port port2 : sriov_port_s) (vfs : List vf_s) (y n : Nat)
    (hp : port.rte_port_number = port2.rte_port_number) :
    update_vfs h parms i port y n vfs = update_vfs h parms i port2 y n vfs := by
  induction vfs generalizing y n with
  | nil => cases n <;> rfl
  | cons v vs ih =>
    cases n with
    | zero => rfl
    | succ m => simp only [update_vfs, ih, update_vf_port_congr h parms i y port port2 v hp]

theorem restore_ports_match (h : sriov_h) (g : parms_t) (port_id : Nat) (vf_id : Int)
    (i n : Nat) (s : restore_state) (port : sriov_port_s)
    (hp : s.conf.ports[i]? = some port) (hm : (port_id : Int) = port.rte_port_number) :
    restore_ports h g port_id vf_id i (n + 1) s =
      restore_ports h g port_id vf_id (i + 1) n
        (restore_vfs h g vf_id i 0 port.num_vfs.toNat s) := by
  conv => lhs; unfold restore_ports
  simp only [hp, hm, if_true]

theorem restore_vfs_match (h : sriov_h) (g : parms_t) (vf_id : Int) (i y n : Nat)
    (s : restore_state) (port : sriov_port_s) (vf : vf_s)
    (hp : s.conf.ports[i]? = some port) (hv : port.vfs[y]? = some vf) (hm : vf_id = vf.num) :
    restore_vfs h g vf_id i y (n + 1) s =
      restore_vfs h g vf_id i (y + 1) n
        { calls := s.calls ++ (vfd_update_nic h g (mark_reset s.conf i y port vf)).calls
          conf := (vfd_update_nic h g (mark_reset s.conf i y port vf)).conf
          matched := s.matched + 1 } := by
  conv => lhs; unfold restore_vfs
  simp only [hp, hv, hm, if_true]

/-- When exactly one slot that `restore_vf_setings` visits has the port number
and the index looked for, and the index is not negative, the function marks
that slot `RESET` and runs `vfd_update_nic` once. -/
theorem restore_vf_setings_one_match (h : sriov_h) (g : parms_t) (conf : sriov_conf_t)
    (port_id : Nat) (vf_id : Int)
    (ps : List sriov_port_s) (port : sriov_port_s) (qs : List sriov_port_s)
    (vs : List vf_s) (vf : vf_s) (ws : List vf_s)
    (hports : conf.ports = ps ++ port :: qs) (hi : ps.length < conf.num_ports.toNat)
    (hvfs : port.vfs = vs ++ vf :: ws) (hy : vs.length < port.num_vfs.toNat)
    (hport : (port_id : Int) = port.rte_port_number) (hvf : vf_id = vf.num) (hid : 0 ≤ vf_id)
    (hps : ∀ p ∈ ps, (port_id : Int) ≠ p.rte_port_number)
    (hqs : ∀ p ∈ qs, (port_id : Int) ≠ p.rte_port_number)
    (hvs : ∀ v ∈ vs, vf_id ≠ v.num) (hws : ∀ v ∈ ws, vf_id ≠ v.num) :
    restore_vf_setings h g conf port_id vf_id =
      { calls := (vfd_update_nic h g (mark_reset conf ps.length vs.length port vf)).calls
        conf := (vfd_update_nic h g (mark_reset conf ps.length vs.length port vf)).conf
        matched := 1 } := by
  have hpi : conf.ports[ps.length]? = some port := by
    rw [hports]; exact getElem?_append_cons_at ps port qs
  have hvy : port.vfs[vs.length]? = some vf := by
    rw [hvfs]; exact getElem?_append_cons_at vs vf ws
  obtain ⟨m, hm⟩ : ∃ m, conf.num_ports.toNat = ps.length + (m + 1) :=
    ⟨conf.num_ports.toNat - ps.length - 1, by omega⟩
  obtain ⟨m2, hm2⟩ : ∃ m2, port.num_vfs.toNat = vs.length + (m2 + 1) :=
    ⟨port.num_vfs.toNat - vs.length - 1, by omega⟩
  -- the configuration with the marker set
  have hc1 : (mark_reset conf ps.length vs.length port vf).ports =
      ps ++ { port with vfs := vs ++ { vf with last_updated := RESET } :: ws } :: qs := by
    simp only [mark_reset, hports, hvfs, set_append_cons]
  have s1 : restore_ports h g port_id vf_id 0 (ps.length + (m + 1))
      { calls := [], conf := conf, matched := 0 } =
      restore_ports h g port_id vf_id (0 + ps.length) (m + 1)
        { calls := [], conf := conf, matched := 0 } := by
    apply restore_ports_advance
    intro i2 _ h2
    obtain ⟨x, hx, hmem⟩ := getElem?_append_cons_before ps port qs i2 (by omega)
    exact ⟨x, by rw [hports]; exact hx, hps x hmem⟩
  have s2 : restore_vfs h g vf_id ps.length 0 (vs.length + (m2 + 1))
      { calls := [], conf := conf, matched := 0 } =
      restore_vfs h g vf_id ps.length (0 + vs.length) (m2 + 1)
        { calls := [], conf := conf, matched := 0 } := by
    apply restore_vfs_advance h g vf_id ps.length vs.length (m2 + 1) 0 _ port hpi
    intro y2 _ h2
    obtain ⟨x, hx, hmem⟩ := getElem?_append_cons_before vs vf ws y2 (by omega)
    exact ⟨x, by rw [hvfs]; exact hx, hvs x hmem⟩
  have s3 : restore_vfs h g vf_id ps.length (vs.length + 1) m2
      { calls := [] ++ (vfd_update_nic h g (mark_reset conf ps.length vs.length port vf)).calls
        conf := (vfd_update_nic h g (mark_reset conf ps.length vs.length port vf)).conf
        matched := 0 + 1 } =
      { calls := [] ++ (vfd_update_nic h g (mark_reset conf ps.length vs.length port vf)).calls
        conf := (vfd_update_nic h g (mark_reset conf ps.length vs.length port vf)).conf
        matched := 0 + 1 } := by
    apply restore_vfs_skip
    intro p v y2 h1 _ hp hv
    obtain ⟨p0, v0, hp0, hv0, hnum⟩ := vfd_update_nic_num h g _ ps.length y2 p v hp hv
    rw [hc1, getElem?_append_cons_at] at hp0
    have hp1 := Option.some.inj hp0
    rw [← hp1] at hv0
    have := getElem?_append_cons_after vs _ ws y2 v0 (by omega) hv0
    rcases hnum with hn | hn
    · rw [hn]; exact hws v0 this
    · rw [hn]; omega
  have s4 : restore_ports h g port_id vf_id (ps.length + 1) m
      { calls := [] ++ (vfd_update_nic h g (mark_reset conf ps.length vs.length port vf)).calls
        conf := (vfd_update_nic h g (mark_reset conf ps.length vs.length port vf)).conf
        matched := 0 + 1 } =
      { calls := [] ++ (vfd_update_nic h g (mark_reset conf ps.length vs.length port vf)).calls
        conf := (vfd_update_nic h g (mark_reset conf ps.length vs.length port vf)).conf
        matched := 0 + 1 } := by
    apply restore_ports_skip
    intro p i2 h1 _ hp
    obtain ⟨p0, hp0, hrte⟩ := vfd_update_nic_rte_port_number h g _ i2 p hp
    rw [hc1] at hp0
    have := getElem?_append_cons_after ps _ qs i2 p0 (by omega) hp0
    rw [hrte]; exact hqs p0 this
  unfold restore_vf_setings
  rw [hm, s1, Nat.zero_add,
    restore_ports_match h g port_id vf_id ps.length m _ port hpi hport, hm2, s2, Nat.zero_add,
    restore_vfs_match h g vf_id ps.length vs.length m2 _ port vf hpi hvy hvf, s3, s4]
  simp

theorem mem_take_of_getElem? {α : Type} (l : List α) (k n : Nat) (x : α)
    (hx : l[k]? = some x) (hk : k < n) : x ∈ l.take n := by
  rw [← List.getElem?_take_of_lt hk] at hx
  exact List.getElem?_mem hx

/-! ## The rate-limit call of `vfd_update_nic` -/

/-- The loop body issues the rate-limit call for every slot whose marker is
not `UNCHANGED` and whose rate is above 0, whatever the marker is otherwise
and whatever `forreal` is. -/
theorem update_vf_rate_call (h : sriov_h) (parms : parms_t) (i y : Nat) (port : sriov_port_s)
    (vf : vf_s) (hu : vf.last_updated ≠ UNCHANGED) (hr : vf.rate > 0) :
    set_vf_rate_limit port.rte_port_number vf.num (h.rate_arg vf.rate) 1 ∈
      (update_vf h parms i y port vf).1 := by
  have h1 : ¬ (DELETED = UNCHANGED) := by decide
  by_cases hd : vf.last_updated = DELETED
  · simp [update_vf, h1, hd, hr]
  · simp [update_vf, hu, hd, hr]

/-- With `forreal` off the loop body issues the rate-limit call and nothing
else. -/
theorem update_vf_forreal_off (h : sriov_h) (parms : parms_t) (i y : Nat) (port : sriov_port_s)
    (vf : vf_s) (hoff : parms.forreal = 0) :
    (update_vf h parms i y port vf).1 =
      if vf.last_updated ≠ UNCHANGED ∧ vf.rate > 0 then
        [set_vf_rate_limit port.rte_port_number vf.num (h.rate_arg vf.rate) 1]
      else [] := by
  have h1 : ¬ (DELETED = UNCHANGED) := by decide
  by_cases hu : vf.last_updated = UNCHANGED
  · simp [update_vf, hu, refresh_calls, hoff]
  · by_cases hd : vf.last_updated = DELETED
    · by_cases hr : vf.rate > 0
      · simp [update_vf, h1, hd, hr, vlan_calls, mac_calls, refresh_calls, hoff]
      · simp [update_vf, h1, hd, hr, vlan_calls, mac_calls, refresh_calls, hoff]
    · by_cases hr : vf.rate > 0
      · simp [update_vf, hu, hd, hr, vlan_calls, mac_calls, refresh_calls, hoff]
      · simp [update_vf, hu, hd, hr, vlan_calls, mac_calls, refresh_calls, hoff]

/-- A pass on an initialised configuration issues the rate-limit call of
every slot that the loops reach whose marker is not `UNCHANGED` and whose
rate is above 0. -/
theorem vfd_update_nic_rate_call (h : sriov_h) (parms : parms_t) (conf : sriov_conf_t)
    (ps : List sriov_port_s) (port : sriov_port_s) (qs : List sriov_port_s)
    (vs : List vf_s) (vf : vf_s) (ws : List vf_s)
    (hinit : parms.initialised ≠ 0)
    (hports : conf.ports = ps ++ port :: qs) (hi : ps.length < conf.num_ports.toNat)
    (hvfs : port.vfs = vs ++ vf :: ws) (hy : vs.length < port.num_vfs.toNat)
    (hu : vf.last_updated ≠ UNCHANGED) (hr : vf.rate > 0) :
    set_vf_rate_limit port.rte_port_number vf.num (h.rate_arg vf.rate) 1 ∈
      (vfd_update_nic h parms conf).calls := by
  rw [vfd_update_nic_calls_split h parms conf ps port qs vs vf ws hinit hports hi hvfs hy]
  have key := update_vf_rate_call h parms ps.length vs.length (mark_port port) vf hu hr
  rw [mark_port_rte_port_number] at key
  simp only [List.mem_append]
  exact Or.inl (Or.inl (Or.inr key))

/-- C21 fails on the code: in a pass on an initialised configuration, a VF
whose marker is `DELETED` and whose rate limit is above 0 gets a rate-limit
call (with the index it had before the delete), so the calls for a deleted
VF are not only remove-filter calls.  The test `vf->rate > 0` stands outside
the marker tests of the blocks around it. -/
theorem vfd_update_nic_deleted_rate_call (h : sriov_h) (parms : parms_t) (conf : sriov_conf_t)
    (ps : List sriov_port_s) (port : sriov_port_s) (qs : List sriov_port_s)
    (vs : List vf_s) (vf : vf_s) (ws : List vf_s)
    (hinit : parms.initialised ≠ 0)
    (hports : conf.ports = ps ++ port :: qs) (hi : ps.length < conf.num_ports.toNat)
    (hvfs : port.vfs = vs ++ vf :: ws) (hy : vs.length < port.num_vfs.toNat)
    (hdel : vf.last_updated = DELETED) (hr : vf.rate > 0) :
    set_vf_rate_limit port.rte_port_number vf.num (h.rate_arg vf.rate) 1 ∈
      (vfd_update_nic h parms conf).calls :=
  vfd_update_nic_rate_call h parms conf ps port qs vs vf ws hinit hports hi hvfs hy
    (by rw [hdel]; decide) hr

/-- C21's failing input: one port whose only slot holds VF 3, marked
`DELETED`, with VLANs 10 and 20, one MAC and rate limit 1.  The pass ends
with the rate-limit call for VF 3, after the three remove-filter calls. -/
theorem vfd_update_nic_deleted_rate_call_witness :
    set_vf_rate_limit 0 3 10000 1 ∈
        (vfd_update_nic example_h example_parms example_rated_deleted_conf).calls ∧
      (vfd_update_nic example_h example_parms example_rated_deleted_conf).calls =
        [tx_set_loopback 0 0, set_queue_drop 0 1,
         set_vf_rx_vlan 0 10 8 0, set_vf_rx_vlan 0 20 8 0,
         set_vf_rx_mac 0 "fa:ce:de:02:00:01" 3 0, set_vf_rate_limit 0 3 10000 1] :=
  ⟨vfd_update_nic_deleted_rate_call example_h example_parms example_rated_deleted_conf
      [] { example_port with num_vfs := 1, vfs := [example_rated_deleted_vf] } []
      [] example_rated_deleted_vf [] (by decide) rfl (by decide) rfl (by decide) rfl (by decide),
    by decide⟩

/-- With `forreal` off and `initialised` set, a combination that `main` does
not produce, a pass issues the rate-limit call of every slot that the loops
reach whose marker is not `UNCHANGED` and whose rate limit is above 0.  The
call `set_vf_rate_limit` is the one NIC call of the function that is not
under a test of `parms->forreal`. -/
theorem vfd_update_nic_forreal_off_rate_call (h : sriov_h) (parms : parms_t)
    (conf : sriov_conf_t)
    (ps : List sriov_port_s) (port : sriov_port_s) (qs : List sriov_port_s)
    (vs : List vf_s) (vf : vf_s) (ws : List vf_s)
    (hoff : parms.forreal = 0) (hinit : parms.initialised ≠ 0)
    (hports : conf.ports = ps ++ port :: qs) (hi : ps.length < conf.num_ports.toNat)
    (hvfs : port.vfs = vs ++ vf :: ws) (hy : vs.length < port.num_vfs.toNat)
    (hu : vf.last_updated ≠ UNCHANGED) (hr : vf.rate > 0) :
    set_vf_rate_limit port.rte_port_number vf.num (h.rate_arg vf.rate) 1 ∈
        (vfd_update_nic h parms conf).calls ∧
      (update_vf h parms ps.length vs.length (mark_port port) vf).1 =
        [set_vf_rate_limit port.rte_port_number vf.num (h.rate_arg vf.rate) 1] ∧
      (vfd_update_nic h parms conf).calls ≠ [] := by
  have key := vfd_update_nic_rate_call h parms conf ps port qs vs vf ws hinit hports hi hvfs hy
    hu hr
  refine ⟨key, ?_, List.ne_nil_of_mem key⟩
  rw [update_vf_forreal_off h parms _ _ _ vf hoff, if_pos ⟨hu, hr⟩, mark_port_rte_port_number]

/-- The pass with `initialised` 1 and `forreal` 0 on one port whose only slot
holds VF 2, marked `ADDED`, with rate limit 1: it issues exactly one NIC
call, the rate-limit call for VF 2. -/
theorem vfd_update_nic_forreal_off_rate_call_witness :
    example_dry_parms.forreal = 0 ∧
      set_vf_rate_limit 0 2 10000 1 ∈
        (vfd_update_nic example_h example_dry_parms example_rated_added_conf).calls ∧
      (vfd_update_nic example_h example_dry_parms example_rated_added_conf).calls =
        [set_vf_rate_limit 0 2 10000 1] :=
  ⟨rfl,
    (vfd_update_nic_forreal_off_rate_call example_h example_dry_parms example_rated_added_conf
      [] { example_port with num_vfs := 1, vfs := [example_rated_added_vf] } []
      [] example_rated_added_vf [] rfl (by decide) rfl (by decide) rfl (by decide)
      (by decide) (by decide)).1,
    by decide⟩

/-! ## The range test of `suss_port` -/

/-- C23 fails on the code: for the port id `num_ports` itself, which is not
below `num_ports`, the range test `portid > running_config->num_ports` lets
the id pass; `suss_port` reads `rte_config_portmap[num_ports]`, and when that
entry is below `num_ports` it returns the port at that index, not nil. -/
theorem suss_port_at_num_ports (g : globals) (hn : 0 ≤ g.running_config.num_ports) :
    suss_port_reads g g.running_config.num_ports = [g.running_config.num_ports.toNat] ∧
      ((g.rte_config_portmap.getD g.running_config.num_ports.toNat 0 : Int) <
          g.running_config.num_ports →
        suss_port g g.running_config.num_ports =
          g.running_config.ports[
            g.rte_config_portmap.getD g.running_config.num_ports.toNat 0]?) := by
  constructor
  · unfold suss_port_reads
    rw [if_neg (by omega)]
  · intro hlt
    unfold suss_port
    rw [if_neg (by omega), if_neg (by omega)]

/-- C23's failing input: one configured port, port id 1.  The call reads
`rte_config_portmap[1]`, finds 0 there and returns the port of index 0; and
`valid_mtu( 1, 1500 )` answers 1 for a port id that is out of range. -/
theorem suss_port_at_num_ports_witness :
    (0 : Int) ≤ example_globals_two.running_config.num_ports ∧
      suss_port_reads example_globals_two 1 = [1] ∧
      suss_port example_globals_two 1 = some example_port ∧
      valid_mtu example_globals_two 1 1500 = 1 :=
  ⟨by decide, (suss_port_at_num_ports example_globals_two (by decide)).1,
    ((suss_port_at_num_ports example_globals_two (by decide)).2 (by decide)).trans (by decide),
    by decide⟩

/-! ## Every entry of the array of `gen_tc_pctgs` -/

/-- Every index that round `i < ntcs` of the second loop assigns to is below
`MAX_VFS * ntcs`. -/
theorem norm_tc_writes_lt (M : Nat) (port : sriov_port_s) (ntcs i : Nat) (hi : i < ntcs)
    (k : Nat) (hk : k ∈ norm_tc_writes M port ntcs i) : k < M * ntcs := by
  have key : ∀ j, j ∈ List.range' i (M - i) → j * ntcs + i < M * ntcs := by
    intro j hj
    rw [List.mem_range'_1] at hj
    have h1 : j + 1 ≤ M := by omega
    calc j * ntcs + i < j * ntcs + ntcs := by omega
      _ = (j + 1) * ntcs := by ring
      _ ≤ M * ntcs := Nat.mul_le_mul_right _ h1
  unfold norm_tc_writes at hk
  split at hk
  · rw [List.mem_map] at hk
    obtain ⟨j, hj, rfl⟩ := hk
    exact key j (List.mem_filter.mp hj).1
  · rw [List.mem_map] at hk
    obtain ⟨j, hj, rfl⟩ := hk
    exact key j hj

/-- Every index that `gen_tc_pctgs` assigns to is below `MAX_VFS * ntcs`. -/
theorem gen_tc_writes_lt (M : Nat) (port : sriov_port_s) (k : Nat)
    (hk : k ∈ gen_tc_writes M port) : k < M * port.ntcs.toNat := by
  unfold gen_tc_writes at hk
  rw [List.mem_flatMap] at hk
  obtain ⟨i, hi, hki⟩ := hk
  exact norm_tc_writes_lt M port _ i (List.mem_range.mp hi) k hki

/-- C24 fails as worded on this input: two VFs in use with class-0 shares 50
and 8, so the class sum is 58 and `floor(50 * 58 / 100)` is 29; the code
stores 28 in `output[0*4 + 0]`, because the binary64 factor `58 / 100.0` lies
below 0.58 and the product with 50 lies below 29. -/
theorem gen_tc_pctgs_50_8 :
    tc_sum 2 example_50_8_port 0 = 58 ∧
      0 ≤ (vf_at example_50_8_port 0).num ∧
      tc_pctg (vf_at example_50_8_port 0) 0 = 50 ∧
      50 * 58 / 100 = 29 ∧
      (gen_tc_pctgs 2 8 example_50_8_port).getD (0 * 4 + 0) 0 = 28 := by
  decide

/-- C24, amended: for a port with `ntcs ≤ MAX_TCS` and
`MAX_VFS * ntcs ≤ MAX_QUEUES`, a class `t < ntcs` and a slot `j < MAX_VFS`,
the entry `output[j*ntcs + t]` of `gen_tc_pctgs` is 0 when `j < t`;
otherwise, when the class sum over the VFs in use is 100, the share held in
slot `j`, in use or not; otherwise, for a slot in use, the integer part of
the binary64 product of the share and the binary64 quotient `sum / 100.0`
(in eight bits), and 0 for a slot not in use.  Every index assigned to is
below `MAX_VFS * ntcs`. -/
theorem gen_tc_pctgs_entry (MAX_TCS M Q : Nat) (port : sriov_port_s) (t j : Nat)
    (_htcs : port.ntcs.toNat ≤ MAX_TCS) (hq : M * port.ntcs.toNat ≤ Q)
    (ht : t < port.ntcs.toNat) (hj : j < M) :
    (gen_tc_pctgs M Q port).getD (j * port.ntcs.toNat + t) 0 =
        (if j < t then 0
         else if tc_sum M port t = 100 then tc_pctg (vf_at port j) t
         else if 0 ≤ (vf_at port j).num then
           dbl_to_uint8 (dbl_mul_int (tc_pctg (vf_at port j) t) (fl (tc_sum M port t) 100))
         else 0) ∧
      ∀ k ∈ gen_tc_writes M port, k < M * port.ntcs.toNat := by
  refine ⟨?_, gen_tc_writes_lt M port⟩
  have hk : j * port.ntcs.toNat + t < Q := by
    have h1 : j + 1 ≤ M := hj
    calc j * port.ntcs.toNat + t < j * port.ntcs.toNat + port.ntcs.toNat := by omega
      _ = (j + 1) * port.ntcs.toNat := by ring
      _ ≤ M * port.ntcs.toNat := Nat.mul_le_mul_right _ h1
      _ ≤ Q := hq
  rw [gen_tc_pctgs_getD M Q port j t ht hk]
  by_cases hjt : j < t
  · rw [if_neg (by omega), if_pos hjt]
  · rw [if_pos ⟨by omega, hj⟩, if_neg hjt]
    unfold stored
    by_cases hs : tc_sum M port t = 100
    · simp [hs]
    · by_cases ha : 0 ≤ (vf_at port j).num
      · simp [hs, ha]
      · simp [hs, ha]

/-- C24's amended statement on the port with the class-0 shares 50 and 8,
with `MAX_TCS` 8, `MAX_VFS` 2 and `MAX_QUEUES` 8: the entry of slot 1 and
class 0 is 4, the integer part of `8 * (58 / 100.0)`. -/
theorem gen_tc_pctgs_entry_witness :
    example_50_8_port.ntcs.toNat ≤ 8 ∧ 2 * example_50_8_port.ntcs.toNat ≤ 8 ∧
      0 < example_50_8_port.ntcs.toNat ∧ 1 < 2 ∧
      (gen_tc_pctgs 2 8 example_50_8_port).getD (1 * example_50_8_port.ntcs.toNat + 0) 0 = 4 ∧
      ∀ k ∈ gen_tc_writes 2 example_50_8_port, k < 2 * example_50_8_port.ntcs.toNat :=
  have t := gen_tc_pctgs_entry 8 2 8 example_50_8_port 0 1 (by decide) (by decide) (by decide)
    (by decide)
  ⟨by decide, by decide, by decide, by decide, t.1.trans (by decide), t.2⟩

/-! ## `valid_vlan` on a port id that does not map -/

/-- C25 fails on the code: when `suss_port` returns nil for the port id,
`suss_vf` does not return nil and `valid_vlan` does not return 0; the run
dereferences the nil pointer in the loop test `i < p->num_vfs` of `suss_vf`,
which uses the result of `suss_port` without a test. -/
theorem valid_vlan_nil_port (g : globals) (port vfid vlan : Int)
    (hnil : suss_port g port = none) :
    suss_vf g port vfid = none ∧ valid_vlan g port vfid vlan = none := by
  have h1 : suss_vf g port vfid = none := by
    unfold suss_vf
    rw [hnil]
  refine ⟨h1, ?_⟩
  unfold valid_vlan
  rw [h1]

/-- C25's failing input: one configured port, port id 5.  `suss_port`
returns nil, `valid_mtu` tests for it and answers 0, `suss_vf` and
`valid_vlan` run into the nil pointer. -/
theorem valid_vlan_nil_port_witness :
    suss_port example_globals 5 = none ∧
      valid_mtu example_globals 5 1500 = 0 ∧
      suss_vf example_globals 5 3 = none ∧ valid_vlan example_globals 5 3 10 = none :=
  ⟨by decide, by decide, valid_vlan_nil_port example_globals 5 3 10 (by decide)⟩

/-! ## The loops of `restore_vf_setings`, seen at one slot -/

theorem getElem?_split {α : Type} (l : List α) (k : Nat) (a : α) (hk : l[k]? = some a) :
    ∃ l1 l2, l = l1 ++ a :: l2 ∧ l1.length = k := by
  induction l generalizing k with
  | nil => simp at hk
  | cons x xs ih =>
    cases k with
    | zero =>
      simp only [List.getElem?_cons_zero, Option.some.injEq] at hk
      exact ⟨[], xs, by rw [hk]; rfl, rfl⟩
    | succ j =>
      simp only [List.getElem?_cons_succ] at hk
      obtain ⟨l1, l2, h1, h2⟩ := ih j hk
      exact ⟨x :: l1, l2, by rw [h1]; rfl, by simp [h2]⟩

theorem slot_view_eq_some (conf : sriov_conf_t) (i y : Nat) (R NV : Int) (v : vf_s) :
    slot_view conf i y = some (R, NV, v) ↔
      ∃ p, conf.ports[i]? = some p ∧ p.rte_port_number = R ∧ p.num_vfs = NV ∧
        p.vfs[y]? = some v := by
  unfold slot_view
  constructor
  · intro hv
    cases hp : conf.ports[i]? with
    | none => rw [hp] at hv; simp at hv
    | some p =>
      rw [hp] at hv
      simp only [Option.some_bind] at hv
      cases hs : p.vfs[y]? with
      | none => rw [hs] at hv; simp at hv
      | some w =>
        rw [hs] at hv
        simp only [Option.map_some', Option.some.injEq, Prod.mk.injEq] at hv
        exact ⟨p, rfl, hv.1, hv.2.1, by rw [← hv.2.2]; exact hs⟩
  · rintro ⟨p, hp, h1, h2, h3⟩
    simp [hp, h3, h1, h2]

/-- The slot that the loop body leaves for a marker other than `DELETED`: the
slot as it was, with marker `UNCHANGED`. -/
theorem update_vf_state (h : sriov_h) (parms : parms_t) (i y : Nat) (port : sriov_port_s)
    (vf : vf_s) (hd : vf.last_updated ≠ DELETED) :
    (update_vf h parms i y port vf).2 = { vf with last_updated := UNCHANGED } := by
  by_cases hu : vf.last_updated = UNCHANGED
  · rw [update_vf_unchanged h parms i y port vf hu]
    cases vf
    simp only at hu
    simp [hu]
  · simp [update_vf, hu, hd]

theorem vfd_update_nic_num_ports (h : sriov_h) (parms : parms_t) (conf : sriov_conf_t) :
    (vfd_update_nic h parms conf).conf.num_ports = conf.num_ports := by
  unfold vfd_update_nic
  split <;> rfl

/-- A pass of an initialised daemon, seen at a slot that the loops reach and
whose marker is not `DELETED`. -/
theorem vfd_update_nic_slot_view (h : sriov_h) (parms : parms_t) (conf : sriov_conf_t)
    (i y : Nat) (R NV : Int) (v : vf_s) (hinit : parms.initialised ≠ 0)
    (hv : slot_view conf i y = some (R, NV, v)) (hi : i < conf.num_ports.toNat)
    (hy : y < NV.toNat) (hd : v.last_updated ≠ DELETED) :
    slot_view (vfd_update_nic h parms conf).conf i y =
      some (R, NV, { v with last_updated := UNCHANGED }) := by
  obtain ⟨p, hp, h1, h2, h3⟩ := (slot_view_eq_some conf i y R NV v).mp hv
  subst h1 h2
  rw [slot_view_eq_some]
  refine ⟨(update_port h parms i p).2, vfd_update_nic_port h parms conf i p hinit hp hi,
    update_port_rte_port_number h parms i p, by simp [update_port], ?_⟩
  simp [update_port, update_vfs_get, h3, hy, update_vf_state h parms _ _ _ v hd]

/-- Setting the marker of another slot leaves the view of a slot as it is. -/
theorem mark_reset_slot_view_other (conf : sriov_conf_t) (i y : Nat) (port : sriov_port_s)
    (vf : vf_s) (i0 y0 : Nat) (hs : conf.ports[i]? = some port) (hne : i ≠ i0 ∨ y ≠ y0) :
    slot_view (mark_reset conf i y port vf) i0 y0 = slot_view conf i0 y0 := by
  unfold slot_view mark_reset
  by_cases hi : i = i0
  · subst hi
    have hy : y ≠ y0 := by
      rcases hne with h1 | h1
      · exact absurd rfl h1
      · exact h1
    have hlen : i < conf.ports.length := (List.getElem?_eq_some.mp hs).1
    simp only [List.getElem?_set_self hlen, hs, Option.some_bind, List.getElem?_set_ne hy]
  · simp only [List.getElem?_set_ne hi]

/-- Setting the marker of a slot, seen at that slot. -/
theorem mark_reset_slot_view_target (conf : sriov_conf_t) (i y : Nat) (port : sriov_port_s)
    (vf : vf_s) (hs : conf.ports[i]? = some port) (hv : port.vfs[y]? = some vf) :
    slot_view (mark_reset conf i y port vf) i y =
      some (port.rte_port_number, port.num_vfs, { vf with last_updated := RESET }) := by
  unfold slot_view mark_reset
  have hlen : i < conf.ports.length := (List.getElem?_eq_some.mp hs).1
  have hlen2 : y < port.vfs.length := (List.getElem?_eq_some.mp hv).1
  simp only [List.getElem?_set_self hlen, Option.some_bind, List.getElem?_set_self hlen2,
    Option.map_some']

/-- A match of `restore_vf_setings` at one slot, seen at another slot that
the loops reach and whose marker is not `DELETED`. -/
theorem restore_match_other (h : sriov_h) (g : parms_t) (s : restore_state) (i y : Nat)
    (port : sriov_port_s) (vf : vf_s) (i0 y0 : Nat) (R NV : Int) (v : vf_s)
    (hinit : g.initialised ≠ 0) (hs : s.conf.ports[i]? = some port) (hne : i ≠ i0 ∨ y ≠ y0)
    (hv : slot_view s.conf i0 y0 = some (R, NV, v)) (hi : i0 < s.conf.num_ports.toNat)
    (hy : y0 < NV.toNat) (hd : v.last_updated ≠ DELETED) :
    slot_view (restore_match h g s i y port vf).conf i0 y0 =
      some (R, NV, { v with last_updated := UNCHANGED }) := by
  have hview : slot_view (mark_reset s.conf i y port vf) i0 y0 = some (R, NV, v) := by
    rw [mark_reset_slot_view_other s.conf i y port vf i0 y0 hs hne]
    exact hv
  exact vfd_update_nic_slot_view h g _ i0 y0 R NV v hinit hview hi hy hd

theorem restore_match_num_ports (h : sriov_h) (g : parms_t) (s : restore_state) (i y : Nat)
    (port : sriov_port_s) (vf : vf_s) :
    (restore_match h g s i y port vf).conf.num_ports = s.conf.num_ports := by
  unfold restore_match
  rw [vfd_update_nic_num_ports]
  rfl

/-- A match of `restore_vf_setings`, seen at the matched slot: the slot gets
marker `UNCHANGED`, and the calls of the loop body for the slot with marker
`RESET` are among the calls of the pass. -/
theorem restore_match_target (h : sriov_h) (g : parms_t) (s : restore_state) (i y : Nat)
    (port : sriov_port_s) (vf : vf_s) (hinit : g.initialised ≠ 0)
    (hs : s.conf.ports[i]? = some port) (hv : port.vfs[y]? = some vf)
    (hi : i < s.conf.num_ports.toNat) (hy : y < port.num_vfs.toNat) :
    slot_view (restore_match h g s i y port vf).conf i y =
        some (port.rte_port_number, port.num_vfs, { vf with last_updated := UNCHANGED }) ∧
      ∃ pre post, (restore_match h g s i y port vf).calls =
        pre ++ (update_vf h g i y port { vf with last_updated := RESET }).1 ++ post := by
  have hview := mark_reset_slot_view_target s.conf i y port vf hs hv
  constructor
  · unfold restore_match
    have hd : ({ vf with last_updated := RESET } : vf_s).last_updated ≠ DELETED := by
      show RESET ≠ DELETED; decide
    exact vfd_update_nic_slot_view h g _ i y _ _ { vf with last_updated := RESET } hinit hview
      hi hy hd
  · obtain ⟨p1, hp1, hr1, hn1, hv1⟩ := (slot_view_eq_some _ i y _ _ _).mp hview
    obtain ⟨ps, qs, hports, hlen⟩ := getElem?_split _ i p1 hp1
    obtain ⟨vs, ws, hvfs, hlen2⟩ := getElem?_split _ y _ hv1
    subst hlen hlen2
    have hy1 : vs.length < p1.num_vfs.toNat := by rw [hn1]; exact hy
    have hrte : (mark_port p1).rte_port_number = port.rte_port_number := by
      rw [mark_port_rte_port_number, hr1]
    refine ⟨s.calls ++ ((update_ports h g 0 ps.length ps).1 ++ port_calls h g ps.length p1 ++
        (update_vfs h g ps.length (mark_port p1) 0 vs.length vs).1),
      (update_vfs h g ps.length (mark_port p1) (vs.length + 1)
        (p1.num_vfs.toNat - vs.length - 1) ws).1 ++
      (update_ports h g (ps.length + 1)
        ((mark_reset s.conf ps.length vs.length port vf).num_ports.toNat - ps.length - 1) qs).1,
      ?_⟩
    unfold restore_match
    show s.calls ++ (vfd_update_nic h g (mark_reset s.conf ps.length vs.length port vf)).calls = _
    rw [vfd_update_nic_calls_split h g _ ps p1 qs vs _ ws hinit hports hi hvfs hy1,
      update_vf_port_congr h g _ _ (mark_port p1) port _ hrte]
    simp only [List.append_assoc]

/-- One round of the VF loop of `restore_vf_setings`. -/
theorem restore_vfs_succ (h : sriov_h) (g : parms_t) (vf_id : Int) (i y n : Nat)
    (s : restore_state) :
    restore_vfs h g vf_id i y (n + 1) s =
      match s.conf.ports[i]? with
      | none => s
      | some port =>
        match port.vfs[y]? with
        | none => s
        | some vf =>
          if vf_id = vf.num then
            restore_vfs h g vf_id i (y + 1) n (restore_match h g s i y port vf)
          else restore_vfs h g vf_id i (y + 1) n s := by
  conv => lhs; unfold restore_vfs
  rfl

/-- One round of the port loop of `restore_vf_setings`. -/
theorem restore_ports_succ (h : sriov_h) (g : parms_t) (port_id : Nat) (vf_id : Int)
    (i n : Nat) (s : restore_state) :
    restore_ports h g port_id vf_id i (n + 1) s =
      match s.conf.ports[i]? with
      | none => s
      | some port =>
        if (port_id : Int) = port.rte_port_number then
          restore_ports h g port_id vf_id (i + 1) n
            (restore_vfs h g vf_id i 0 port.num_vfs.toNat s)
        else restore_ports h g port_id vf_id (i + 1) n s := by
  conv => lhs; unfold restore_ports

theorem restore_vfs_zero (h : sriov_h) (g : parms_t) (vf_id : Int) (i y : Nat)
    (s : restore_state) : restore_vfs h g vf_id i y 0 s = s := by
  unfold restore_vfs; rfl

theorem restore_ports_zero (h : sriov_h) (g : parms_t) (port_id : Nat) (vf_id : Int)
    (i : Nat) (s : restore_state) : restore_ports h g port_id vf_id i 0 s = s := by
  unfold restore_ports; rfl

/-- The VF loop stops at a slot beyond the list. -/
theorem restore_vfs_beyond (h : sriov_h) (g : parms_t) (vf_id : Int) (i y n : Nat)
    (s : restore_state)
    (hb : s.conf.ports[i]? = none ∨ ∃ port, s.conf.ports[i]? = some port ∧ port.vfs[y]? = none) :
    restore_vfs h g vf_id i y n s = s := by
  cases n with
  | zero => exact restore_vfs_zero h g vf_id i y s
  | succ m =>
    rw [restore_vfs_succ]
    rcases hb with hb | ⟨port, hp, hv⟩
    · rw [hb]
    · rw [hp]; dsimp only; rw [hv]

/-- The port loop stops at a port beyond the list. -/
theorem restore_ports_beyond (h : sriov_h) (g : parms_t) (port_id : Nat) (vf_id : Int)
    (i n : Nat) (s : restore_state) (hb : s.conf.ports[i]? = none) :
    restore_ports h g port_id vf_id i n s = s := by
  cases n with
  | zero => exact restore_ports_zero h g port_id vf_id i s
  | succ m => rw [restore_ports_succ, hb]

/-- The VF loop over `k + m` slots is the loop over the first `k` slots
followed by the loop over the next `m`. -/
theorem restore_vfs_split (h : sriov_h) (g : parms_t) (vf_id : Int) (i : Nat) (k m y : Nat)
    (s : restore_state) :
    restore_vfs h g vf_id i y (k + m) s =
      restore_vfs h g vf_id i (y + k) m (restore_vfs h g vf_id i y k s) := by
  induction k generalizing y s with
  | zero => rw [restore_vfs_zero]; simp
  | succ j ih =>
    have e : j + 1 + m = (j + m) + 1 := by omega
    have e2 : y + (j + 1) = (y + 1) + j := by omega
    rw [e, restore_vfs_succ, restore_vfs_succ h g vf_id i y j s, e2]
    cases hp : s.conf.ports[i]? with
    | none =>
      dsimp only
      exact (restore_vfs_beyond h g vf_id i _ m s (Or.inl hp)).symm
    | some port =>
      dsimp only
      cases hv : port.vfs[y]? with
      | none =>
        dsimp only
        refine (restore_vfs_beyond h g vf_id i _ m s (Or.inr ⟨port, hp, ?_⟩)).symm
        rw [List.getElem?_eq_none_iff] at hv ⊢
        omega
      | some vf =>
        dsimp only
        split
        · exact ih (y + 1) _
        · exact ih (y + 1) _

/-- The port loop over `k + m` ports is the loop over the first `k` ports
followed by the loop over the next `m`. -/
theorem restore_ports_split (h : sriov_h) (g : parms_t) (port_id : Nat) (vf_id : Int)
    (k m i : Nat) (s : restore_state) :
    restore_ports h g port_id vf_id i (k + m) s =
      restore_ports h g port_id vf_id (i + k) m (restore_ports h g port_id vf_id i k s) := by
  induction k generalizing i s with
  | zero => rw [restore_ports_zero]; simp
  | succ j ih =>
    have e : j + 1 + m = (j + m) + 1 := by omega
    have e2 : i + (j + 1) = (i + 1) + j := by omega
    rw [e, restore_ports_succ, restore_ports_succ h g port_id vf_id i j s, e2]
    cases hp : s.conf.ports[i]? with
    | none =>
      dsimp only
      refine (restore_ports_beyond h g port_id vf_id _ m s ?_).symm
      rw [List.getElem?_eq_none_iff] at hp ⊢
      omega
    | some port =>
      dsimp only
      split
      · exact ih (i + 1) _
      · exact ih (i + 1) _

/-- A property of the state that every match at the slots from `lo` up to
`hi` of the port with index `i` keeps is kept by the VF loop over those
slots. -/
theorem restore_vfs_inv (h : sriov_h) (g : parms_t) (vf_id : Int) (i : Nat)
    (Inv : restore_state → Prop) (lo hi : Nat)
    (hstep : ∀ s y port vf, Inv s → lo ≤ y → y < hi → s.conf.ports[i]? = some port →
      port.vfs[y]? = some vf → vf_id = vf.num → Inv (restore_match h g s i y port vf))
    (n y : Nat) (s : restore_state) (hlo : lo ≤ y) (hhi : y + n ≤ hi) (hs : Inv s) :
    Inv (restore_vfs h g vf_id i y n s) := by
  induction n generalizing y s with
  | zero => rw [restore_vfs_zero]; exact hs
  | succ m ih =>
    rw [restore_vfs_succ]
    cases hp : s.conf.ports[i]? with
    | none => exact hs
    | some port =>
      dsimp only
      cases hv : port.vfs[y]? with
      | none => exact hs
      | some vf =>
        dsimp only
        split
        · next hm =>
          exact ih (y + 1) _ (by omega) (by omega)
            (hstep s y port vf hs hlo (by omega) hp hv hm)
        · exact ih (y + 1) s (by omega) (by omega) hs

/-- A property of the state that the VF loop of every port number match at
the ports from `lo` up to `hi` keeps is kept by the port loop over those
ports. -/
theorem restore_ports_inv (h : sriov_h) (g : parms_t) (port_id : Nat) (vf_id : Int)
    (Inv : restore_state → Prop) (lo hi : Nat)
    (hround : ∀ s i port, Inv s → lo ≤ i → i < hi → s.conf.ports[i]? = some port →
      (port_id : Int) = port.rte_port_number →
      Inv (restore_vfs h g vf_id i 0 port.num_vfs.toNat s))
    (n i : Nat) (s : restore_state) (hlo : lo ≤ i) (hhi : i + n ≤ hi) (hs : Inv s) :
    Inv (restore_ports h g port_id vf_id i n s) := by
  induction n generalizing i s with
  | zero => rw [restore_ports_zero]; exact hs
  | succ m ih =>
    rw [restore_ports_succ]
    cases hp : s.conf.ports[i]? with
    | none => exact hs
    | some port =>
      dsimp only
      split
      · next hm =>
        exact ih (i + 1) _ (by omega) (by omega) (hround s i port hs hlo (by omega) hp hm)
      · exact ih (i + 1) s (by omega) (by omega) hs

/-- Once a slot has been re-applied, a match at another slot keeps what has
been reached: the view of the slot, with marker `UNCHANGED`, the calls issued
for it, and a counter of at least 1. -/
theorem restore_match_post (h : sriov_h) (g : parms_t) (N : Int) (i0 y0 : Nat) (R NV : Int)
    (V : vf_s) (seg : List NicCall) (hinit : g.initialised ≠ 0) (hi : i0 < N.toNat)
    (hy : y0 < NV.toNat) (hV : V.last_updated = UNCHANGED)
    (s : restore_state) (i y : Nat) (port : sriov_port_s) (vf : vf_s)
    (hs : s.conf.num_ports = N ∧ slot_view s.conf i0 y0 = some (R, NV, V) ∧ 1 ≤ s.matched ∧
      ∃ pre post, s.calls = pre ++ seg ++ post)
    (hne : i ≠ i0 ∨ y ≠ y0) (hp : s.conf.ports[i]? = some port) :
    (restore_match h g s i y port vf).conf.num_ports = N ∧
      slot_view (restore_match h g s i y port vf).conf i0 y0 = some (R, NV, V) ∧
      1 ≤ (restore_match h g s i y port vf).matched ∧
      ∃ pre post, (restore_match h g s i y port vf).calls = pre ++ seg ++ post := by
  obtain ⟨h1, h2, h3, pre, post, h4⟩ := hs
  have hd : V.last_updated ≠ DELETED := by rw [hV]; decide
  have hVV : ({ V with last_updated := UNCHANGED } : vf_s) = V := by
    cases V
    simp only at hV
    simp [hV]
  refine ⟨by rw [restore_match_num_ports, h1], ?_, ?_, ?_⟩
  · rw [restore_match_other h g s i y port vf i0 y0 R NV V hinit hp hne h2 (by rw [h1]; exact hi)
      hy hd, hVV]
  · show 1 ≤ s.matched + 1
    omega
  · refine ⟨pre, post ++ (vfd_update_nic h g (mark_reset s.conf i y port vf)).calls, ?_⟩
    show s.calls ++ _ = _
    rw [h4]
    simp only [List.append_assoc]

/-- The run of `restore_vf_setings` up to a slot that matches, and on from
there.  `Pre` is a property of the state that holds at the start, that the
rounds before the slot keep, and under which the slot still has the settings
it had at the start.  The slot is then marked `RESET` and re-applied by a
pass, and the rest of the run leaves it as that pass has left it. -/
theorem restore_vf_setings_reach (h : sriov_h) (g : parms_t) (conf : sriov_conf_t)
    (port_id : Nat) (vf_id : Int) (i0 y0 : Nat) (port : sriov_port_s) (vf : vf_s)
    (Pre : restore_state → Prop) (hinit : g.initialised ≠ 0)
    (hi : i0 < conf.num_ports.toNat) (hy : y0 < port.num_vfs.toNat)
    (hrte : (port_id : Int) = port.rte_port_number) (hnum : vf_id = vf.num)
    (hpre0 : Pre { calls := [], conf := conf, matched := 0 })
    (hready : ∀ s, Pre s → s.conf.num_ports = conf.num_ports ∧
      ∃ v, slot_view s.conf i0 y0 = some (port.rte_port_number, port.num_vfs, v) ∧
        ({ v with last_updated := UNCHANGED } : vf_s) = { vf with last_updated := UNCHANGED })
    (hround : ∀ s i p, Pre s → i < i0 → s.conf.ports[i]? = some p →
      (port_id : Int) = p.rte_port_number → Pre (restore_vfs h g vf_id i 0 p.num_vfs.toNat s))
    (hstep : ∀ s y p v, Pre s → y < y0 → s.conf.ports[i0]? = some p → p.vfs[y]? = some v →
      vf_id = v.num → Pre (restore_match h g s i0 y p v)) :
    (restore_vf_setings h g conf port_id vf_id).conf.num_ports = conf.num_ports ∧
      slot_view (restore_vf_setings h g conf port_id vf_id).conf i0 y0 =
        some (port.rte_port_number, port.num_vfs, { vf with last_updated := UNCHANGED }) ∧
      1 ≤ (restore_vf_setings h g conf port_id vf_id).matched ∧
      ∃ pre post, (restore_vf_setings h g conf port_id vf_id).calls =
        pre ++ (update_vf h g i0 y0 port { vf with last_updated := RESET }).1 ++ post := by
  obtain ⟨m, hm⟩ : ∃ m, conf.num_ports.toNat = i0 + (1 + m) :=
    ⟨conf.num_ports.toNat - i0 - 1, by omega⟩
  obtain ⟨m2, hm2⟩ : ∃ m2, port.num_vfs.toNat = y0 + (1 + m2) :=
    ⟨port.num_vfs.toNat - y0 - 1, by omega⟩
  -- the ports before the port of the slot
  have hA : Pre (restore_ports h g port_id vf_id 0 i0 { calls := [], conf := conf, matched := 0 }) :=
    restore_ports_inv h g port_id vf_id Pre 0 i0
      (fun s i p hs _ hlt hp hmatch => hround s i p hs hlt hp hmatch) i0 0 _ (le_refl _)
      (by omega) hpre0
  generalize hsA :
    restore_ports h g port_id vf_id 0 i0 { calls := [], conf := conf, matched := 0 } = sA at hA
  obtain ⟨_, vA, hviewA, _⟩ := hready sA hA
  obtain ⟨pA, hpA, hrA, hnA, _⟩ := (slot_view_eq_some _ _ _ _ _ _).mp hviewA
  -- the slots before the slot
  have hB : Pre (restore_vfs h g vf_id i0 0 y0 sA) :=
    restore_vfs_inv h g vf_id i0 Pre 0 y0
      (fun s y p v hs _ hlt hp hv hmatch => hstep s y p v hs hlt hp hv hmatch) y0 0 sA
      (le_refl _) (by omega) hA
  generalize hsB : restore_vfs h g vf_id i0 0 y0 sA = sB at hB
  obtain ⟨hnB, vB, hviewB, heqB⟩ := hready sB hB
  obtain ⟨pB, hpB, hrB, hnumB, hvB⟩ := (slot_view_eq_some _ _ _ _ _ _).mp hviewB
  have hmatchB : vf_id = vB.num := by
    rw [hnum]
    exact (congrArg vf_s.num heqB).symm
  have hresetB : ({ vB with last_updated := RESET } : vf_s) = { vf with last_updated := RESET } :=
    congrArg (fun w : vf_s => { w with last_updated := RESET }) heqB
  -- the match at the slot
  have hiB : i0 < sB.conf.num_ports.toNat := by rw [hnB]; exact hi
  have hyB : y0 < pB.num_vfs.toNat := by rw [hnumB]; exact hy
  obtain ⟨hviewC, preC, postC, hcallsC⟩ :=
    restore_match_target h g sB i0 y0 pB vB hinit hpB hvB hiB hyB
  have hC : (restore_match h g sB i0 y0 pB vB).conf.num_ports = conf.num_ports ∧
      slot_view (restore_match h g sB i0 y0 pB vB).conf i0 y0 =
        some (port.rte_port_number, port.num_vfs, { vf with last_updated := UNCHANGED }) ∧
      1 ≤ (restore_match h g sB i0 y0 pB vB).matched ∧
      ∃ pre post, (restore_match h g sB i0 y0 pB vB).calls =
        pre ++ (update_vf h g i0 y0 port { vf with last_updated := RESET }).1 ++ post := by
    refine ⟨by rw [restore_match_num_ports, hnB], ?_, ?_, ?_⟩
    · rw [hviewC, hrB, hnumB, heqB]
    · show 1 ≤ sB.matched + 1
      omega
    · refine ⟨preC, postC, ?_⟩
      rw [hcallsC, hresetB, update_vf_port_congr h g i0 y0 pB port _ hrB]
  -- the rest of the run
  have hpost := restore_match_post h g conf.num_ports i0 y0 port.rte_port_number port.num_vfs
    { vf with last_updated := UNCHANGED }
    (update_vf h g i0 y0 port { vf with last_updated := RESET }).1 hinit hi hy rfl
  have hD := restore_vfs_inv h g vf_id i0 _ (y0 + 1) (y0 + 1 + m2)
    (fun s y p v hs hlo _ hp _ _ => hpost s i0 y p v hs (Or.inr (by omega)) hp)
    m2 (y0 + 1) _ (le_refl _) (le_refl _) hC
  have hE := restore_ports_inv h g port_id vf_id _ (i0 + 1) (i0 + 1 + m)
    (fun s i p hs hlo _ _ _ =>
      restore_vfs_inv h g vf_id i _ 0 p.num_vfs.toNat
        (fun s2 y p2 v hs2 _ _ hp2 _ _ => hpost s2 i y p2 v hs2 (Or.inl (by omega)) hp2)
        p.num_vfs.toNat 0 s (le_refl _) (by omega) hs)
    m (i0 + 1) _ (le_refl _) (le_refl _) hD
  -- the run, cut at the slot
  have hrun : restore_vf_setings h g conf port_id vf_id =
      restore_ports h g port_id vf_id (i0 + 1) m
        (restore_vfs h g vf_id i0 (y0 + 1) m2 (restore_match h g sB i0 y0 pB vB)) := by
    have hround1 : restore_ports h g port_id vf_id i0 1 sA =
        restore_vfs h g vf_id i0 0 pA.num_vfs.toNat sA := by
      rw [restore_ports_match h g port_id vf_id i0 0 sA pA hpA (hrte.trans hrA.symm),
        restore_ports_zero]
    have hstep1 : restore_vfs h g vf_id i0 y0 1 sB = restore_match h g sB i0 y0 pB vB := by
      rw [restore_vfs_succ, hpB]
      dsimp only
      rw [hvB]
      dsimp only
      rw [if_pos hmatchB, restore_vfs_zero]
    unfold restore_vf_setings
    rw [hm, restore_ports_split h g port_id vf_id i0 (1 + m) 0, hsA, Nat.zero_add,
      restore_ports_split h g port_id vf_id 1 m i0, hround1, hnA, hm2,
      restore_vfs_split h g vf_id i0 y0 (1 + m2) 0, hsB, Nat.zero_add,
      restore_vfs_split h g vf_id i0 1 m2 y0, hstep1]
  rw [hrun]
  exact hE

/-! ## Theorems on `restore_vf_setings` -/

/-- C19 fails as worded on a configuration in which `(port_id, vf_id)`
matches two VFs: two ports carry the port number 0 and each holds a VF 1, the
second one marked `DELETED`.  `restore_vf_setings( 0, 1 )` matches the first
VF and runs the reconciler on the whole configuration; that pass carries out
the delete of the second VF, whose index is -1 on return and which the loop
then no longer matches. -/
theorem restore_vf_setings_twin :
    slot_view example_twin_conf 1 0 = some (0, 1, example_pending_vf) ∧
      (0 : Int) ≤ example_pending_vf.num ∧
      (restore_vf_setings example_h example_parms example_twin_conf 0 1).matched = 1 ∧
      slot_view (restore_vf_setings example_h example_parms example_twin_conf 0 1).conf 1 0 =
        some (0, 1, { example_pending_vf with start_cb := none, stop_cb := none, num := -1,
                                              last_updated := UNCHANGED }) ∧
      (restore_vf_setings example_h example_parms example_twin_conf 0 1).calls =
        [tx_set_loopback 0 0, set_queue_drop 0 1,
         set_vf_rx_vlan 0 30 2 1,
         set_split_erop 0 0 1, set_vf_vlan_anti_spoofing 0 1 0, set_vf_mac_anti_spoofing 0 1 0,
         rx_vlan_strip_set_on_vf 0 1 0, tx_vlan_insert_set_on_vf 0 1 0,
         set_vf_allow_bcast 0 1 0, set_vf_allow_mcast 0 1 0, set_vf_allow_un_ucast 0 1 0,
         rte_eth_promiscuous_enable 0, rte_eth_allmulticast_enable 0,
         rte_eth_dev_uc_all_hash_table_set 0 1, rte_eth_dev_set_vf_rxmode 0 1 1 0,
         tx_set_loopback 1 0, set_queue_drop 1 1,
         set_vf_rx_vlan 0 10 2 0, set_vf_rx_vlan 0 20 2 0,
         set_vf_rx_mac 0 "fa:ce:de:02:00:01" 1 0] := by
  decide

/-- C19, amended: with `initialised` and `forreal` on, let `(port_id, vf_id)`
with `vf_id >= 0` match the VF in slot `y` of the port with index `i`, within
`num_ports` and `num_vfs`; and let that VF be the first one that the loops
match, or else not be marked `DELETED`.  Then `restore_vf_setings` invokes the
reconciler at least once, and its calls contain, in one piece: one add-VLAN
call (`set_vf_rx_vlan`, `onoff` 1) per recorded VLAN and one add-MAC call
(`set_vf_rx_mac`, `onoff` 1) per recorded MAC of the VF, the rate-limit call
if a rate is set, the setting calls and the end-of-round calls.  On return
the slot is as it was (index, VLAN list, MAC list, rate, flags) with marker
`UNCHANGED`.  When no VF of a port with that port number has that index, the
function issues no call, does not invoke the reconciler and leaves the
configuration as it is. -/
theorem restore_vf_setings_reapplies (h : sriov_h) (g : parms_t) (conf : sriov_conf_t)
    (port_id : Nat) (vf_id : Int) (i y : Nat) (port : sriov_port_s) (vf : vf_s) :
    (g.initialised ≠ 0 → g.forreal ≠ 0 →
      conf.ports[i]? = some port → i < conf.num_ports.toNat →
      port.vfs[y]? = some vf → y < port.num_vfs.toNat →
      (port_id : Int) = port.rte_port_number → vf_id = vf.num → 0 ≤ vf_id →
      (vf.last_updated = DELETED →
        (∀ i2 p, i2 < i → conf.ports[i2]? = some p → (port_id : Int) = p.rte_port_number →
          ∀ y2 v, y2 < p.num_vfs.toNat → p.vfs[y2]? = some v → vf_id ≠ v.num) ∧
        (∀ y2 v, y2 < y → port.vfs[y2]? = some v → vf_id ≠ v.num)) →
      1 ≤ (restore_vf_setings h g conf port_id vf_id).matched ∧
      (∃ pre post, (restore_vf_setings h g conf port_id vf_id).calls =
        pre ++
        (((recorded_vlans vf).map fun vlan =>
            set_vf_rx_vlan port.rte_port_number vlan (h.VFN2MASK vf.num) 1) ++
          ((recorded_macs vf).map fun mac =>
            set_vf_rx_mac port.rte_port_number mac vf.num 1) ++
          (if vf.rate > 0 then
            [set_vf_rate_limit port.rte_port_number vf.num (h.rate_arg vf.rate) 1] else []) ++
          [set_split_erop i y 1,
           set_vf_vlan_anti_spoofing port.rte_port_number vf.num vf.vlan_anti_spoof,
           set_vf_mac_anti_spoofing port.rte_port_number vf.num vf.mac_anti_spoof,
           rx_vlan_strip_set_on_vf port.rte_port_number vf.num
             (if vf.num_vlans = 1 then vf.strip_stag else 0),
           tx_vlan_insert_set_on_vf port.rte_port_number vf.num
             (if vf.num_vlans = 1 ∧ vf.insert_stag ≠ 0 then vf.vlans.getD 0 0 else 0),
           set_vf_allow_bcast port.rte_port_number vf.num vf.allow_bcast,
           set_vf_allow_mcast port.rte_port_number vf.num vf.allow_mcast,
           set_vf_allow_un_ucast port.rte_port_number vf.num vf.allow_un_ucast] ++
          [rte_eth_promiscuous_enable port.rte_port_number,
           rte_eth_allmulticast_enable port.rte_port_number,
           rte_eth_dev_uc_all_hash_table_set port.rte_port_number 1,
           rte_eth_dev_set_vf_rxmode port.rte_port_number vf.num
             (0 ||| h.ETH_VMDQ_ACCEPT_UNTAG) 0]) ++
        post) ∧
      ((restore_vf_setings h g conf port_id vf_id).conf.ports[i]?.bind
          fun p => p.vfs[y]?) = some { vf with last_updated := UNCHANGED }) ∧
    ((∀ p ∈ conf.ports.take conf.num_ports.toNat, (port_id : Int) = p.rte_port_number →
        ∀ v ∈ p.vfs.take p.num_vfs.toNat, vf_id ≠ v.num) →
      (restore_vf_setings h g conf port_id vf_id).calls = [] ∧
      (restore_vf_setings h g conf port_id vf_id).matched = 0 ∧
      (restore_vf_setings h g conf port_id vf_id).conf = conf) := by
  constructor
  · intro hinit hreal hport hi hvf hy hrte hnum hid hfirst
    have hview0 : slot_view conf i y = some (port.rte_port_number, port.num_vfs, vf) :=
      (slot_view_eq_some conf i y _ _ vf).mpr ⟨port, hport, rfl, rfl, hvf⟩
    have key : (restore_vf_setings h g conf port_id vf_id).conf.num_ports = conf.num_ports ∧
        slot_view (restore_vf_setings h g conf port_id vf_id).conf i y =
          some (port.rte_port_number, port.num_vfs, { vf with last_updated := UNCHANGED }) ∧
        1 ≤ (restore_vf_setings h g conf port_id vf_id).matched ∧
        ∃ pre post, (restore_vf_setings h g conf port_id vf_id).calls =
          pre ++ (update_vf h g i y port { vf with last_updated := RESET }).1 ++ post := by
      by_cases hd : vf.last_updated = DELETED
      · -- the first match: nothing happens before the slot is reached
        obtain ⟨hf1, hf2⟩ := hfirst hd
        apply restore_vf_setings_reach h g conf port_id vf_id i y port vf
          (fun s => s = { calls := [], conf := conf, matched := 0 }) hinit hi hy hrte hnum rfl
        · intro s hs
          rw [hs]
          exact ⟨rfl, vf, hview0, rfl⟩
        · intro s i2 p hs hlt hp hmatch
          rw [hs] at hp ⊢
          apply restore_vfs_skip
          intro port2 v y2 _ hy2 hp2 hv
          have hpp : port2 = p := Option.some.inj (hp2.symm.trans hp)
          rw [hpp] at hv
          exact hf1 i2 p hlt hp hmatch y2 v (by omega) hv
        · intro s y2 p v hs hlt hp hv hmatch
          rw [hs] at hp
          have hpp : p = port := Option.some.inj (hp.symm.trans hport)
          rw [hpp] at hv
          exact absurd hmatch (hf2 y2 v hlt hv)
      · -- a VF that is not marked for delete keeps its settings in every pass
        have hstepA : ∀ (s : restore_state) (i2 y2 : Nat) (p : sriov_port_s) (v2 : vf_s),
            (s.conf.num_ports = conf.num_ports ∧
              ∃ v, slot_view s.conf i y = some (port.rte_port_number, port.num_vfs, v) ∧
                v.last_updated ≠ DELETED ∧
                ({ v with last_updated := UNCHANGED } : vf_s) =
                  { vf with last_updated := UNCHANGED }) →
            (i2 ≠ i ∨ y2 ≠ y) → s.conf.ports[i2]? = some p →
            ((restore_match h g s i2 y2 p v2).conf.num_ports = conf.num_ports ∧
              ∃ v, slot_view (restore_match h g s i2 y2 p v2).conf i y =
                  some (port.rte_port_number, port.num_vfs, v) ∧
                v.last_updated ≠ DELETED ∧
                ({ v with last_updated := UNCHANGED } : vf_s) =
                  { vf with last_updated := UNCHANGED }) := by
          intro s i2 y2 p v2 hs hne hp
          obtain ⟨h1, v, h2, h3, h4⟩ := hs
          refine ⟨by rw [restore_match_num_ports, h1], { v with last_updated := UNCHANGED },
            restore_match_other h g s i2 y2 p v2 i y _ _ v hinit hp hne h2
              (by rw [h1]; exact hi) hy h3, ?_, h4⟩
          show UNCHANGED ≠ DELETED
          decide
        apply restore_vf_setings_reach h g conf port_id vf_id i y port vf
          (fun s => s.conf.num_ports = conf.num_ports ∧
            ∃ v, slot_view s.conf i y = some (port.rte_port_number, port.num_vfs, v) ∧
              v.last_updated ≠ DELETED ∧
              ({ v with last_updated := UNCHANGED } : vf_s) =
                { vf with last_updated := UNCHANGED }) hinit hi hy hrte hnum
          ⟨rfl, vf, hview0, hd, rfl⟩
        · intro s hs
          obtain ⟨h1, v, h2, _, h4⟩ := hs
          exact ⟨h1, v, h2, h4⟩
        · intro s i2 p hs hlt _ _
          exact restore_vfs_inv h g vf_id i2 _ 0 p.num_vfs.toNat
            (fun s2 y2 p2 v2 hs2 _ _ hp2 _ _ =>
              hstepA s2 i2 y2 p2 v2 hs2 (Or.inl (by omega)) hp2)
            p.num_vfs.toNat 0 s (le_refl _) (by omega) hs
        · intro s y2 p v hs hlt hp _ _
          exact hstepA s i y2 p v hs (Or.inr (by omega)) hp
    obtain ⟨_, hview, hmatched, pre, post, hcalls⟩ := key
    have hu : ({ vf with last_updated := RESET } : vf_s).last_updated ≠ UNCHANGED := by
      show RESET ≠ UNCHANGED; decide
    have hdel : ({ vf with last_updated := RESET } : vf_s).last_updated ≠ DELETED := by
      show RESET ≠ DELETED; decide
    have hnum0 : 0 ≤ ({ vf with last_updated := RESET } : vf_s).num := by
      show 0 ≤ vf.num; omega
    rw [update_vf_applied h g _ _ _ _ hreal hu hdel hnum0] at hcalls
    refine ⟨hmatched, ⟨pre, post, hcalls⟩, ?_⟩
    obtain ⟨p, hp, _, _, hv⟩ := (slot_view_eq_some _ _ _ _ _ _).mp hview
    rw [hp]
    exact hv
  · intro hno
    have hres : restore_vf_setings h g conf port_id vf_id =
        { calls := [], conf := conf, matched := 0 } := by
      unfold restore_vf_setings
      apply restore_ports_nomatch
      intro p i2 _ h2 hp hm v y hy hv
      exact hno p (mem_take_of_getElem? _ i2 _ p hp (by omega)) hm v
        (mem_take_of_getElem? _ y _ v hv hy)
    rw [hres]
    exact ⟨rfl, rfl, rfl⟩

/-- C19's amended statement on the configuration with two ports of port
number 0: `(0, 1)` matches the VF in slot 0 of the first port, which is the
first match; the reconciler runs and the slot is as before with marker
`UNCHANGED`.  On the example configuration `(0, 7)` matches nothing and
nothing happens. -/
theorem restore_vf_setings_reapplies_witness :
    (1 ≤ (restore_vf_setings example_h example_parms example_twin_conf 0 1).matched ∧
      ((restore_vf_setings example_h example_parms example_twin_conf 0 1).conf.ports[0]?.bind
          fun p => p.vfs[0]?) = some { example_idle_vf with last_updated := UNCHANGED }) ∧
    ((restore_vf_setings example_h example_parms example_conf 0 7).calls = [] ∧
      (restore_vf_setings example_h example_parms example_conf 0 7).matched = 0 ∧
      (restore_vf_setings example_h example_parms example_conf 0 7).conf = example_conf) :=
  have t := (restore_vf_setings_reapplies example_h example_parms example_twin_conf 0 1
    0 0 { example_port with num_vfs := 1, vfs := [example_idle_vf] } example_idle_vf).1
    (by decide) (by decide) rfl (by decide) rfl (by decide) (by decide) (by decide) (by decide)
    (fun hd => absurd hd (by decide))
  ⟨⟨t.1, t.2.2⟩,
   (restore_vf_setings_reapplies example_h example_parms example_conf 0 7
    0 0 example_port example_idle_vf).2 (by decide)⟩

/-! ## `vfd_update_nic` with `forreal` off -/

end Vfd
